import Mathlib

/-!
# Overflow-aware integer arithmetic (`safe_int_arith_80.hxx`)

A shallow embedding of the `sia80` function templates.  A C++ integer type is
a pair (signedness, width); a value of that type is an `Int` lying in the
range of the type.  Template parameters become explicit `IType` arguments.

* `cx_` functions return `Except Fault Int`: a thrown exception is
  `Fault.throws`.
* `cf_` functions take the `int` behind `flag` and return the pair
  (returned value, flag afterwards).
* native operators whose behaviour is undefined on part of their domain
  (`/`, `%`, shifts, signed `-`) are modelled as partial operations that
  return `Fault.undefined` there.
-/

namespace sia80

/-! ## Data model: integer types (LP64 data model of the GCC targets) -/

/-- Storage widths of the integer types: `char` 8, `short` 16, `int` 32,
`long` and `long long` 64. -/
inductive Width where
  | w8
  | w16
  | w32
  | w64
  deriving DecidableEq

/-- Number of bits of a width. -/
def Width.bits : Width → Nat
  | .w8 => 8
  | .w16 => 16
  | .w32 => 32
  | .w64 => 64

/-- An integer type `T` with `std::is_integral<T>::value`: its signedness and
its width. -/
structure IType where
  signed : Bool
  width : Width
  deriving DecidableEq

namespace IType

/-- The type `signed char`. -/
def schar : IType := ⟨true, .w8⟩
/-- The type `unsigned char`. -/
def uchar : IType := ⟨false, .w8⟩
/-- The type `short`. -/
def short : IType := ⟨true, .w16⟩
/-- The type `unsigned short`. -/
def ushort : IType := ⟨false, .w16⟩
/-- The type `int`. -/
def int : IType := ⟨true, .w32⟩
/-- The type `unsigned int`. -/
def uint : IType := ⟨false, .w32⟩
/-- The type `long`. -/
def long : IType := ⟨true, .w64⟩
/-- The type `unsigned long`. -/
def ulong : IType := ⟨false, .w64⟩

/-- Total number of bits of the object representation. -/
def bits (t : IType) : Nat := t.width.bits

/-- The constant `std::numeric_limits<T>::digits`: the number of value bits,
the sign bit excluded. -/
def digits (t : IType) : Nat := if t.signed then t.width.bits - 1 else t.width.bits

/-- The constant `std::numeric_limits<T>::max()`. -/
def max (t : IType) : Int := 2 ^ t.digits - 1

/-- The constant `std::numeric_limits<T>::min()`. -/
def min (t : IType) : Int := if t.signed then -(2 ^ t.digits) else 0

/-- The type `std::make_unsigned_t<T>`. -/
def toUnsigned (t : IType) : IType := ⟨false, t.width⟩

end IType

/-- The value `v` is a value of type `t`. -/
def InRange (t : IType) (v : Int) : Prop := t.min ≤ v ∧ v ≤ t.max

instance (t : IType) (v : Int) : Decidable (InRange t v) := by
  unfold InRange
  infer_instance

/-- Conversion of an arbitrary integer to type `t`: the unique value of `t`
congruent to `x` modulo `2 ^ bits` (two's complement). -/
def wrap (t : IType) (x : Int) : Int :=
  let r := x % 2 ^ t.bits
  if t.signed && decide (2 ^ t.digits ≤ r) then r - 2 ^ t.bits else r

/-- The value `r` is the unique value of type `t` congruent to `x` modulo
`2 ^ bits`, the width of `t`. -/
def IsWrapOf (t : IType) (x r : Int) : Prop :=
  InRange t r ∧ r % 2 ^ t.bits = x % 2 ^ t.bits ∧
    ∀ r2 : Int, InRange t r2 → r2 % 2 ^ t.bits = x % 2 ^ t.bits → r2 = r

/-- The value `r` of type `t` is a closest one to the integer `x`: no value of
`t` is nearer to `x`. -/
def IsClosest (t : IType) (x r : Int) : Prop :=
  InRange t r ∧ ∀ r2 : Int, InRange t r2 → |x - r| ≤ |x - r2|

/-- Integral promotion, the type of `v + 0`: a type narrower than `int`
becomes `int` (which holds all its values), any other type is kept. -/
def promote (t : IType) : IType :=
  match t.width with
  | .w8 => IType.int
  | .w16 => IType.int
  | _ => t

/-- Usual arithmetic conversions, the type `decltype(v1 + v2)`: both operands
are promoted; with equal signedness the wider type wins; otherwise the
unsigned type wins unless the signed one is strictly wider (it then holds all
values of the unsigned one). -/
def arith (T1 T2 : IType) : IType :=
  let p1 := promote T1
  let p2 := promote T2
  if p1.signed = p2.signed then
    if p2.bits ≤ p1.bits then p1 else p2
  else
    let u := if p1.signed then p2 else p1
    let s := if p1.signed then p1 else p2
    if s.bits ≤ u.bits then u else s

/-! ## Failures -/

/-- The standard exceptions thrown by the checked functions, with their
`what()` text. -/
inductive Exc where
  | overflow_error (what : String)
  | domain_error (what : String)
  | range_error (what : String)
  | out_of_range (what : String)
  deriving DecidableEq

/-- Ways in which a call does not return a value: a thrown exception,
undefined behaviour of a native operator, or a call that has no valid
template instantiation. -/
inductive Fault where
  | throws (e : Exc)
  | undefined
  | ill_formed
  deriving DecidableEq

/-! ## Compiler primitives -/

/-- The GCC built-in `__builtin_add_overflow(a, b, &result)` with `result` of
type `TR`: the sum is computed in infinite precision, stored converted to
`TR`, and the return value tells whether the stored value differs from it. -/
def builtin_add_overflow (TR : IType) (a b : Int) : Int × Bool :=
  (wrap TR (a + b), decide (wrap TR (a + b) ≠ a + b))

/-- The GCC built-in `__builtin_sub_overflow`, as `builtin_add_overflow`. -/
def builtin_sub_overflow (TR : IType) (a b : Int) : Int × Bool :=
  (wrap TR (a - b), decide (wrap TR (a - b) ≠ a - b))

/-- The GCC built-in `__builtin_mul_overflow`, as `builtin_add_overflow`. -/
def builtin_mul_overflow (TR : IType) (a b : Int) : Int × Bool :=
  (wrap TR (a * b), decide (wrap TR (a * b) ≠ a * b))

/-- Comparison `a < b` of a `T1` with a `T2`: both sides are first converted
to the common type. -/
def c_lt (T1 T2 : IType) (a b : Int) : Bool :=
  decide (wrap (arith T1 T2) a < wrap (arith T1 T2) b)

/-- Comparison `a == b` of a `T1` with a `T2`, in the common type. -/
def c_eq (T1 T2 : IType) (a b : Int) : Bool :=
  decide (wrap (arith T1 T2) a = wrap (arith T1 T2) b)

/-- Comparison `a >= b`, the negation of `a < b`. -/
def c_ge (T1 T2 : IType) (a b : Int) : Bool := !c_lt T1 T2 a b

/-- Comparison `a > b`, that is `b < a`. -/
def c_gt (T1 T2 : IType) (a b : Int) : Bool := c_lt T2 T1 b a

/-! ## add -/

/-- The function `cx_add`. -/
def cx_add (T1 T2 : IType) (v1 v2 : Int) : Except Fault Int :=
  let TR := arith T1 T2
  let r := builtin_add_overflow TR v1 v2
  if r.2 then .error (.throws (.overflow_error "cx_add")) else .ok r.1

/-- The function `cf_add`; `flag` is the value behind the pointer. -/
def cf_add (T1 T2 : IType) (v1 v2 : Int) (flag : Int) : Int × Int :=
  let TR := arith T1 T2
  let r := builtin_add_overflow TR v1 v2
  if r.2 then (r.1, 1) else (r.1, flag)

/-- The function `tr_add`. -/
def tr_add (T1 T2 : IType) (v1 v2 : Int) : Int :=
  let TR := arith T1 T2
  (builtin_add_overflow TR v1 v2).1

/-- The function `sr_add`. -/
def sr_add (T1 T2 : IType) (v1 v2 : Int) : Int :=
  let TR := arith T1 T2
  let r := builtin_add_overflow TR v1 v2
  if r.2 then
    if c_lt T1 IType.int v1 0 then TR.min else TR.max
  else r.1

/-! ## sub -/

/-- The function `cx_sub`. -/
def cx_sub (T1 T2 : IType) (v1 v2 : Int) : Except Fault Int :=
  let TR := arith T1 T2
  let r := builtin_sub_overflow TR v1 v2
  if r.2 then .error (.throws (.overflow_error "cx_sub")) else .ok r.1

/-- The function `cf_sub`. -/
def cf_sub (T1 T2 : IType) (v1 v2 : Int) (flag : Int) : Int × Int :=
  let TR := arith T1 T2
  let r := builtin_sub_overflow TR v1 v2
  if r.2 then (r.1, 1) else (r.1, flag)

/-- The function `tr_sub`. -/
def tr_sub (T1 T2 : IType) (v1 v2 : Int) : Int :=
  let TR := arith T1 T2
  (builtin_sub_overflow TR v1 v2).1

/-- The function `sr_sub`. -/
def sr_sub (T1 T2 : IType) (v1 v2 : Int) : Int :=
  let TR := arith T1 T2
  let r := builtin_sub_overflow TR v1 v2
  if r.2 then
    if c_lt T1 IType.int v1 0 then TR.min else TR.max
  else r.1

/-! ## mul -/

/-- The function `cx_mul`. -/
def cx_mul (T1 T2 : IType) (v1 v2 : Int) : Except Fault Int :=
  let TR := arith T1 T2
  let r := builtin_mul_overflow TR v1 v2
  if r.2 then .error (.throws (.overflow_error "cx_mul")) else .ok r.1

/-- The function `cf_mul`. -/
def cf_mul (T1 T2 : IType) (v1 v2 : Int) (flag : Int) : Int × Int :=
  let TR := arith T1 T2
  let r := builtin_mul_overflow TR v1 v2
  if r.2 then (r.1, 1) else (r.1, flag)

/-- The function `tr_mul`. -/
def tr_mul (T1 T2 : IType) (v1 v2 : Int) : Int :=
  let TR := arith T1 T2
  (builtin_mul_overflow TR v1 v2).1

/-- The function `sr_mul`. -/
def sr_mul (T1 T2 : IType) (v1 v2 : Int) : Int :=
  let TR := arith T1 T2
  let r := builtin_mul_overflow TR v1 v2
  if r.2 then
    if (c_lt T1 IType.int v1 0 && c_ge T2 IType.int v2 0)
        || (c_ge T1 IType.int v1 0 && c_lt T2 IType.int v2 0) then TR.min
    else TR.max
  else r.1

/-! ## Native operators with a partial domain -/

/-- The native `a / b` on two values of the type `TR`: quotient truncated
toward zero; undefined for a zero divisor and for a quotient that `TR` cannot
hold. -/
def native_div (TR : IType) (a b : Int) : Except Fault Int :=
  if b = 0 then .error .undefined
  else if InRange TR (Int.tdiv a b) then .ok (Int.tdiv a b)
  else .error .undefined

/-- The native `a % b` on two values of the type `TR`: remainder of the
truncating division; undefined wherever `a / b` is. -/
def native_rem (TR : IType) (a b : Int) : Except Fault Int :=
  if b = 0 then .error .undefined
  else if InRange TR (Int.tdiv a b) then .ok (Int.tmod a b)
  else .error .undefined

/-- The native `a << n` on a value of the promoted type `T`: undefined for a
count that is negative or not below the width; otherwise the bits shifted out
are lost (GCC gives signed operands the same meaning). -/
def native_shl (T : IType) (a n : Int) : Except Fault Int :=
  if n < 0 ∨ (T.bits : Int) ≤ n then .error .undefined
  else .ok (wrap T (a * 2 ^ n.toNat))

/-- The native `a >> n` on a value of the promoted type `T`: undefined for a
count that is negative or not below the width; otherwise zero-filling for an
unsigned type and sign-propagating for a signed one (as GCC defines it), that
is the floor of `a / 2 ^ n`. -/
def native_shr (T : IType) (a n : Int) : Except Fault Int :=
  if n < 0 ∨ (T.bits : Int) ≤ n then .error .undefined
  else .ok (a / 2 ^ n.toNat)

/-- The native `a - b` on two values of the type `T`: modulo `2 ^ bits` for an
unsigned type, undefined on overflow for a signed one. -/
def native_sub (T : IType) (a b : Int) : Except Fault Int :=
  if T.signed && !decide (InRange T (a - b)) then .error .undefined
  else .ok (wrap T (a - b))

/-- The native `~a` on a value of the type `T`: every bit inverted. -/
def bit_not (T : IType) (a : Int) : Int := wrap T (-a - 1)

/-- The native `a & b` on two values of the type `T`: the two object
representations, read as naturals below `2 ^ bits`, are combined bit by bit
and the result is read back as a value of `T`. -/
def bit_and (T : IType) (a b : Int) : Int :=
  wrap T (((wrap T.toUnsigned a).toNat &&& (wrap T.toUnsigned b).toNat : Nat) : Int)

/-- The constraint `sizeof(To) == sizeof(From)` under which `ia_bit_cast` takes
part in overload resolution. -/
def ia_bit_cast_enabled (To From : IType) : Bool := decide (To.width = From.width)

/-- The function `ia_bit_cast<To>`: the object representation is copied, so
the value read back is the one congruent modulo `2 ^ bits`. -/
def ia_bit_cast (To : IType) (src : Int) : Int := wrap To src

/-! ## div, rem -/

/-- The function `cx_div`. -/
def cx_div (T1 T2 : IType) (ddnd dvsr : Int) : Except Fault Int :=
  let TR := arith T1 T2
  if c_eq T2 IType.int dvsr 0 then
    .error (.throws (.domain_error "cx_div divisor 0"))
  else if T2.signed && (c_eq T2 IType.int dvsr (-1) && c_eq T1 TR ddnd TR.min) then
    .error (.throws (.overflow_error "cx_div min neg"))
  else native_div TR (wrap TR ddnd) (wrap TR dvsr)

/-- The function `cx_rem`. -/
def cx_rem (T1 T2 : IType) (ddnd dvsr : Int) : Except Fault Int :=
  let TR := arith T1 T2
  if c_eq T2 IType.int dvsr 0 then
    .error (.throws (.domain_error "cx_rem divisor 0"))
  else if T2.signed && (c_eq T2 IType.int dvsr (-1) && c_eq T1 TR ddnd TR.min) then
    .error (.throws (.overflow_error "cx_rem min neg"))
  else native_rem TR (wrap TR ddnd) (wrap TR dvsr)

/-- The function `cf_div`; returns the quotient and the flag afterwards. -/
def cf_div (T1 T2 : IType) (ddnd dvsr : Int) (flag : Int) : Except Fault (Int × Int) :=
  let TR := arith T1 T2
  if c_eq T2 IType.int dvsr 0 then .ok (bit_not TR 0, 1)
  else if T2.signed && (c_eq T2 IType.int dvsr (-1) && c_eq T1 TR ddnd TR.min) then
    .ok (TR.min, 1)
  else
    match native_div TR (wrap TR ddnd) (wrap TR dvsr) with
    | .error e => .error e
    | .ok q => .ok (q, flag)

/-- The function `tr_div`. -/
def tr_div (T1 T2 : IType) (ddnd dvsr : Int) : Except Fault Int :=
  let TR := arith T1 T2
  if c_eq T2 IType.int dvsr 0 then .ok (bit_not TR 0)
  else if T2.signed && (c_eq T2 IType.int dvsr (-1) && c_eq T1 TR ddnd TR.min) then
    .ok TR.min
  else native_div TR (wrap TR ddnd) (wrap TR dvsr)

/-- The function `sr_div`. -/
def sr_div (T1 T2 : IType) (ddnd dvsr : Int) : Except Fault Int :=
  let TR := arith T1 T2
  if c_eq T2 IType.int dvsr 0 then
    if c_lt T1 IType.int ddnd 0 then .ok TR.min else .ok TR.max
  else if T2.signed && (c_eq T2 IType.int dvsr (-1) && c_eq T1 TR ddnd TR.min) then
    .ok TR.max
  else native_div TR (wrap TR ddnd) (wrap TR dvsr)

/-- The function `cf_rem`; returns the remainder and the flag afterwards. -/
def cf_rem (T1 T2 : IType) (ddnd dvsr : Int) (flag : Int) : Except Fault (Int × Int) :=
  let TR := arith T1 T2
  if c_eq T2 IType.int dvsr 0 then .ok (0, 1)
  else if T2.signed && (c_eq T2 IType.int dvsr (-1) && c_eq T1 TR ddnd TR.min) then
    .ok (0, 1)
  else
    match native_rem TR (wrap TR ddnd) (wrap TR dvsr) with
    | .error e => .error e
    | .ok r => .ok (r, flag)

/-- The function `tr_rem`. -/
def tr_rem (T1 T2 : IType) (ddnd dvsr : Int) : Except Fault Int :=
  let TR := arith T1 T2
  if c_eq T2 IType.int dvsr 0 then .ok 0
  else if T2.signed && (c_eq T2 IType.int dvsr (-1) && c_eq T1 TR ddnd TR.min) then
    .ok 0
  else native_rem TR (wrap TR ddnd) (wrap TR dvsr)

/-- The function `sr_rem`. -/
def sr_rem (T1 T2 : IType) (ddnd dvsr : Int) : Except Fault Int :=
  tr_rem T1 T2 ddnd dvsr

/-! ## shl -/

/-- The function `tr_shl`.  The result type is the promoted type of the left
operand; the count is rejected when negative or not below `digits` of that
type.  The call `ia_bit_cast<UTR>(v1)` needs `T1` as wide as `UTR`. -/
def tr_shl (T1 T2 : IType) (v1 shcnt : Int) : Except Fault Int :=
  let TR := promote T1
  let UTR := TR.toUnsigned
  if !ia_bit_cast_enabled UTR T1 then .error .ill_formed
  else if c_lt T2 IType.int shcnt 0 || c_ge T2 IType.int shcnt TR.digits then .ok 0
  else
    let xv1 := ia_bit_cast UTR v1
    match native_shl UTR xv1 (wrap (promote T2) shcnt) with
    | .error e => .error e
    | .ok uresult => .ok (ia_bit_cast TR uresult)

/-- The function `cx_shl`.  The left operand is converted to the unsigned
type `UTR`, shifted there, read back as `TR` and shifted back; a difference
from `v1` is the overflow. -/
def cx_shl (T1 T2 : IType) (v1 shcnt : Int) : Except Fault Int :=
  let TR := promote T1
  if c_lt T2 IType.int shcnt 0 || c_ge T2 IType.int shcnt TR.digits then
    .error (.throws (.out_of_range "cx_shl shift count"))
  else
    let UTR := TR.toUnsigned
    let xv1 := wrap UTR v1
    match native_shl UTR xv1 (wrap (promote T2) shcnt) with
    | .error e => .error e
    | .ok uresult =>
      let result := ia_bit_cast TR uresult
      match native_shr TR result (wrap (promote T2) shcnt) with
      | .error e => .error e
      | .ok checkback =>
        if !c_eq T1 TR v1 checkback then
          .error (.throws (.overflow_error "cx_shl overflow"))
        else .ok result

/-- The function `sr_shl`. -/
def sr_shl (T1 T2 : IType) (v1 shcnt : Int) : Except Fault Int :=
  let TR := promote T1
  if c_lt T2 IType.int shcnt 0 || c_ge T2 IType.int shcnt TR.digits then
    if c_lt T1 IType.int v1 0 then .ok TR.min
    else if c_eq T1 IType.int v1 0 then .ok 0
    else .ok TR.max
  else
    let UTR := TR.toUnsigned
    let xv1 := wrap UTR v1
    match native_shl UTR xv1 (wrap (promote T2) shcnt) with
    | .error e => .error e
    | .ok uresult =>
      let result := ia_bit_cast TR uresult
      match native_shr TR result (wrap (promote T2) shcnt) with
      | .error e => .error e
      | .ok checkback =>
        if !c_eq T1 TR v1 checkback then
          if c_lt T1 IType.int v1 0 then .ok TR.min else .ok TR.max
        else .ok result

/-- The function `cf_shl`; returns the value and the flag afterwards. -/
def cf_shl (T1 T2 : IType) (v1 shcnt : Int) (flag : Int) : Except Fault (Int × Int) :=
  let TR := promote T1
  if c_lt T2 IType.int shcnt 0 || c_ge T2 IType.int shcnt TR.digits then .ok (0, 1)
  else
    let UTR := TR.toUnsigned
    let xv1 := wrap UTR v1
    match native_shl UTR xv1 (wrap (promote T2) shcnt) with
    | .error e => .error e
    | .ok uresult =>
      let result := ia_bit_cast TR uresult
      match native_shr TR result (wrap (promote T2) shcnt) with
      | .error e => .error e
      | .ok checkback =>
        if !c_eq T1 TR v1 checkback then .ok (result, 1) else .ok (result, flag)

/-! ## shr -/

/-- The function `cx_shr`. -/
def cx_shr (T1 T2 : IType) (v1 shcnt : Int) : Except Fault Int :=
  let TR := promote T1
  if c_lt T2 IType.int shcnt 0 || c_ge T2 IType.int shcnt TR.digits then
    .error (.throws (.out_of_range "cx_shr shift count"))
  else native_shr TR (wrap TR v1) (wrap (promote T2) shcnt)

/-- The function `cf_shr`; returns the value and the flag afterwards. -/
def cf_shr (T1 T2 : IType) (v1 shcnt : Int) (flag : Int) : Except Fault (Int × Int) :=
  let TR := promote T1
  if c_lt T2 IType.int shcnt 0 || c_ge T2 IType.int shcnt TR.digits then
    if c_lt T1 IType.int v1 0 then .ok (bit_not TR 0, 1) else .ok (0, 1)
  else
    match native_shr TR (wrap TR v1) (wrap (promote T2) shcnt) with
    | .error e => .error e
    | .ok r => .ok (r, flag)

/-- The function `tr_shr`. -/
def tr_shr (T1 T2 : IType) (v1 shcnt : Int) : Except Fault Int :=
  let TR := promote T1
  if c_lt T2 IType.int shcnt 0 || c_ge T2 IType.int shcnt TR.digits then
    if c_lt T1 IType.int v1 0 then .ok (bit_not TR 0) else .ok 0
  else native_shr TR (wrap TR v1) (wrap (promote T2) shcnt)

/-- The function `sr_shr`. -/
def sr_shr (T1 T2 : IType) (v1 shcnt : Int) : Except Fault Int :=
  tr_shr T1 T2 v1 shcnt

/-! ## conv -/

/-- The function `cx_conv<T1>` on a source value of type `T2`: the built-in
adds 0 to the source in infinite precision and stores the sum as a `T1`. -/
def cx_conv (T1 _T2 : IType) (ival : Int) : Except Fault Int :=
  let r := builtin_add_overflow T1 ival 0
  if r.2 then .error (.throws (.range_error "cx_conv")) else .ok r.1

/-- The function `cf_conv<T1>`; returns the value and the flag afterwards. -/
def cf_conv (T1 _T2 : IType) (ival : Int) (flag : Int) : Int × Int :=
  let r := builtin_add_overflow T1 ival 0
  if r.2 then (r.1, 1) else (r.1, flag)

/-- The function `tr_conv<T1>`. -/
def tr_conv (T1 _T2 : IType) (ival : Int) : Int :=
  (builtin_add_overflow T1 ival 0).1

/-- The function `sr_conv<T1>`. -/
def sr_conv (T1 T2 : IType) (ival : Int) : Int :=
  let r := builtin_add_overflow T1 ival 0
  if r.2 then
    if c_lt T2 IType.int ival 0 then T1.min else T1.max
  else r.1

/-! ## ufit, sfit -/

/-- The function `cx_ufit`; `nbits` is the `unsigned` bit count. -/
def cx_ufit (T1 : IType) (ival : Int) (nbits : Nat) : Except Fault Int :=
  if c_lt T1 IType.int ival 0 then
    .error (.throws (.range_error "cx_ufit: negative"))
  else
    let tbits := T1.digits
    if tbits ≤ nbits then .ok ival
    else
      let T1X := promote T1
      match native_shl T1X (wrap T1X 1) nbits with
      | .error e => .error e
      | .ok limit =>
        if c_ge T1 T1X ival limit then
          .error (.throws (.range_error "cx_ufit: too big"))
        else .ok ival

/-- The function `cf_ufit`; returns the value and the flag afterwards.  A
negative input sets the flag and execution goes on; the mask is applied only
when `nbits` is below `digits` of `T1`. -/
def cf_ufit (T1 : IType) (ival : Int) (nbits : Nat) (flag : Int) : Except Fault (Int × Int) :=
  let flag1 := if c_lt T1 IType.int ival 0 then 1 else flag
  let tbits := T1.digits
  if tbits ≤ nbits then .ok (ival, flag1)
  else
    let T1X := promote T1
    match native_shl T1X (wrap T1X 1) nbits with
    | .error e => .error e
    | .ok sh =>
      match native_sub T1X sh 1 with
      | .error e => .error e
      | .ok mask =>
        let ret := bit_and T1X (wrap T1X ival) mask
        let flag2 := if !c_eq T1X T1 ret ival then 1 else flag1
        .ok (wrap T1 ret, flag2)

/-- The function `tr_ufit`. -/
def tr_ufit (T1 : IType) (ival : Int) (nbits : Nat) : Except Fault Int :=
  let tbits := T1.digits
  if tbits ≤ nbits then .ok ival
  else
    let T1X := promote T1
    match native_shl T1X (wrap T1X 1) nbits with
    | .error e => .error e
    | .ok sh =>
      match native_sub T1X sh 1 with
      | .error e => .error e
      | .ok mask => .ok (wrap T1 (bit_and T1X (wrap T1X ival) mask))

/-- The overload of `cx_sfit` for a signed `T1`. -/
def cx_sfit_signed (T1 : IType) (ival : Int) (nbits : Nat) : Except Fault Int :=
  let ftbits := T1.digits + 1
  if ftbits ≤ nbits then .ok ival
  else if nbits = 0 then
    .error (.throws (.range_error "cx_sfit: nbits==0"))
  else
    let T1X := promote T1
    match native_shl T1X (wrap T1X 1) (wrap IType.uint ((nbits : Int) - 1)) with
    | .error e => .error e
    | .ok sh =>
      match native_sub T1X sh 1 with
      | .error e => .error e
      | .ok tmax =>
        if c_gt T1 T1X ival tmax then
          .error (.throws (.range_error "cx_sfit: too big"))
        else if c_lt T1 T1X ival (bit_not T1X tmax) then
          .error (.throws (.range_error "cx_sfit: too small"))
        else .ok ival

/-- The overload of `cx_sfit` for an unsigned `T1`; here the promoted type is
that of `ival + 0u`. -/
def cx_sfit_unsigned (T1 : IType) (ival : Int) (nbits : Nat) : Except Fault Int :=
  let ubits := T1.digits
  if ubits + 1 ≤ nbits then .ok ival
  else if nbits = 0 then
    .error (.throws (.range_error "cx_sfit: nbits==0"))
  else
    let T1X := arith T1 IType.uint
    match native_shl T1X (wrap T1X 1) (wrap IType.uint ((nbits : Int) - 1)) with
    | .error e => .error e
    | .ok sh =>
      match native_sub T1X sh 1 with
      | .error e => .error e
      | .ok tmax =>
        if c_gt T1 T1X ival tmax then
          .error (.throws (.range_error "cx_sfit: too big"))
        else .ok ival

/-- The function `cx_sfit`: overload resolution picks the body by the
signedness of `T1`. -/
def cx_sfit (T1 : IType) (ival : Int) (nbits : Nat) : Except Fault Int :=
  if T1.signed then cx_sfit_signed T1 ival nbits else cx_sfit_unsigned T1 ival nbits

end sia80

namespace sia80

/-! ## Basic facts on ranges and conversion -/

theorem wrap_eq_iff (t : IType) (x : Int) : wrap t x = x ↔ InRange t x := by
  rcases t with ⟨s, w⟩
  cases s <;> cases w <;>
    simp [wrap, InRange, IType.min, IType.max, IType.bits, IType.digits, Width.bits] <;>
    omega

theorem wrap_of_inRange {t : IType} {x : Int} (h : InRange t x) : wrap t x = x :=
  (wrap_eq_iff t x).2 h

theorem wrap_inRange (t : IType) (x : Int) : InRange t (wrap t x) := by
  rcases t with ⟨s, w⟩
  cases s <;> cases w <;>
    simp [wrap, InRange, IType.min, IType.max, IType.bits, IType.digits, Width.bits] <;>
    omega

theorem wrap_emod (t : IType) (x : Int) : wrap t x % 2 ^ t.bits = x % 2 ^ t.bits := by
  rcases t with ⟨s, w⟩
  cases s <;> cases w <;>
    simp [wrap, IType.bits, IType.digits, Width.bits] <;>
    omega

theorem wrap_unique (t : IType) (x r : Int) (hr : InRange t r)
    (hc : r % 2 ^ t.bits = x % 2 ^ t.bits) : r = wrap t x := by
  rcases t with ⟨s, w⟩
  cases s <;> cases w <;>
    simp [wrap, InRange, IType.min, IType.max, IType.bits, IType.digits, Width.bits] at * <;>
    omega

/-! ## Facts on promotion and on comparisons of in-range values -/

theorem arith_self (T : IType) : arith T T = promote T := by
  rcases T with ⟨s, w⟩
  cases s <;> cases w <;> decide

theorem arith_int (T : IType) : arith T IType.int = promote T := by
  rcases T with ⟨s, w⟩
  cases s <;> cases w <;> decide

theorem arith_promote (T : IType) : arith T (promote T) = promote T := by
  rcases T with ⟨s, w⟩
  cases s <;> cases w <;> decide

theorem promote_signed (T : IType) (hs : T.signed = true) : (promote T).signed = true := by
  rcases T with ⟨s, w⟩
  cases w <;> first | rfl | exact hs

theorem inRange_promote {T : IType} {a : Int} (ha : InRange T a) : InRange (promote T) a := by
  rcases T with ⟨s, w⟩
  cases s <;> cases w <;>
    simp [promote, InRange, IType.min, IType.max, IType.int, IType.digits, Width.bits]
      at * <;>
    omega

theorem zero_inRange (T : IType) : InRange T 0 := by
  rcases T with ⟨s, w⟩
  cases s <;> cases w <;> decide

theorem neg_one_inRange (T : IType) (hs : T.signed = true) : InRange T (-1) := by
  rcases T with ⟨s, w⟩
  subst hs
  cases w <;> decide

theorem min_inRange (T : IType) : InRange T T.min := by
  rcases T with ⟨s, w⟩
  cases s <;> cases w <;> decide

theorem max_inRange (T : IType) : InRange T T.max := by
  rcases T with ⟨s, w⟩
  cases s <;> cases w <;> decide

theorem c_eq_of_inRange {T1 T2 : IType} {a b : Int} (ha : InRange (arith T1 T2) a)
    (hb : InRange (arith T1 T2) b) : c_eq T1 T2 a b = decide (a = b) := by
  simp [c_eq, wrap_of_inRange ha, wrap_of_inRange hb]

theorem c_lt_of_inRange {T1 T2 : IType} {a b : Int} (ha : InRange (arith T1 T2) a)
    (hb : InRange (arith T1 T2) b) : c_lt T1 T2 a b = decide (a < b) := by
  simp [c_lt, wrap_of_inRange ha, wrap_of_inRange hb]

/-- Comparison of a value with the literal `0`. -/
theorem c_lt_zero {T : IType} {a : Int} (ha : InRange T a) :
    c_lt T IType.int a 0 = decide (a < 0) :=
  c_lt_of_inRange (by rw [arith_int]; exact inRange_promote ha)
    (by rw [arith_int]; exact zero_inRange _)

/-- Comparison of a value with the literal `0`. -/
theorem c_eq_zero {T : IType} {a : Int} (ha : InRange T a) :
    c_eq T IType.int a 0 = decide (a = 0) :=
  c_eq_of_inRange (by rw [arith_int]; exact inRange_promote ha)
    (by rw [arith_int]; exact zero_inRange _)

/-! ## Truncating division stays in range -/

theorem tdiv_inRange (T : IType) (hs : T.signed = true) (a b : Int) (ha : InRange T a)
    (hb0 : b ≠ 0) (hx : ¬ (a = T.min ∧ b = -1)) : InRange T (Int.tdiv a b) := by
  have h := Int.natAbs_tdiv a b
  by_cases hb1 : b = 1
  · subst hb1; simpa using ha
  by_cases hbm : b = -1
  · subst hbm
    rcases T with ⟨s, w⟩
    subst hs
    have e : Int.tdiv a (-1) = -a := by simp [Int.tdiv_neg]
    rw [e]
    cases w <;> simp [InRange, IType.min, IType.max, IType.digits, Width.bits] at * <;> omega
  · have h2 : 2 ≤ b.natAbs := by omega
    have h3 : a.natAbs / b.natAbs ≤ a.natAbs / 2 := Nat.div_le_div_left h2 (by decide)
    have h4 : (Int.tdiv a b).natAbs ≤ a.natAbs / 2 := h ▸ h3
    clear h h3 hx hbm hb1 hb0 h2
    generalize Int.tdiv a b = q at h4 ⊢
    rcases T with ⟨s, w⟩
    subst hs
    cases w <;> simp [InRange, IType.min, IType.max, IType.digits, Width.bits] at * <;> omega

/-- Closed form of `cx_div` on two operands of one signed type. -/
theorem cx_div_signed_eq (T : IType) (hs : T.signed = true) (a b : Int)
    (ha : InRange T a) (hb : InRange T b) :
    cx_div T T a b =
      if b = 0 then .error (.throws (.domain_error "cx_div divisor 0"))
      else if a = (arith T T).min ∧ b = -1 then
        .error (.throws (.overflow_error "cx_div min neg"))
      else .ok (Int.tdiv a b) := by
  have hP := promote_signed T hs
  have haP := inRange_promote ha
  have hbP := inRange_promote hb
  have e1 : c_eq T IType.int b (-1) = decide (b = -1) :=
    c_eq_of_inRange (by rw [arith_int]; exact hbP)
      (by rw [arith_int]; exact neg_one_inRange _ hP)
  have e2 : c_eq T (promote T) a (promote T).min = decide (a = (promote T).min) :=
    c_eq_of_inRange (by rw [arith_promote]; exact haP)
      (by rw [arith_promote]; exact min_inRange _)
  simp only [cx_div, arith_self, c_eq_zero hb, e1, e2, wrap_of_inRange haP,
    wrap_of_inRange hbP]
  by_cases hb0 : b = 0
  · simp [hb0]
  · by_cases hx : a = (promote T).min ∧ b = -1
    · simp [hs, hx.1, hx.2]
    · have hq := tdiv_inRange (promote T) hP a b haP hb0 hx
      have hx2 : ¬ (b = -1 ∧ a = (promote T).min) := fun h => hx ⟨h.2, h.1⟩
      simp [native_div, hb0, hx, hx2, hq]

/-- Closed form of `cx_rem` on two operands of one signed type. -/
theorem cx_rem_signed_eq (T : IType) (hs : T.signed = true) (a b : Int)
    (ha : InRange T a) (hb : InRange T b) :
    cx_rem T T a b =
      if b = 0 then .error (.throws (.domain_error "cx_rem divisor 0"))
      else if a = (arith T T).min ∧ b = -1 then
        .error (.throws (.overflow_error "cx_rem min neg"))
      else .ok (Int.tmod a b) := by
  have hP := promote_signed T hs
  have haP := inRange_promote ha
  have hbP := inRange_promote hb
  have e1 : c_eq T IType.int b (-1) = decide (b = -1) :=
    c_eq_of_inRange (by rw [arith_int]; exact hbP)
      (by rw [arith_int]; exact neg_one_inRange _ hP)
  have e2 : c_eq T (promote T) a (promote T).min = decide (a = (promote T).min) :=
    c_eq_of_inRange (by rw [arith_promote]; exact haP)
      (by rw [arith_promote]; exact min_inRange _)
  simp only [cx_rem, arith_self, c_eq_zero hb, e1, e2, wrap_of_inRange haP,
    wrap_of_inRange hbP]
  by_cases hb0 : b = 0
  · simp [hb0]
  · by_cases hx : a = (promote T).min ∧ b = -1
    · simp [hs, hx.1, hx.2]
    · have hq := tdiv_inRange (promote T) hP a b haP hb0 hx
      have hx2 : ¬ (b = -1 ∧ a = (promote T).min) := fun h => hx ⟨h.2, h.1⟩
      simp [native_rem, hb0, hx, hx2, hq]

/-! ## Checked and saturating addition -/

/-- C1: for two `int` operands, or a `long` with an `int`, `cx_add` returns the
exact sum `a + b` when it lies between `min()` and `max()` of the result type
(`int`, respectively `long`) and throws `overflow_error` otherwise; a wrapped
value is never returned. -/
theorem cx_add_exact_or_overflow (T1 T2 : IType)
    (hT : (T1 = IType.int ∧ T2 = IType.int) ∨ (T1 = IType.long ∧ T2 = IType.int))
    (a b : Int) (ha : InRange T1 a) (hb : InRange T2 b) :
    arith T1 T2 = T1 ∧
    (InRange T1 (a + b) → cx_add T1 T2 a b = .ok (a + b)) ∧
    (¬ InRange T1 (a + b) →
      cx_add T1 T2 a b = .error (.throws (.overflow_error "cx_add"))) := by
  have hTR : arith T1 T2 = T1 := by
    rcases hT with ⟨h1, h2⟩ | ⟨h1, h2⟩ <;> subst h1 <;> subst h2 <;> decide
  refine ⟨hTR, ?_, ?_⟩
  · intro h
    simp [cx_add, builtin_add_overflow, hTR, wrap_of_inRange h]
  · intro h
    have hne : ¬ wrap T1 (a + b) = a + b := fun e => h ((wrap_eq_iff T1 (a + b)).1 e)
    simp [cx_add, builtin_add_overflow, hTR, hne]

/-- Witnesses of C1: `cx_add(INT_MAX-1, 1) = INT_MAX`,
`cx_add(INT_MIN, INT_MAX) = -1`, and `cx_add(INT_MAX-1, 2)` throws; also the
`long` cases of the test. -/
theorem cx_add_exact_or_overflow_witness :
    cx_add IType.int IType.int 2147483646 1 = .ok 2147483647 ∧
    cx_add IType.int IType.int (-2147483648) 2147483647 = .ok (-1) ∧
    cx_add IType.int IType.int 2147483646 2
      = .error (.throws (.overflow_error "cx_add")) ∧
    cx_add IType.long IType.int 9223372036854775806 1 = .ok 9223372036854775807 ∧
    cx_add IType.long IType.int 9223372036854775806 2
      = .error (.throws (.overflow_error "cx_add")) :=
  ⟨(cx_add_exact_or_overflow IType.int IType.int (Or.inl ⟨rfl, rfl⟩) 2147483646 1
      (by decide) (by decide)).2.1 (by decide),
   (cx_add_exact_or_overflow IType.int IType.int (Or.inl ⟨rfl, rfl⟩) (-2147483648) 2147483647
      (by decide) (by decide)).2.1 (by decide),
   (cx_add_exact_or_overflow IType.int IType.int (Or.inl ⟨rfl, rfl⟩) 2147483646 2
      (by decide) (by decide)).2.2 (by decide),
   (cx_add_exact_or_overflow IType.long IType.int (Or.inr ⟨rfl, rfl⟩) 9223372036854775806 1
      (by decide) (by decide)).2.1 (by decide),
   (cx_add_exact_or_overflow IType.long IType.int (Or.inr ⟨rfl, rfl⟩) 9223372036854775806 2
      (by decide) (by decide)).2.2 (by decide)⟩

/-- C2: for two operands of one signed type, `sr_add` is the sum clamped to
the range of the result type: the exact sum when it fits, `max()` when the
sum exceeds `max()`, `min()` when it is below `min()`. -/
theorem sr_add_clamps (T : IType) (hs : T.signed = true) (a b : Int)
    (ha : InRange T a) (hb : InRange T b) :
    (InRange (arith T T) (a + b) → sr_add T T a b = a + b) ∧
    ((arith T T).max < a + b → sr_add T T a b = (arith T T).max) ∧
    (a + b < (arith T T).min → sr_add T T a b = (arith T T).min) := by
  rcases T with ⟨s, w⟩
  subst hs
  cases w <;>
    simp [sr_add, builtin_add_overflow, c_lt, arith, promote, wrap, InRange, IType.min,
      IType.max, IType.int, IType.bits, IType.digits, Width.bits] at * <;>
    omega

/-- Witnesses of C2: `sr_add(INT_MAX-1, 2) = INT_MAX`,
`sr_add(INT_MAX, 1) = INT_MAX`, `sr_add(INT_MIN, -1) = INT_MIN`. -/
theorem sr_add_clamps_witness :
    sr_add IType.int IType.int 2147483646 2 = 2147483647 ∧
    sr_add IType.int IType.int 2147483647 1 = 2147483647 ∧
    sr_add IType.int IType.int (-2147483648) (-1) = -2147483648 ∧
    sr_add IType.int IType.int (-2147483648) 2147483647 = -1 :=
  ⟨(sr_add_clamps IType.int rfl 2147483646 2 (by decide) (by decide)).2.1 (by decide),
   (sr_add_clamps IType.int rfl 2147483647 1 (by decide) (by decide)).2.1 (by decide),
   (sr_add_clamps IType.int rfl (-2147483648) (-1) (by decide) (by decide)).2.2 (by decide),
   (sr_add_clamps IType.int rfl (-2147483648) 2147483647 (by decide) (by decide)).1
     (by decide)⟩

/-! ## Checked division and remainder -/

/-- C3: for a dividend `a` and a divisor `b` of one signed type with `b ≠ 0` and
not (`a = min()` of the result type and `b = -1`), `cx_div` returns, without
throwing, the quotient truncated toward zero and `cx_rem` returns the matching
remainder, so that quotient times `b` plus remainder is `a`. -/
theorem cx_div_rem_exact (T : IType) (hs : T.signed = true) (a b : Int)
    (ha : InRange T a) (hb : InRange T b) (hb0 : b ≠ 0)
    (hx : ¬ (a = (arith T T).min ∧ b = -1)) :
    cx_div T T a b = .ok (Int.tdiv a b) ∧
    cx_rem T T a b = .ok (Int.tmod a b) ∧
    Int.tdiv a b * b + Int.tmod a b = a := by
  refine ⟨?_, ?_, Int.tdiv_add_tmod' a b⟩
  · rw [cx_div_signed_eq T hs a b ha hb, if_neg hb0, if_neg hx]
  · rw [cx_rem_signed_eq T hs a b ha hb, if_neg hb0, if_neg hx]

/-- Witnesses of C3: `cx_div(INT_MAX, -2) = INT_MAX/(-2)`,
`cx_div(INT_MIN, -2) = INT_MIN/(-2)`, `cx_div(INT_MIN, 1) = INT_MIN`, and a
remainder. -/
theorem cx_div_rem_exact_witness :
    cx_div IType.int IType.int 2147483647 (-2) = .ok (-1073741823) ∧
    cx_div IType.int IType.int (-2147483648) (-2) = .ok 1073741824 ∧
    cx_div IType.int IType.int (-2147483648) 1 = .ok (-2147483648) ∧
    cx_rem IType.int IType.int (-7) 2 = .ok (-1) :=
  ⟨(cx_div_rem_exact IType.int rfl 2147483647 (-2) (by decide) (by decide) (by decide)
      (by decide)).1,
   (cx_div_rem_exact IType.int rfl (-2147483648) (-2) (by decide) (by decide) (by decide)
      (by decide)).1,
   (cx_div_rem_exact IType.int rfl (-2147483648) 1 (by decide) (by decide) (by decide)
      (by decide)).1,
   (cx_div_rem_exact IType.int rfl (-7) 2 (by decide) (by decide) (by decide)
      (by decide)).2.1⟩

/-- C4: on two operands of one signed type, `cx_div` and `cx_rem` throw
`domain_error` exactly when the divisor is 0 (whatever the dividend, `min()`
included), throw `overflow_error` exactly when the dividend is `min()` of the
result type and the divisor is -1, and return a value in every other case. -/
theorem cx_div_rem_raises_iff (T : IType) (hs : T.signed = true) (a b : Int)
    (ha : InRange T a) (hb : InRange T b) :
    ((∃ m, cx_div T T a b = .error (.throws (.domain_error m))) ↔ b = 0) ∧
    ((∃ m, cx_div T T a b = .error (.throws (.overflow_error m))) ↔
      (a = (arith T T).min ∧ b = -1)) ∧
    ((∃ q, cx_div T T a b = .ok q) ↔ (b ≠ 0 ∧ ¬ (a = (arith T T).min ∧ b = -1))) ∧
    ((∃ m, cx_rem T T a b = .error (.throws (.domain_error m))) ↔ b = 0) ∧
    ((∃ m, cx_rem T T a b = .error (.throws (.overflow_error m))) ↔
      (a = (arith T T).min ∧ b = -1)) ∧
    ((∃ r, cx_rem T T a b = .ok r) ↔ (b ≠ 0 ∧ ¬ (a = (arith T T).min ∧ b = -1))) := by
  rw [cx_div_signed_eq T hs a b ha hb, cx_rem_signed_eq T hs a b ha hb]
  by_cases hb0 : b = 0
  · subst hb0
    simp
  · by_cases hx : a = (arith T T).min ∧ b = -1
    · simp [hb0, hx.1, hx.2]
    · simp [hb0, hx]

/-- Witnesses of C4: `cx_div(0, 0)`, `cx_div(1, 0)` and `cx_div(INT_MIN, 0)`
throw `domain_error`, `cx_div(INT_MIN, -1)` throws `overflow_error`. -/
theorem cx_div_rem_raises_iff_witness :
    (∃ m, cx_div IType.int IType.int 0 0 = .error (.throws (.domain_error m))) ∧
    (∃ m, cx_div IType.int IType.int 1 0 = .error (.throws (.domain_error m))) ∧
    (∃ m, cx_div IType.int IType.int (-2147483648) 0
      = .error (.throws (.domain_error m))) ∧
    (∃ m, cx_div IType.int IType.int (-2147483648) (-1)
      = .error (.throws (.overflow_error m))) ∧
    (∃ m, cx_rem IType.int IType.int (-2147483648) (-1)
      = .error (.throws (.overflow_error m))) :=
  ⟨(cx_div_rem_raises_iff IType.int rfl 0 0 (by decide) (by decide)).1.2 rfl,
   (cx_div_rem_raises_iff IType.int rfl 1 0 (by decide) (by decide)).1.2 rfl,
   (cx_div_rem_raises_iff IType.int rfl (-2147483648) 0 (by decide) (by decide)).1.2 rfl,
   (cx_div_rem_raises_iff IType.int rfl (-2147483648) (-1) (by decide)
      (by decide)).2.1.2 ⟨rfl, rfl⟩,
   (cx_div_rem_raises_iff IType.int rfl (-2147483648) (-1) (by decide)
      (by decide)).2.2.2.2.1.2 ⟨rfl, rfl⟩⟩

/-- With two `signed char` operands the division is done in `int`, so the pair
(`SCHAR_MIN`, -1) is no overflow: the quotient 128 is returned. -/
theorem cx_div_schar_min_neg_one :
    cx_div IType.schar IType.schar (-128) (-1) = .ok 128 := by
  rfl

/-! ## Powers of two and shifts of 1 -/

theorem two_pow_le {m n : Nat} (h : m ≤ n) : (2 : Int) ^ m ≤ 2 ^ n :=
  pow_le_pow_right₀ (by norm_num) h

theorem two_pow_pos (n : Nat) : (0 : Int) < 2 ^ n := by positivity

theorem max_eq (T : IType) : T.max = 2 ^ T.digits - 1 := rfl

theorem min_le_zero (T : IType) : T.min ≤ 0 := (zero_inRange T).1

theorem neg_pow_le_min (T : IType) : -(2 ^ T.digits) ≤ T.min := by
  have := two_pow_pos T.digits
  unfold IType.min
  split <;> omega

theorem min_eq_of_signed (T : IType) (hs : T.signed = true) : T.min = -(2 ^ T.digits) := by
  simp [IType.min, hs]

theorem min_eq_of_unsigned (T : IType) (hs : T.signed = false) : T.min = 0 := by
  simp [IType.min, hs]

theorem digits_lt_bits_or (T : IType) : T.digits ≤ T.bits := by
  rcases T with ⟨s, w⟩
  cases s <;> cases w <;> decide

theorem digits_le_promote (T : IType) : T.digits ≤ (promote T).digits := by
  rcases T with ⟨s, w⟩
  cases s <;> cases w <;> decide

theorem pow_inRange (T : IType) (n : Nat) (h : n < T.digits) : InRange T (2 ^ n) := by
  have h1 : (2 : Int) ^ (n + 1) ≤ 2 ^ T.digits := two_pow_le h
  have h2 := two_pow_pos n
  have h3 := min_le_zero T
  rw [pow_succ] at h1
  constructor
  · omega
  · rw [max_eq]; omega

theorem one_inRange (T : IType) : InRange T 1 := by
  rcases T with ⟨s, w⟩
  cases s <;> cases w <;> decide

theorem native_shl_one (T : IType) (c : Int) (h0 : 0 ≤ c) (h : c < T.digits) :
    native_shl T (wrap T 1) c = .ok (2 ^ c.toNat) := by
  have hb := digits_lt_bits_or T
  have hn : ¬ (c < 0 ∨ (T.bits : Int) ≤ c) := by omega
  have hr : InRange T (2 ^ c.toNat) := pow_inRange T c.toNat (by omega)
  simp only [native_shl, if_neg hn, wrap_of_inRange (one_inRange T), one_mul,
    wrap_of_inRange hr]


theorem le_max_lt_pow {T : IType} {v : Int} (hv : InRange T v) {N : Nat} (h : T.digits ≤ N) :
    v < 2 ^ N := by
  have h1 : (2 : Int) ^ T.digits ≤ 2 ^ N := two_pow_le h
  have h2 := hv.2
  rw [max_eq] at h2
  omega

theorem neg_pow_le_of_inRange {T : IType} {v : Int} (hv : InRange T v) {N : Nat}
    (h : T.digits ≤ N) : -(2 ^ N) ≤ v := by
  have h1 : (2 : Int) ^ T.digits ≤ 2 ^ N := two_pow_le h
  have h2 := hv.1
  have h3 := neg_pow_le_min T
  omega

/-- Characterisation of the inputs on which `cx_ufit` returns. -/
theorem cx_ufit_spec (T : IType) (v : Int) (N : Nat) (hv : InRange T v) :
    ((0 ≤ v ∧ v < 2 ^ N) → cx_ufit T v N = .ok v) ∧
    (¬ (0 ≤ v ∧ v < 2 ^ N) → ∃ m, cx_ufit T v N = .error (.throws (.range_error m))) := by
  simp only [cx_ufit, c_lt_zero hv]
  by_cases hneg : v < 0
  · simp [hneg]
  · by_cases hN : T.digits ≤ N
    · have := le_max_lt_pow hv hN
      simp [hneg, hN]
      omega
    · have hc : (N : Int) < (promote T).digits := by
        have := digits_le_promote T
        omega
      have hsh := native_shl_one (promote T) N (by omega) hc
      have hlim : InRange (promote T) (2 ^ N) := pow_inRange _ N (by omega)
      have hge : c_ge T (promote T) v (2 ^ N) = !decide (v < 2 ^ N) := by
        rw [c_ge, c_lt_of_inRange (by rw [arith_promote]; exact inRange_promote hv)
          (by rw [arith_promote]; exact hlim)]
      simp only [Int.toNat_ofNat] at hsh
      simp only [hsh, hge]
      by_cases hlt : v < 2 ^ N
      · simp [hneg, hN, hlt]
      · simp [hneg, hN, hlt]

theorem arith_promote_left (T : IType) : arith (promote T) T = promote T := by
  rcases T with ⟨s, w⟩
  cases s <;> cases w <;> decide

theorem arith_uint_facts (T : IType) (hs : T.signed = false) :
    (arith T IType.uint).signed = false ∧ T.digits ≤ (arith T IType.uint).digits ∧
    arith T (arith T IType.uint) = arith T IType.uint ∧
    arith (arith T IType.uint) T = arith T IType.uint := by
  rcases T with ⟨s, w⟩
  subst hs
  cases w <;> decide

theorem inRange_arith_uint {T : IType} (hs : T.signed = false) {v : Int} (hv : InRange T v) :
    InRange (arith T IType.uint) v := by
  rcases T with ⟨s, w⟩
  subst hs
  cases w <;>
    simp [arith, promote, InRange, IType.min, IType.max, IType.int, IType.uint, IType.bits,
      IType.digits, Width.bits] at * <;>
    omega

theorem digits_lt_uint (T : IType) : (T.digits : Int) < 4294967296 := by
  rcases T with ⟨s, w⟩
  cases s <;> cases w <;> decide

theorem wrap_uint_small (c : Int) (h0 : 0 ≤ c) (h1 : c < 4294967296) :
    wrap IType.uint c = c := by
  apply wrap_of_inRange
  simp [InRange, IType.min, IType.max, IType.uint, IType.digits, Width.bits]
  omega

/-- Characterisation of the inputs on which the signed overload returns. -/
theorem cx_sfit_signed_spec (T : IType) (hs : T.signed = true) (v : Int) (N : Nat)
    (hv : InRange T v) :
    ((1 ≤ N ∧ -(2 ^ (N - 1)) ≤ v ∧ v ≤ 2 ^ (N - 1) - 1) → cx_sfit_signed T v N = .ok v) ∧
    (¬ (1 ≤ N ∧ -(2 ^ (N - 1)) ≤ v ∧ v ≤ 2 ^ (N - 1) - 1) →
      ∃ m, cx_sfit_signed T v N = .error (.throws (.range_error m))) := by
  simp only [cx_sfit_signed]
  by_cases hN : T.digits + 1 ≤ N
  · have h1 := le_max_lt_pow hv (show T.digits ≤ N - 1 by omega)
    have h2 := neg_pow_le_of_inRange hv (show T.digits ≤ N - 1 by omega)
    simp [hN]
    omega
  · by_cases h0 : N = 0
    · subst h0
      simp
    · have hdl := digits_lt_uint T
      have hcnt : wrap IType.uint ((N : Int) - 1) = ((N - 1 : Nat) : Int) := by
        rw [wrap_uint_small _ (by omega) (by omega)]
        omega
      have hdp := digits_le_promote T
      have hsh := native_shl_one (promote T) ((N - 1 : Nat) : Int) (by omega) (by omega)
      simp only [Int.toNat_ofNat] at hsh
      have hpow : InRange (promote T) (2 ^ (N - 1)) := pow_inRange _ (N - 1) (by omega)
      have hpos := two_pow_pos (N - 1)
      have hmin := min_eq_of_signed (promote T) (promote_signed T hs)
      have hmax := max_eq (promote T)
      have hle : (2 : Int) ^ (N - 1) ≤ 2 ^ (promote T).digits := two_pow_le (by omega)
      have htm : InRange (promote T) (2 ^ (N - 1) - 1) := by
        have := hpow.1; have := hpow.2
        constructor <;> omega
      have hnt : InRange (promote T) (-(2 ^ (N - 1))) := by
        constructor <;> omega
      have hsub : native_sub (promote T) (2 ^ (N - 1)) 1 = .ok (2 ^ (N - 1) - 1) := by
        simp [native_sub, htm, wrap_of_inRange htm]
      have hnot : bit_not (promote T) (2 ^ (N - 1) - 1) = -(2 ^ (N - 1)) := by
        rw [bit_not, show -((2 : Int) ^ (N - 1) - 1) - 1 = -(2 ^ (N - 1)) by omega,
          wrap_of_inRange hnt]
      have hgt : c_gt T (promote T) v (2 ^ (N - 1) - 1) = decide (2 ^ (N - 1) - 1 < v) := by
        rw [c_gt, c_lt_of_inRange (by rw [arith_promote_left]; exact htm)
          (by rw [arith_promote_left]; exact inRange_promote hv)]
      have hlt : c_lt T (promote T) v (-(2 ^ (N - 1))) = decide (v < -(2 ^ (N - 1))) := by
        rw [c_lt_of_inRange (by rw [arith_promote]; exact inRange_promote hv)
          (by rw [arith_promote]; exact hnt)]
      simp only [hcnt, hsh, hsub, hnot, hgt, hlt]
      by_cases hb : 2 ^ (N - 1) - 1 < v
      · simp [hN, h0, hb]
      · by_cases hs2 : v < -(2 ^ (N - 1))
        · simp [hN, h0, hb, hs2]
        · simp [hN, h0, hb, hs2]


/-- Characterisation of the inputs on which the unsigned overload returns. -/
theorem cx_sfit_unsigned_spec (T : IType) (hs : T.signed = false) (v : Int) (N : Nat)
    (hv : InRange T v) :
    ((1 ≤ N ∧ -(2 ^ (N - 1)) ≤ v ∧ v ≤ 2 ^ (N - 1) - 1) → cx_sfit_unsigned T v N = .ok v) ∧
    (¬ (1 ≤ N ∧ -(2 ^ (N - 1)) ≤ v ∧ v ≤ 2 ^ (N - 1) - 1) →
      ∃ m, cx_sfit_unsigned T v N = .error (.throws (.range_error m))) := by
  have hv0 : 0 ≤ v := by
    have := hv.1
    rw [min_eq_of_unsigned T hs] at this
    exact this
  have hpos := two_pow_pos (N - 1)
  simp only [cx_sfit_unsigned]
  by_cases hN : T.digits + 1 ≤ N
  · have h1 := le_max_lt_pow hv (show T.digits ≤ N - 1 by omega)
    simp [hN]
    omega
  · by_cases h0 : N = 0
    · subst h0
      simp
    · obtain ⟨hXs, hXd, hX1, hX2⟩ := arith_uint_facts T hs
      have hdl := digits_lt_uint T
      have hcnt : wrap IType.uint ((N : Int) - 1) = ((N - 1 : Nat) : Int) := by
        rw [wrap_uint_small _ (by omega) (by omega)]
        omega
      have hsh := native_shl_one (arith T IType.uint) ((N - 1 : Nat) : Int) (by omega)
        (by omega)
      simp only [Int.toNat_ofNat] at hsh
      have hpow : InRange (arith T IType.uint) (2 ^ (N - 1)) :=
        pow_inRange _ (N - 1) (by omega)
      have hmin := min_eq_of_unsigned (arith T IType.uint) hXs
      have htm : InRange (arith T IType.uint) (2 ^ (N - 1) - 1) := by
        have := hpow.1; have := hpow.2
        constructor <;> omega
      have hsub : native_sub (arith T IType.uint) (2 ^ (N - 1)) 1 = .ok (2 ^ (N - 1) - 1) := by
        simp [native_sub, hXs, wrap_of_inRange htm]
      have hgt : c_gt T (arith T IType.uint) v (2 ^ (N - 1) - 1)
          = decide (2 ^ (N - 1) - 1 < v) := by
        rw [c_gt, c_lt_of_inRange (by rw [hX2]; exact htm)
          (by rw [hX2]; exact inRange_arith_uint hs hv)]
      simp only [hcnt, hsh, hsub, hgt]
      by_cases hb : 2 ^ (N - 1) - 1 < v
      · simp [hN, h0, hb]
      · simp [hN, h0, hb]
        omega

/-- Characterisation of the inputs on which `cx_sfit` returns. -/
theorem cx_sfit_spec (T : IType) (v : Int) (N : Nat) (hv : InRange T v) :
    ((1 ≤ N ∧ -(2 ^ (N - 1)) ≤ v ∧ v ≤ 2 ^ (N - 1) - 1) → cx_sfit T v N = .ok v) ∧
    (¬ (1 ≤ N ∧ -(2 ^ (N - 1)) ≤ v ∧ v ≤ 2 ^ (N - 1) - 1) →
      ∃ m, cx_sfit T v N = .error (.throws (.range_error m))) := by
  unfold cx_sfit
  cases hs : T.signed
  · simpa using cx_sfit_unsigned_spec T hs v N hv
  · simpa using cx_sfit_signed_spec T hs v N hv

/-! ## Width fitting -/

/-- C5: for every value `v` of any integer type and every bit count `N`
(`N = 0` and `N` at or above the width included), `cx_ufit` returns `v`
unchanged exactly when `0 ≤ v < 2 ^ N` and throws `range_error` otherwise; so
a negative `v` throws for every `N`, and only 0 fits 0 bits. -/
theorem cx_ufit_iff (T : IType) (v : Int) (N : Nat) (hv : InRange T v) :
    ((0 ≤ v ∧ v < 2 ^ N) → cx_ufit T v N = .ok v) ∧
    (¬ (0 ≤ v ∧ v < 2 ^ N) → ∃ m, cx_ufit T v N = .error (.throws (.range_error m))) ∧
    (v < 0 → ∃ m, cx_ufit T v N = .error (.throws (.range_error m))) ∧
    ((∃ r, cx_ufit T v 0 = .ok r) ↔ v = 0) := by
  have key : ∀ M : Nat, ((0 ≤ v ∧ v < 2 ^ M) → cx_ufit T v M = .ok v) ∧
      (¬ (0 ≤ v ∧ v < 2 ^ M) →
        ∃ m, cx_ufit T v M = .error (.throws (.range_error m))) := by
    intro N
    exact cx_ufit_spec T v N hv
  refine ⟨(key N).1, (key N).2, fun h => (key N).2 (by omega), ?_⟩
  constructor
  · rintro ⟨r, hr⟩
    by_contra hne
    obtain ⟨m, hm⟩ := (key 0).2 (by simp; omega)
    rw [hm] at hr
    cases hr
  · intro h0
    exact ⟨v, (key 0).1 (by simp [h0])⟩

/-- Witnesses of C5: `cx_ufit(9, 3)` throws, `cx_ufit(9, 4) = 9`,
`cx_ufit(INT_MAX, 30)` throws, `cx_ufit(INT_MAX, 31) = INT_MAX`,
`cx_ufit(UINT_MAX, 31)` throws, `cx_ufit(-1, 40)` throws. -/
theorem cx_ufit_iff_witness :
    (∃ m, cx_ufit IType.int 9 3 = .error (.throws (.range_error m))) ∧
    cx_ufit IType.int 9 4 = .ok 9 ∧
    (∃ m, cx_ufit IType.int 2147483647 30 = .error (.throws (.range_error m))) ∧
    cx_ufit IType.int 2147483647 31 = .ok 2147483647 ∧
    (∃ m, cx_ufit IType.uint 4294967295 31 = .error (.throws (.range_error m))) ∧
    (∃ m, cx_ufit IType.int (-1) 40 = .error (.throws (.range_error m))) :=
  ⟨(cx_ufit_iff IType.int 9 3 (by decide)).2.1 (by decide),
   (cx_ufit_iff IType.int 9 4 (by decide)).1 (by decide),
   (cx_ufit_iff IType.int 2147483647 30 (by decide)).2.1 (by decide),
   (cx_ufit_iff IType.int 2147483647 31 (by decide)).1 (by decide),
   (cx_ufit_iff IType.uint 4294967295 31 (by decide)).2.1 (by decide),
   (cx_ufit_iff IType.int (-1) 40 (by decide)).2.2.1 (by decide)⟩

/-- C6: for every value `v` of any integer type and every bit count `N`,
`cx_sfit` returns `v` unchanged exactly when `N ≥ 1` and
`-(2 ^ (N-1)) ≤ v ≤ 2 ^ (N-1) - 1`, and throws `range_error` otherwise; `N = 0`
throws for every `v`, and the all-ones value of an unsigned type fits exactly
when `N` is at least one more than the width of the type. -/
theorem cx_sfit_iff (T : IType) (v : Int) (N : Nat) (hv : InRange T v) :
    ((1 ≤ N ∧ -(2 ^ (N - 1)) ≤ v ∧ v ≤ 2 ^ (N - 1) - 1) → cx_sfit T v N = .ok v) ∧
    (¬ (1 ≤ N ∧ -(2 ^ (N - 1)) ≤ v ∧ v ≤ 2 ^ (N - 1) - 1) →
      ∃ m, cx_sfit T v N = .error (.throws (.range_error m))) ∧
    (∃ m, cx_sfit T v 0 = .error (.throws (.range_error m))) ∧
    (T.signed = false → ((∃ r, cx_sfit T T.max N = .ok r) ↔ T.bits + 1 ≤ N)) := by
  refine ⟨(cx_sfit_spec T v N hv).1, (cx_sfit_spec T v N hv).2,
    (cx_sfit_spec T v 0 hv).2 (by simp), ?_⟩
  intro hs
  have hd : T.digits = T.bits := by simp [IType.digits, IType.bits, hs]
  have hm := cx_sfit_spec T T.max N (max_inRange T)
  have hpos := two_pow_pos (N - 1)
  have hposd := two_pow_pos T.digits
  rw [max_eq] at hm
  constructor
  · rintro ⟨r, hr⟩
    by_contra hN
    have hnf : ¬ (1 ≤ N ∧ -(2 ^ (N - 1)) ≤ (2 : Int) ^ T.digits - 1 ∧
        (2 : Int) ^ T.digits - 1 ≤ 2 ^ (N - 1) - 1) := by
      rintro ⟨h1, -, h3⟩
      have h4 : (2 : Int) ^ (N - 1 + 1) ≤ 2 ^ T.digits := two_pow_le (by omega)
      rw [pow_succ] at h4
      omega
    obtain ⟨m, hm2⟩ := hm.2 hnf
    rw [max_eq, hm2] at hr
    cases hr
  · intro hN
    have h4 : (2 : Int) ^ T.digits ≤ 2 ^ (N - 1) := two_pow_le (by omega)
    refine ⟨2 ^ T.digits - 1, ?_⟩
    rw [max_eq]
    exact hm.1 ⟨by omega, by omega, by omega⟩

/-- Witnesses of C6: `cx_sfit(9, 4)` throws, `cx_sfit(9, 5) = 9`,
`cx_sfit(-16, 5) = -16`, `cx_sfit(-17, 5)` throws, `cx_sfit(INT_MIN, 31)`
throws, `cx_sfit(UINT_MAX, 32)` throws, `cx_sfit(UINT_MAX, 33) = UINT_MAX`. -/
theorem cx_sfit_iff_witness :
    (∃ m, cx_sfit IType.int 9 4 = .error (.throws (.range_error m))) ∧
    cx_sfit IType.int 9 5 = .ok 9 ∧
    cx_sfit IType.int (-16) 5 = .ok (-16) ∧
    (∃ m, cx_sfit IType.int (-17) 5 = .error (.throws (.range_error m))) ∧
    (∃ m, cx_sfit IType.int (-2147483648) 31 = .error (.throws (.range_error m))) ∧
    (∃ m, cx_sfit IType.uint 4294967295 32 = .error (.throws (.range_error m))) ∧
    cx_sfit IType.uint 4294967295 33 = .ok 4294967295 :=
  ⟨(cx_sfit_iff IType.int 9 4 (by decide)).2.1 (by decide),
   (cx_sfit_iff IType.int 9 5 (by decide)).1 (by decide),
   (cx_sfit_iff IType.int (-16) 5 (by decide)).1 (by decide),
   (cx_sfit_iff IType.int (-17) 5 (by decide)).2.1 (by decide),
   (cx_sfit_iff IType.int (-2147483648) 31 (by decide)).2.1 (by decide),
   (cx_sfit_iff IType.uint 4294967295 32 (by decide)).2.1 (by decide),
   (cx_sfit_iff IType.uint 4294967295 33 (by decide)).1 (by decide)⟩

/-! ## Promotion of narrow operands -/

/-- C7: two `signed char` operands, and a `short` paired with an `int`, are
added in the promoted type `int`: with two `signed char` operands `cx_add`
never throws and returns the exact sum, beyond the maximum of `signed char`
too; with a `short` and an `int` it returns the exact sum whenever that sum is
an `int` value, beyond the maximum of `short` too. -/
theorem cx_add_promoted (a b c d : Int) (ha : InRange IType.schar a)
    (hb : InRange IType.schar b) (_hc : InRange IType.short c) (_hd : InRange IType.int d) :
    arith IType.schar IType.schar = IType.int ∧
    cx_add IType.schar IType.schar a b = .ok (a + b) ∧
    arith IType.short IType.int = IType.int ∧
    (InRange IType.int (c + d) → cx_add IType.short IType.int c d = .ok (c + d)) ∧
    (¬ InRange IType.int (c + d) →
      cx_add IType.short IType.int c d = .error (.throws (.overflow_error "cx_add"))) := by
  have e1 : arith IType.schar IType.schar = IType.int := by decide
  have e2 : arith IType.short IType.int = IType.int := by decide
  have hab : InRange IType.int (a + b) := by
    simp [InRange, IType.min, IType.max, IType.int, IType.schar, IType.digits, Width.bits]
      at *
    omega
  refine ⟨e1, ?_, e2, ?_, ?_⟩
  · simp [cx_add, builtin_add_overflow, e1, wrap_of_inRange hab]
  · intro h
    simp [cx_add, builtin_add_overflow, e2, wrap_of_inRange h]
  · intro h
    have hne : ¬ wrap IType.int (c + d) = c + d := fun e =>
      h ((wrap_eq_iff IType.int (c + d)).1 e)
    simp [cx_add, builtin_add_overflow, e2, hne]

/-- Witnesses of C7: `cx_add(signed char 126, signed char 2) = 128` and
`cx_add(short 32766, 2) = 32768`. -/
theorem cx_add_promoted_witness :
    cx_add IType.schar IType.schar 126 2 = .ok 128 ∧
    cx_add IType.short IType.int 32766 2 = .ok 32768 :=
  ⟨(cx_add_promoted 126 2 32766 2 (by decide) (by decide) (by decide) (by decide)).2.1,
   (cx_add_promoted 126 2 32766 2 (by decide) (by decide) (by decide) (by decide)).2.2.2.1
     (by decide)⟩

/-! ## Truncating left shift -/

theorem inRange_promote_31 (T : IType) : InRange (promote T) 31 := by
  rcases T with ⟨s, w⟩
  cases s <;> cases w <;> decide

theorem isWrapOf_wrap (t : IType) (x : Int) : IsWrapOf t x (wrap t x) :=
  ⟨wrap_inRange t x, wrap_emod t x, fun r2 h1 h2 => wrap_unique t x r2 h1 h2⟩

theorem wrap_shl_unsigned (T : IType) (v : Int) (n : Nat) :
    wrap T (wrap T.toUnsigned (wrap T.toUnsigned v * 2 ^ n)) = wrap T (v * 2 ^ n) := by
  have hb : T.toUnsigned.bits = T.bits := rfl
  have e2 := wrap_emod T.toUnsigned (wrap T.toUnsigned v * 2 ^ n)
  have e3 := wrap_emod T.toUnsigned v
  rw [hb] at e2 e3
  apply wrap_unique T _ _ (wrap_inRange _ _)
  rw [wrap_emod, e2, Int.mul_emod, e3, ← Int.mul_emod]

/-- C8: for an `int` value `v` and a count `s` of any integer type, `tr_shl`
returns, when `0 ≤ s ≤ 30`, the `int` value congruent to `v * 2 ^ s` modulo
`2 ^ 32`, and returns 0 when `s` is negative or above 30. -/
theorem tr_shl_int (T2 : IType) (v s : Int) (_hv : InRange IType.int v)
    (hs : InRange T2 s) :
    ((0 ≤ s ∧ s ≤ 30) →
      ∃ r, tr_shl IType.int T2 v s = .ok r ∧ InRange IType.int r ∧
        r % 2 ^ 32 = (v * 2 ^ s.toNat) % 2 ^ 32 ∧
        ∀ r2 : Int, InRange IType.int r2 → r2 % 2 ^ 32 = (v * 2 ^ s.toNat) % 2 ^ 32 →
          r2 = r) ∧
    ((s < 0 ∨ 30 < s) → tr_shl IType.int T2 v s = .ok 0) := by
  have hsP := inRange_promote hs
  have hp : promote IType.int = IType.int := rfl
  have hge : c_ge T2 IType.int s 31 = !decide (s < 31) := by
    rw [c_ge, c_lt_of_inRange (by rw [arith_int]; exact hsP)
      (by rw [arith_int]; exact inRange_promote_31 T2)]
  have hen : ia_bit_cast_enabled IType.int.toUnsigned IType.int = true := by decide
  have hdig : ((IType.int.digits : Nat) : Int) = 31 := by decide
  have hbits : ((IType.int.toUnsigned.bits : Nat) : Int) = 32 := by decide
  simp only [tr_shl, hp, hen, c_lt_zero hs, hdig, hge, wrap_of_inRange hsP]
  constructor
  · rintro ⟨h0, h30⟩
    have hcnt : ¬ (s < 0 ∨ ((IType.int.toUnsigned.bits : Nat) : Int) ≤ s) := by omega
    have hn0 : ¬ s < 0 := by omega
    have h31 : s < 31 := by omega
    have hw := isWrapOf_wrap IType.int (v * 2 ^ s.toNat)
    refine ⟨wrap IType.int (v * 2 ^ s.toNat), ?_, hw.1, hw.2.1, hw.2.2⟩
    simp only [native_shl, if_neg hcnt, ia_bit_cast, wrap_shl_unsigned]
    simp [hn0, h31]
  · intro h
    have : s < 0 ∨ ¬ s < 31 := by omega
    rcases this with h1 | h1 <;> simp [h1]

/-- Witnesses of C8: `tr_shl(0x7777777, 4) = 0x77777770`,
`tr_shl(0x7777777, 5) = -0x11111120`, `tr_shl(0x7777777, 6) = -0x22222240`,
`tr_shl(0x7777777, 100) = 0`, `tr_shl(0x7777777, -100) = 0`. -/
theorem tr_shl_int_witness :
    tr_shl IType.int IType.int 0x7777777 4 = .ok 0x77777770 ∧
    tr_shl IType.int IType.int 0x7777777 5 = .ok (-0x11111120) ∧
    tr_shl IType.int IType.int 0x7777777 6 = .ok (-0x22222240) ∧
    tr_shl IType.int IType.int 0x7777777 100 = .ok 0 ∧
    tr_shl IType.int IType.int 0x7777777 (-100) = .ok 0 := by
  refine ⟨?_, ?_, ?_,
    (tr_shl_int IType.int 0x7777777 100 (by decide) (by decide)).2 (Or.inr (by decide)),
    (tr_shl_int IType.int 0x7777777 (-100) (by decide) (by decide)).2 (Or.inl (by decide))⟩
  · obtain ⟨r, hr, -, -, hu⟩ :=
      (tr_shl_int IType.int 0x7777777 4 (by decide) (by decide)).1 ⟨by decide, by decide⟩
    rw [hu 0x77777770 (by decide) (by decide)]
    exact hr
  · obtain ⟨r, hr, -, -, hu⟩ :=
      (tr_shl_int IType.int 0x7777777 5 (by decide) (by decide)).1 ⟨by decide, by decide⟩
    rw [hu (-0x11111120) (by decide) (by decide)]
    exact hr
  · obtain ⟨r, hr, -, -, hu⟩ :=
      (tr_shl_int IType.int 0x7777777 6 (by decide) (by decide)).1 ⟨by decide, by decide⟩
    rw [hu (-0x22222240) (by decide) (by decide)]
    exact hr

/-! ## The four policies on add, sub and mul -/

/-- C9: for add, sub and mul on two operands of one signed type whose exact
result is a value of the result type, `cx_`, `cf_`, `tr_` and `sr_` all return
that exact result; `cx_` does not throw and `cf_` leaves the flag as it was. -/
theorem policies_agree_when_fits (T : IType) (_hs : T.signed = true) (a b flag : Int)
    (_ha : InRange T a) (_hb : InRange T b) :
    (InRange (arith T T) (a + b) →
      cx_add T T a b = .ok (a + b) ∧ cf_add T T a b flag = (a + b, flag) ∧
      tr_add T T a b = a + b ∧ sr_add T T a b = a + b) ∧
    (InRange (arith T T) (a - b) →
      cx_sub T T a b = .ok (a - b) ∧ cf_sub T T a b flag = (a - b, flag) ∧
      tr_sub T T a b = a - b ∧ sr_sub T T a b = a - b) ∧
    (InRange (arith T T) (a * b) →
      cx_mul T T a b = .ok (a * b) ∧ cf_mul T T a b flag = (a * b, flag) ∧
      tr_mul T T a b = a * b ∧ sr_mul T T a b = a * b) := by
  refine ⟨fun h => ?_, fun h => ?_, fun h => ?_⟩
  · simp [cx_add, cf_add, tr_add, sr_add, builtin_add_overflow, wrap_of_inRange h]
  · simp [cx_sub, cf_sub, tr_sub, sr_sub, builtin_sub_overflow, wrap_of_inRange h]
  · simp [cx_mul, cf_mul, tr_mul, sr_mul, builtin_mul_overflow, wrap_of_inRange h]

/-- Witness of C9 on `int`: `INT_MAX-1 + 1`, `INT_MIN - (-1)` and
`-46341 * 46340` fit, all four variants return them and the flag 7 is kept. -/
theorem policies_agree_when_fits_witness :
    (cx_add IType.int IType.int 2147483646 1 = .ok 2147483647 ∧
      cf_add IType.int IType.int 2147483646 1 7 = (2147483647, 7) ∧
      tr_add IType.int IType.int 2147483646 1 = 2147483647 ∧
      sr_add IType.int IType.int 2147483646 1 = 2147483647) ∧
    (cx_sub IType.int IType.int (-2147483648) (-1) = .ok (-2147483647) ∧
      cf_sub IType.int IType.int (-2147483648) (-1) 7 = (-2147483647, 7) ∧
      tr_sub IType.int IType.int (-2147483648) (-1) = -2147483647 ∧
      sr_sub IType.int IType.int (-2147483648) (-1) = -2147483647) ∧
    (cx_mul IType.int IType.int (-46341) 46340 = .ok (-2147441940) ∧
      cf_mul IType.int IType.int (-46341) 46340 7 = (-2147441940, 7) ∧
      tr_mul IType.int IType.int (-46341) 46340 = -2147441940 ∧
      sr_mul IType.int IType.int (-46341) 46340 = -2147441940) :=
  ⟨(policies_agree_when_fits IType.int rfl 2147483646 1 7 (by decide) (by decide)).1
      (by decide),
   (policies_agree_when_fits IType.int rfl (-2147483648) (-1) 7 (by decide)
      (by decide)).2.1 (by decide),
   (policies_agree_when_fits IType.int rfl (-46341) 46340 7 (by decide)
      (by decide)).2.2 (by decide)⟩

/-- C10: for two operands of one type, signed or unsigned, whose exact sum,
difference or product is not a value of the result type of width `w`,
`cf_add`, `cf_sub`, `cf_mul` set the flag to 1 and return the unique value of
the result type congruent to the exact result modulo `2 ^ w`, and `tr_add`,
`tr_sub`, `tr_mul` return that same value. -/
theorem flagged_truncating_wrap_on_overflow (T : IType) (a b flag : Int)
    (_ha : InRange T a) (_hb : InRange T b) :
    (¬ InRange (arith T T) (a + b) →
      ∃ r, IsWrapOf (arith T T) (a + b) r ∧
        cf_add T T a b flag = (r, 1) ∧ tr_add T T a b = r) ∧
    (¬ InRange (arith T T) (a - b) →
      ∃ r, IsWrapOf (arith T T) (a - b) r ∧
        cf_sub T T a b flag = (r, 1) ∧ tr_sub T T a b = r) ∧
    (¬ InRange (arith T T) (a * b) →
      ∃ r, IsWrapOf (arith T T) (a * b) r ∧
        cf_mul T T a b flag = (r, 1) ∧ tr_mul T T a b = r) := by
  refine ⟨fun h => ?_, fun h => ?_, fun h => ?_⟩
  · have hne : ¬ wrap (arith T T) (a + b) = a + b := fun e => h ((wrap_eq_iff _ _).1 e)
    exact ⟨_, isWrapOf_wrap _ _, by simp [cf_add, builtin_add_overflow, hne], rfl⟩
  · have hne : ¬ wrap (arith T T) (a - b) = a - b := fun e => h ((wrap_eq_iff _ _).1 e)
    exact ⟨_, isWrapOf_wrap _ _, by simp [cf_sub, builtin_sub_overflow, hne], rfl⟩
  · have hne : ¬ wrap (arith T T) (a * b) = a * b := fun e => h ((wrap_eq_iff _ _).1 e)
    exact ⟨_, isWrapOf_wrap _ _, by simp [cf_mul, builtin_mul_overflow, hne], rfl⟩

/-- Witness of C10: on `int`, `INT_MAX-1 + 2` wraps to `-2147483648`; on
`unsigned int`, `0 - 1` wraps to `UINT_MAX`; on `int`, `65536 * 65536` wraps
to 0; each time the flag, 0 before, is 1 afterwards. -/
theorem flagged_truncating_wrap_on_overflow_witness :
    (cf_add IType.int IType.int 2147483646 2 0 = (-2147483648, 1) ∧
      tr_add IType.int IType.int 2147483646 2 = -2147483648) ∧
    (cf_sub IType.uint IType.uint 0 1 0 = (4294967295, 1) ∧
      tr_sub IType.uint IType.uint 0 1 = 4294967295) ∧
    (cf_mul IType.int IType.int 65536 65536 0 = (0, 1) ∧
      tr_mul IType.int IType.int 65536 65536 = 0) := by
  refine ⟨?_, ?_, ?_⟩
  · obtain ⟨r, hw, h1, h2⟩ :=
      (flagged_truncating_wrap_on_overflow IType.int 2147483646 2 0 (by decide)
        (by decide)).1 (by decide)
    have e : (-2147483648 : Int) = r := hw.2.2 _ (by decide) (by decide)
    rw [e]
    exact ⟨h1, h2⟩
  · obtain ⟨r, hw, h1, h2⟩ :=
      (flagged_truncating_wrap_on_overflow IType.uint 0 1 0 (by decide)
        (by decide)).2.1 (by decide)
    have e : (4294967295 : Int) = r := hw.2.2 _ (by decide) (by decide)
    rw [e]
    exact ⟨h1, h2⟩
  · obtain ⟨r, hw, h1, h2⟩ :=
      (flagged_truncating_wrap_on_overflow IType.int 65536 65536 0 (by decide)
        (by decide)).2.2 (by decide)
    have e : (0 : Int) = r := hw.2.2 _ (by decide) (by decide)
    rw [e]
    exact ⟨h1, h2⟩

/-! ## The scenario `add(INT_MAX-1, 2)` -/

/-- C11, as stated, fails: `INT_MAX-1 + 2` is `INT_MAX + 1`, and the value
`cf_add` returns for it is `INT_MIN = -2147483648`, not `-2147483647`. -/
theorem cf_add_scenario_not_minus_2147483647 :
    ¬ (cx_add IType.int IType.int 2147483646 2
        = .error (.throws (.overflow_error "cx_add")) ∧
      cf_add IType.int IType.int 2147483646 2 0 = (-2147483647, 1) ∧
      sr_add IType.int IType.int 2147483646 2 = 2147483647) :=
  fun h => absurd h.2.1 (by decide)

/-- C11, amended: for `int` operands, on `add(2147483646, 2)` `cx_add` throws
`overflow_error`, `cf_add` sets the flag and returns the wrapped value
`-2147483648`, and `sr_add` returns `2147483647`. -/
theorem add_scenario_int_max (flag : Int) :
    cx_add IType.int IType.int 2147483646 2
      = .error (.throws (.overflow_error "cx_add")) ∧
    cf_add IType.int IType.int 2147483646 2 flag = (-2147483648, 1) ∧
    sr_add IType.int IType.int 2147483646 2 = 2147483647 :=
  ⟨rfl, rfl, rfl⟩

/-! ## Saturating multiplication and subtraction -/

theorem c_ge_zero {T : IType} {a : Int} (ha : InRange T a) :
    c_ge T IType.int a 0 = decide (0 ≤ a) := by
  rw [c_ge, c_lt_zero ha]
  by_cases h : a < 0
  · have h2 : ¬ 0 ≤ a := by omega
    simp [h, h2]
  · have h2 : 0 ≤ a := by omega
    simp [h, h2]

theorem zero_le_max (T : IType) : 0 ≤ T.max := (zero_inRange T).2

/-- C12: for two operands of one signed type, `sr_mul` is the product clamped
to the range of the result type: the exact product when it fits, `min()` when
it overflows and the operand signs differ (the product is then below
`min()`), `max()` when it overflows and the signs agree (the product is then
above `max()`). -/
theorem sr_mul_clamps (T : IType) (_hs : T.signed = true) (a b : Int)
    (ha : InRange T a) (hb : InRange T b) :
    (InRange (arith T T) (a * b) → sr_mul T T a b = a * b) ∧
    ((arith T T).max < a * b → sr_mul T T a b = (arith T T).max) ∧
    (a * b < (arith T T).min → sr_mul T T a b = (arith T T).min) ∧
    (¬ InRange (arith T T) (a * b) → ((a < 0 ∧ 0 < b) ∨ (0 < a ∧ b < 0)) →
      a * b < (arith T T).min ∧ sr_mul T T a b = (arith T T).min) ∧
    (¬ InRange (arith T T) (a * b) → ((a < 0 ∧ b < 0) ∨ (0 < a ∧ 0 < b)) →
      (arith T T).max < a * b ∧ sr_mul T T a b = (arith T T).max) := by
  have hmin := min_le_zero (arith T T)
  have hmax := zero_le_max (arith T T)
  have key : sr_mul T T a b =
      if InRange (arith T T) (a * b) then a * b
      else if a * b < (arith T T).min then (arith T T).min else (arith T T).max := by
    simp only [sr_mul, builtin_mul_overflow, c_lt_zero ha, c_lt_zero hb, c_ge_zero ha,
      c_ge_zero hb]
    by_cases hin : InRange (arith T T) (a * b)
    · simp [wrap_of_inRange hin, hin]
    · have hne : ¬ wrap (arith T T) (a * b) = a * b := fun e => hin ((wrap_eq_iff _ _).1 e)
      simp only [hin, if_false]
      by_cases ha0 : a < 0 <;> by_cases hb0 : b < 0
      · have hp : 0 ≤ a * b := by nlinarith
        have hlt : ¬ a * b < (arith T T).min := by omega
        have hb1 : ¬ 0 ≤ b := by omega
        have ha1 : ¬ 0 ≤ a := by omega
        simp [hne, ha0, hb0, hlt, ha1, hb1]
      · have hp : a * b ≤ 0 := by nlinarith
        have hlt : a * b < (arith T T).min := by
          unfold InRange at hin
          omega
        have hb1 : 0 ≤ b := by omega
        simp [hne, ha0, hb0, hlt, hb1]
      · have hp : a * b ≤ 0 := by nlinarith
        have hlt : a * b < (arith T T).min := by
          unfold InRange at hin
          omega
        have ha1 : 0 ≤ a := by omega
        simp [hne, ha0, hb0, hlt, ha1]
      · have hp : 0 ≤ a * b := by nlinarith
        have hlt : ¬ a * b < (arith T T).min := by omega
        have hb1 : 0 ≤ b := by omega
        have ha1 : 0 ≤ a := by omega
        simp [hne, ha0, hb0, hlt, ha1, hb1]
  rw [key]
  refine ⟨fun h => by simp [h], fun h => ?_, fun h => ?_, fun hin hsg => ?_,
    fun hin hsg => ?_⟩
  · have hin : ¬ InRange (arith T T) (a * b) := fun h2 => by have := h2.2; omega
    have hlt : ¬ a * b < (arith T T).min := by omega
    simp [hin, hlt]
  · have hin : ¬ InRange (arith T T) (a * b) := fun h2 => by have := h2.1; omega
    simp [hin, h]
  · have hp : a * b ≤ 0 := by
      rcases hsg with ⟨h1, h2⟩ | ⟨h1, h2⟩ <;> nlinarith
    have hlt : a * b < (arith T T).min := by
      unfold InRange at hin
      omega
    simp [hin, hlt]
  · have hp : 0 ≤ a * b := by
      rcases hsg with ⟨h1, h2⟩ | ⟨h1, h2⟩ <;> nlinarith
    have hlt : ¬ a * b < (arith T T).min := by omega
    have hgt : (arith T T).max < a * b := by
      unfold InRange at hin
      omega
    simp [hin, hlt, hgt]

/-- Witnesses of C12 on `int`: `46340 * 46340` fits, `65536 * (-65536)`
overflows with differing signs and gives `INT_MIN`, `(-65536) * (-65536)`
overflows with equal signs and gives `INT_MAX`. -/
theorem sr_mul_clamps_witness :
    sr_mul IType.int IType.int 46340 46340 = 2147395600 ∧
    sr_mul IType.int IType.int 65536 (-65536) = -2147483648 ∧
    sr_mul IType.int IType.int (-65536) (-65536) = 2147483647 :=
  ⟨(sr_mul_clamps IType.int rfl 46340 46340 (by decide) (by decide)).1 (by decide),
   ((sr_mul_clamps IType.int rfl 65536 (-65536) (by decide) (by decide)).2.2.2.1
      (by decide) (Or.inr (by decide))).2,
   ((sr_mul_clamps IType.int rfl (-65536) (-65536) (by decide) (by decide)).2.2.2.2
      (by decide) (Or.inl (by decide))).2⟩

/-- For two operands of one signed type `sr_sub` is the difference clamped to
the range of the result type. -/
theorem sr_sub_signed_clamps (T : IType) (hs : T.signed = true) (a b : Int)
    (ha : InRange T a) (hb : InRange T b) :
    (InRange (arith T T) (a - b) → sr_sub T T a b = a - b) ∧
    ((arith T T).max < a - b → sr_sub T T a b = (arith T T).max) ∧
    (a - b < (arith T T).min → sr_sub T T a b = (arith T T).min) := by
  rcases T with ⟨s, w⟩
  subst hs
  cases w <;>
    simp [sr_sub, builtin_sub_overflow, c_lt, arith, promote, wrap, InRange, IType.min,
      IType.max, IType.int, IType.bits, IType.digits, Width.bits] at * <;>
    omega

/-- C13 fails on the code for `unsigned int`: the exact difference `0 - 1` is
`-1`, the closest `unsigned int` value is `min() = 0`, and `sr_sub(0u, 1u)`
returns `max() = 4294967295`. -/
theorem sr_sub_unsigned_underflow_gives_max :
    sr_sub IType.uint IType.uint 0 1 = 4294967295 ∧
    IsClosest (arith IType.uint IType.uint) (0 - 1) 0 ∧
    ¬ IsClosest (arith IType.uint IType.uint) (0 - 1) (sr_sub IType.uint IType.uint 0 1) := by
  have e : sr_sub IType.uint IType.uint 0 1 = 4294967295 := rfl
  have hT : arith IType.uint IType.uint = IType.uint := rfl
  refine ⟨e, ⟨by decide, ?_⟩, ?_⟩
  · intro r2 hr2
    have h0 : 0 ≤ r2 := by
      have := hr2.1
      rw [hT] at this
      exact this
    rw [abs_of_nonpos (by omega), abs_of_nonpos (by omega)]
    omega
  · rintro ⟨-, h⟩
    have h2 := h 0 (by decide)
    rw [e] at h2
    norm_num at h2

/-! ## Flagged, truncating and saturating division -/

/-- Evaluation of the two guards of the division functions, and of the native
operators behind them, on two operands of one signed type. -/
theorem div_guards_signed (T : IType) (hs : T.signed = true) (a b : Int)
    (ha : InRange T a) (hb : InRange T b) :
    c_eq T IType.int b 0 = decide (b = 0) ∧
    (T.signed && (c_eq T IType.int b (-1) && c_eq T (arith T T) a (arith T T).min))
      = decide (a = (arith T T).min ∧ b = -1) ∧
    (b ≠ 0 → ¬ (a = (arith T T).min ∧ b = -1) →
      native_div (arith T T) (wrap (arith T T) a) (wrap (arith T T) b)
        = .ok (Int.tdiv a b) ∧
      native_rem (arith T T) (wrap (arith T T) a) (wrap (arith T T) b)
        = .ok (Int.tmod a b)) := by
  have hP := promote_signed T hs
  have haP := inRange_promote ha
  have hbP := inRange_promote hb
  have e1 : c_eq T IType.int b (-1) = decide (b = -1) :=
    c_eq_of_inRange (by rw [arith_int]; exact hbP)
      (by rw [arith_int]; exact neg_one_inRange _ hP)
  have e2 : c_eq T (promote T) a (promote T).min = decide (a = (promote T).min) :=
    c_eq_of_inRange (by rw [arith_promote]; exact haP)
      (by rw [arith_promote]; exact min_inRange _)
  rw [arith_self]
  refine ⟨c_eq_zero hb, ?_, ?_⟩
  · rw [hs, e1, e2]
    by_cases h1 : b = -1 <;> by_cases h2 : a = (promote T).min <;> simp [h1, h2]
  · intro hb0 hx
    have hq := tdiv_inRange (promote T) hP a b haP hb0 hx
    simp [native_div, native_rem, wrap_of_inRange haP, wrap_of_inRange hbP, hb0, hq]

theorem bit_not_zero_signed (T : IType) (hs : T.signed = true) : bit_not T 0 = -1 := by
  simp [bit_not, wrap_of_inRange (neg_one_inRange T hs)]

/-- C14: on two operands of one signed type, with a divisor 0 `cf_div` and
`tr_div` return the all-ones value -1 and `cf_rem` and `tr_rem` return 0; with
the dividend `min()` of the result type and the divisor -1, `cf_div` and
`tr_div` return `min()` and `cf_rem` and `tr_rem` return 0; in both cases the
`cf_` variants set the flag to 1; in every other case all four return the
exact truncating quotient or remainder and the flag is untouched. -/
theorem flagged_truncating_div_rem (T : IType) (hs : T.signed = true) (a b flag : Int)
    (ha : InRange T a) (hb : InRange T b) :
    (b = 0 →
      cf_div T T a b flag = .ok (-1, 1) ∧ tr_div T T a b = .ok (-1) ∧
      cf_rem T T a b flag = .ok (0, 1) ∧ tr_rem T T a b = .ok 0) ∧
    ((a = (arith T T).min ∧ b = -1) →
      cf_div T T a b flag = .ok ((arith T T).min, 1) ∧
      tr_div T T a b = .ok (arith T T).min ∧
      cf_rem T T a b flag = .ok (0, 1) ∧ tr_rem T T a b = .ok 0) ∧
    (b ≠ 0 → ¬ (a = (arith T T).min ∧ b = -1) →
      cf_div T T a b flag = .ok (Int.tdiv a b, flag) ∧
      tr_div T T a b = .ok (Int.tdiv a b) ∧
      cf_rem T T a b flag = .ok (Int.tmod a b, flag) ∧
      tr_rem T T a b = .ok (Int.tmod a b)) := by
  obtain ⟨g0, g1, g2⟩ := div_guards_signed T hs a b ha hb
  have hnot := bit_not_zero_signed (arith T T) (by rw [arith_self]; exact promote_signed T hs)
  simp only [cf_div, tr_div, cf_rem, tr_rem, g0, g1, hnot]
  refine ⟨fun h0 => ?_, fun hx => ?_, fun h0 hx => ?_⟩
  · simp [h0]
  · have h0 : b ≠ 0 := by rw [hx.2]; decide
    simp [h0, hx]
  · obtain ⟨d1, d2⟩ := g2 h0 hx
    simp [h0, hx, d1, d2]

/-- Witness of C14: `tr_div(INT_MIN, -1) = INT_MIN`; also a zero divisor and
an ordinary division under `cf_div`. -/
theorem flagged_truncating_div_rem_witness :
    tr_div IType.int IType.int (-2147483648) (-1) = .ok (-2147483648) ∧
    cf_div IType.int IType.int 7 0 0 = .ok (-1, 1) ∧
    cf_rem IType.int IType.int (-7) 2 5 = .ok (-1, 5) :=
  ⟨((flagged_truncating_div_rem IType.int rfl (-2147483648) (-1) 0 (by decide)
      (by decide)).2.1 ⟨rfl, rfl⟩).2.1,
   ((flagged_truncating_div_rem IType.int rfl 7 0 0 (by decide) (by decide)).1 rfl).1,
   ((flagged_truncating_div_rem IType.int rfl (-7) 2 5 (by decide) (by decide)).2.2
      (by decide) (by decide)).2.2.1⟩

/-- C15: on two operands of one signed type, `sr_div` returns `min()` when
`b = 0` and `a < 0`, `max()` when `b = 0` and `a ≥ 0`, `max()` when `a` is
`min()` of the result type and `b = -1`, and the exact quotient truncated
toward zero in every other case. -/
theorem sr_div_cases (T : IType) (hs : T.signed = true) (a b : Int)
    (ha : InRange T a) (hb : InRange T b) :
    (b = 0 → a < 0 → sr_div T T a b = .ok (arith T T).min) ∧
    (b = 0 → 0 ≤ a → sr_div T T a b = .ok (arith T T).max) ∧
    ((a = (arith T T).min ∧ b = -1) → sr_div T T a b = .ok (arith T T).max) ∧
    (b ≠ 0 → ¬ (a = (arith T T).min ∧ b = -1) → sr_div T T a b = .ok (Int.tdiv a b)) := by
  obtain ⟨g0, g1, g2⟩ := div_guards_signed T hs a b ha hb
  simp only [sr_div, g0, g1, c_lt_zero ha]
  refine ⟨fun h0 hneg => ?_, fun h0 hpos => ?_, fun hx => ?_, fun h0 hx => ?_⟩
  · simp [h0, hneg]
  · have hn : ¬ a < 0 := by omega
    simp [h0, hn]
  · have h0 : b ≠ 0 := by rw [hx.2]; decide
    simp [h0, hx]
  · simp [h0, hx, (g2 h0 hx).1]

/-- Witnesses of C15: `sr_div(5, 0) = INT_MAX`, `sr_div(INT_MIN, -1) = INT_MAX`,
`sr_div(-5, 0) = INT_MIN`, `sr_div(-7, 2) = -3`. -/
theorem sr_div_cases_witness :
    sr_div IType.int IType.int 5 0 = .ok 2147483647 ∧
    sr_div IType.int IType.int (-2147483648) (-1) = .ok 2147483647 ∧
    sr_div IType.int IType.int (-5) 0 = .ok (-2147483648) ∧
    sr_div IType.int IType.int (-7) 2 = .ok (-3) :=
  ⟨(sr_div_cases IType.int rfl 5 0 (by decide) (by decide)).2.1 rfl (by decide),
   (sr_div_cases IType.int rfl (-2147483648) (-1) (by decide) (by decide)).2.2.1 ⟨rfl, rfl⟩,
   (sr_div_cases IType.int rfl (-5) 0 (by decide) (by decide)).1 rfl (by decide),
   (sr_div_cases IType.int rfl (-7) 2 (by decide) (by decide)).2.2.2 (by decide)
     (by decide)⟩

/-! ## T-division laws -/

theorem tmod_nonpos {a : Int} (b : Int) (ha : a ≤ 0) : Int.tmod a b ≤ 0 := by
  have h := Int.tmod_nonneg (a := -a) b (by omega)
  have e : Int.tmod (-a) b = -Int.tmod a b := by
    rw [Int.tmod_def, Int.tmod_def, Int.neg_tdiv]
    ring
  omega

theorem abs_tmod_lt (a b : Int) (hb : b ≠ 0) : |Int.tmod a b| < |b| := by
  have key : ∀ x y : Int, 0 ≤ x → 0 < y → |Int.tmod x y| < |y| := by
    intro x y hx hy
    have h1 := Int.tmod_nonneg y hx
    have h2 := Int.tmod_lt_of_pos x hy
    rw [abs_of_nonneg h1, abs_of_pos hy]
    exact h2
  have eneg : ∀ x y : Int, Int.tmod (-x) y = -Int.tmod x y := by
    intro x y
    rw [Int.tmod_def, Int.tmod_def, Int.neg_tdiv]
    ring
  rcases lt_or_gt_of_ne hb with hlt | hgt
  · rcases le_or_lt 0 a with ha | ha
    · have := key a (-b) ha (by omega)
      rwa [Int.tmod_neg, abs_neg] at this
    · have := key (-a) (-b) (by omega) (by omega)
      rwa [Int.tmod_neg, eneg, abs_neg, abs_neg] at this
  · rcases le_or_lt 0 a with ha | ha
    · exact key a b ha hgt
    · have := key (-a) b (by omega) hgt
      rwa [eneg, abs_neg] at this

/-- C16: for two operands `a` and `b` of one signed type on which `cx_div` and
`cx_rem` both return, say `q` and `r`: `q * b + r = a`, `|r| < |b|`, and `r` is
zero or has the sign of the dividend `a`. -/
theorem cx_div_rem_tdivision (T : IType) (hs : T.signed = true) (a b q r : Int)
    (ha : InRange T a) (hb : InRange T b)
    (hq : cx_div T T a b = .ok q) (hr : cx_rem T T a b = .ok r) :
    q * b + r = a ∧ |r| < |b| ∧ (r = 0 ∨ (0 < r ∧ 0 < a) ∨ (r < 0 ∧ a < 0)) := by
  rw [cx_div_signed_eq T hs a b ha hb] at hq
  rw [cx_rem_signed_eq T hs a b ha hb] at hr
  by_cases hb0 : b = 0
  · simp [hb0] at hq
  · by_cases hx : a = (arith T T).min ∧ b = -1
    · simp [hb0, hx] at hq
    · simp only [if_neg hb0, if_neg hx, Except.ok.injEq] at hq hr
      subst hq
      subst hr
      refine ⟨Int.tdiv_add_tmod' a b, abs_tmod_lt a b hb0, ?_⟩
      rcases lt_trichotomy a 0 with h | h | h
      · have := tmod_nonpos b (le_of_lt h)
        omega
      · subst h
        simp
      · have := Int.tmod_nonneg b (le_of_lt h)
        omega

/-- Witness of C16: `cx_div(-7, 2) = -3` and `cx_rem(-7, 2) = -1`, with
`-3 * 2 + -1 = -7`, `|-1| < |2|`, and the remainder negative as the dividend. -/
theorem cx_div_rem_tdivision_witness :
    cx_div IType.int IType.int (-7) 2 = .ok (-3) ∧
    cx_rem IType.int IType.int (-7) 2 = .ok (-1) ∧
    (-3 : Int) * 2 + (-1) = -7 ∧ |(-1 : Int)| < |(2 : Int)| ∧
    ((-1 : Int) = 0 ∨ ((0 : Int) < -1 ∧ (0 : Int) < -7) ∨ ((-1 : Int) < 0 ∧ (-7 : Int) < 0)) :=
  ⟨rfl, rfl,
   cx_div_rem_tdivision IType.int rfl (-7) 2 (-3) (-1) (by decide) (by decide) rfl rfl⟩

/-! ## Checked and saturating shifts -/

theorem digits_le_64 (T : IType) : T.digits ≤ 64 := by
  rcases T with ⟨s, w⟩
  cases s <;> cases w <;> decide

theorem small_inRange_promote (T : IType) (d : Nat) (hd : d ≤ 64) :
    InRange (promote T) (d : Int) := by
  rcases T with ⟨s, w⟩
  cases s <;> cases w <;>
    simp [promote, InRange, IType.min, IType.max, IType.int, IType.digits, Width.bits] <;>
    omega

/-- The count check of the shift functions, on a count of type `T2` and a
bound `d` that is a `digits` constant. -/
theorem count_check (T2 : IType) (s : Int) (hs : InRange T2 s) (d : Nat) (hd : d ≤ 64) :
    (c_lt T2 IType.int s 0 || c_ge T2 IType.int s d) = decide (s < 0 ∨ (d : Int) ≤ s) := by
  have hsP := inRange_promote hs
  have hge : c_ge T2 IType.int s d = !decide (s < (d : Int)) := by
    rw [c_ge, c_lt_of_inRange (by rw [arith_int]; exact hsP)
      (by rw [arith_int]; exact small_inRange_promote T2 d hd)]
  rw [c_lt_zero hs, hge]
  by_cases h1 : s < 0 <;> by_cases h2 : s < (d : Int) <;> simp [h1, h2]
  all_goals omega

theorem ediv_pow_inRange {T : IType} {r : Int} (hr : InRange T r) (n : Nat) :
    InRange T (r / 2 ^ n) := by
  have hd := two_pow_pos n
  have hmin := min_le_zero T
  have hmax := zero_le_max T
  constructor
  · apply Int.le_ediv_of_mul_le hd
    have := hr.1
    nlinarith
  · apply Int.ediv_le_of_le_mul hd
    have := hr.2
    nlinarith

/-- Shifting back the wrapped product gives the operand exactly when the
product is a value of the type. -/
theorem wrap_shl_ediv_eq_iff (T : IType) (v : Int) (n : Nat) (hn : n ≤ T.bits) :
    wrap T (v * 2 ^ n) / 2 ^ n = v ↔ InRange T (v * 2 ^ n) := by
  have hd := two_pow_pos n
  constructor
  · intro h
    have hdvd : (2 : Int) ^ n ∣ 2 ^ T.bits := pow_dvd_pow 2 hn
    have h1 : wrap T (v * 2 ^ n) % 2 ^ n = 0 := by
      rw [← Int.emod_emod_of_dvd _ hdvd, wrap_emod, Int.emod_emod_of_dvd _ hdvd,
        Int.mul_emod_left]
    have h2 := Int.ediv_add_emod (wrap T (v * 2 ^ n)) (2 ^ n)
    rw [h, h1] at h2
    have h3 : wrap T (v * 2 ^ n) = v * 2 ^ n := by
      rw [← h2]
      ring
    exact (wrap_eq_iff _ _).1 h3
  · intro h
    rw [wrap_of_inRange h]
    exact Int.mul_ediv_cancel v (by omega)

/-- The computation shared by `cx_shl` and `sr_shl` once the count is
accepted. -/
theorem shl_core (T1 T2 : IType) (v s : Int) (hv : InRange T1 v) (hs : InRange T2 s)
    (h0 : 0 ≤ s) (hd : s < ((promote T1).digits : Int)) :
    native_shl (promote T1).toUnsigned (wrap (promote T1).toUnsigned v)
        (wrap (promote T2) s)
      = .ok (wrap (promote T1).toUnsigned
          (wrap (promote T1).toUnsigned v * 2 ^ s.toNat)) ∧
    native_shr (promote T1) (wrap (promote T1) (v * 2 ^ s.toNat)) (wrap (promote T2) s)
      = .ok (wrap (promote T1) (v * 2 ^ s.toNat) / 2 ^ s.toNat) ∧
    ia_bit_cast (promote T1) (wrap (promote T1).toUnsigned
          (wrap (promote T1).toUnsigned v * 2 ^ s.toNat))
      = wrap (promote T1) (v * 2 ^ s.toNat) ∧
    c_eq T1 (promote T1) v (wrap (promote T1) (v * 2 ^ s.toNat) / 2 ^ s.toNat)
      = decide (InRange (promote T1) (v * 2 ^ s.toNat)) := by
  have hsP := inRange_promote hs
  have hbits := digits_lt_bits_or (promote T1)
  have hub : (promote T1).toUnsigned.bits = (promote T1).bits := rfl
  have hcnt : ¬ (s < 0 ∨ (((promote T1).toUnsigned.bits : Nat) : Int) ≤ s) := by
    rw [hub]
    omega
  have hcnt2 : ¬ (s < 0 ∨ (((promote T1).bits : Nat) : Int) ≤ s) := by omega
  have hcast := wrap_shl_unsigned (promote T1) v s.toNat
  have hiff := wrap_shl_ediv_eq_iff (promote T1) v s.toNat (by omega)
  refine ⟨?_, ?_, hcast, ?_⟩
  · simp only [native_shl, wrap_of_inRange hsP, if_neg hcnt]
  · simp only [native_shr, wrap_of_inRange hsP, if_neg hcnt2]
  · rw [c_eq_of_inRange (by rw [arith_promote]; exact inRange_promote hv)
      (by rw [arith_promote]; exact ediv_pow_inRange (wrap_inRange _ _) _)]
    by_cases hin : InRange (promote T1) (v * 2 ^ s.toNat)
    · have := hiff.2 hin
      simp [hin, this]
    · have hne : ¬ v = wrap (promote T1) (v * 2 ^ s.toNat) / 2 ^ s.toNat :=
        fun e => hin (hiff.1 e.symm)
      simp [hin, hne]

/-- Closed form of `cx_shl`. -/
theorem cx_shl_eq (T1 T2 : IType) (v s : Int) (hv : InRange T1 v) (hs : InRange T2 s) :
    cx_shl T1 T2 v s =
      if s < 0 ∨ ((promote T1).digits : Int) ≤ s then
        .error (.throws (.out_of_range "cx_shl shift count"))
      else if InRange (promote T1) (v * 2 ^ s.toNat) then .ok (v * 2 ^ s.toNat)
      else .error (.throws (.overflow_error "cx_shl overflow")) := by
  simp only [cx_shl, count_check T2 s hs _ (digits_le_64 _)]
  by_cases hc : s < 0 ∨ ((promote T1).digits : Int) ≤ s
  · simp [hc]
  · obtain ⟨e1, e2, e3, e4⟩ := shl_core T1 T2 v s hv hs (by omega) (by omega)
    simp only [e1, e3, e2, e4]
    by_cases hin : InRange (promote T1) (v * 2 ^ s.toNat)
    · simp [hc, hin, wrap_of_inRange hin]
    · simp [hc, hin]

/-- Closed form of `sr_shl`. -/
theorem sr_shl_eq (T1 T2 : IType) (v s : Int) (hv : InRange T1 v) (hs : InRange T2 s) :
    sr_shl T1 T2 v s =
      if (s < 0 ∨ ((promote T1).digits : Int) ≤ s) ∨
          ¬ InRange (promote T1) (v * 2 ^ s.toNat) then
        .ok (if v < 0 then (promote T1).min else if v = 0 then 0 else (promote T1).max)
      else .ok (v * 2 ^ s.toNat) := by
  simp only [sr_shl, count_check T2 s hs _ (digits_le_64 _), c_lt_zero hv, c_eq_zero hv]
  by_cases hc : s < 0 ∨ ((promote T1).digits : Int) ≤ s
  · by_cases h1 : v < 0 <;> by_cases h2 : v = 0 <;> simp [hc, h1, h2]
  · obtain ⟨e1, e2, e3, e4⟩ := shl_core T1 T2 v s hv hs (by omega) (by omega)
    simp only [e1, e3, e2, e4]
    by_cases hin : InRange (promote T1) (v * 2 ^ s.toNat)
    · simp [hc, hin, wrap_of_inRange hin]
    · have hv0 : v ≠ 0 := by
        rintro rfl
        apply hin
        simpa using zero_inRange (promote T1)
      by_cases h1 : v < 0 <;> simp [hc, hin, h1, hv0]

/-- Closed form of `cx_shr`. -/
theorem cx_shr_eq (T1 T2 : IType) (v s : Int) (hv : InRange T1 v) (hs : InRange T2 s) :
    cx_shr T1 T2 v s =
      if s < 0 ∨ ((promote T1).digits : Int) ≤ s then
        .error (.throws (.out_of_range "cx_shr shift count"))
      else .ok (v / 2 ^ s.toNat) := by
  simp only [cx_shr, count_check T2 s hs _ (digits_le_64 _)]
  by_cases hc : s < 0 ∨ ((promote T1).digits : Int) ≤ s
  · simp [hc]
  · have hbits := digits_lt_bits_or (promote T1)
    have hcnt2 : ¬ (s < 0 ∨ (((promote T1).bits : Nat) : Int) ≤ s) := by omega
    simp [hc, native_shr, wrap_of_inRange (inRange_promote hs),
      wrap_of_inRange (inRange_promote hv), hcnt2]

theorem promote_promote (T : IType) : promote (promote T) = promote T := by
  rcases T with ⟨s, w⟩
  cases s <;> cases w <;> rfl

/-- C17, as stated, fails: with an `int` left operand the count 31 is below
the bit-width 32 and not negative, yet `cx_shr` and `cx_shl` both throw
`out_of_range` for it. -/
theorem shift_count_31_rejected :
    cx_shr IType.int IType.int 1 31
      = .error (.throws (.out_of_range "cx_shr shift count")) ∧
    cx_shl IType.int IType.int 1 31
      = .error (.throws (.out_of_range "cx_shl shift count")) ∧
    ¬ ((31 : Int) < 0 ∨ (32 : Int) ≤ 31) :=
  ⟨rfl, rfl, by decide⟩

/-- C17, amended: for a left operand whose promoted type is `int` and a count
`s` of any integer type, `cx_shr` and `cx_shl` throw `out_of_range` exactly
when `s < 0` or `s ≥ 31`, where 31 is `digits` of `int`, the number of bits
without the sign bit. -/
theorem shift_count_out_of_range_iff (T1 T2 : IType) (v s : Int)
    (hp : promote T1 = IType.int) (hv : InRange T1 v) (hs : InRange T2 s) :
    ((∃ m, cx_shr T1 T2 v s = .error (.throws (.out_of_range m))) ↔ (s < 0 ∨ 31 ≤ s)) ∧
    ((∃ m, cx_shl T1 T2 v s = .error (.throws (.out_of_range m))) ↔ (s < 0 ∨ 31 ≤ s)) := by
  have hd : ((promote T1).digits : Int) = 31 := by rw [hp]; decide
  rw [cx_shr_eq T1 T2 v s hv hs, cx_shl_eq T1 T2 v s hv hs, hd]
  by_cases hc : s < 0 ∨ 31 ≤ s
  · simp [hc]
  · constructor
    · simp [hc]
    · by_cases hin : InRange (promote T1) (v * 2 ^ s.toNat) <;> simp [hc, hin]

/-- Witness of amended C17: with `int` operands the count 31 is rejected by
both functions and the count 30 by neither. -/
theorem shift_count_out_of_range_iff_witness :
    (∃ m, cx_shr IType.int IType.int 1 31 = .error (.throws (.out_of_range m))) ∧
    (∃ m, cx_shl IType.int IType.int 1 31 = .error (.throws (.out_of_range m))) ∧
    ¬ (∃ m, cx_shr IType.int IType.int 1 30 = .error (.throws (.out_of_range m))) ∧
    ¬ (∃ m, cx_shl IType.int IType.int 1 30 = .error (.throws (.out_of_range m))) :=
  ⟨(shift_count_out_of_range_iff IType.int IType.int 1 31 rfl (by decide) (by decide)).1.2
      (Or.inr (by decide)),
   (shift_count_out_of_range_iff IType.int IType.int 1 31 rfl (by decide) (by decide)).2.2
      (Or.inr (by decide)),
   fun h => absurd
     ((shift_count_out_of_range_iff IType.int IType.int 1 30 rfl (by decide)
       (by decide)).1.1 h) (by decide),
   fun h => absurd
     ((shift_count_out_of_range_iff IType.int IType.int 1 30 rfl (by decide)
       (by decide)).2.1 h) (by decide)⟩

/-- C18: for a left operand `v` of any integer type and a count `s` that
passes the count check of `cx_shl` (no `out_of_range`), `cx_shl` returns
`v * 2 ^ s` exactly when that product is a value of the result type and throws
`overflow_error` when it is not; so a returned result is always the exact
`v * 2 ^ s`. -/
theorem cx_shl_exact_or_overflow (T1 T2 : IType) (v s : Int)
    (hv : InRange T1 v) (hs : InRange T2 s)
    (hc : ¬ ∃ m, cx_shl T1 T2 v s = .error (.throws (.out_of_range m))) :
    (InRange (promote T1) (v * 2 ^ s.toNat) → cx_shl T1 T2 v s = .ok (v * 2 ^ s.toNat)) ∧
    (¬ InRange (promote T1) (v * 2 ^ s.toNat) →
      cx_shl T1 T2 v s = .error (.throws (.overflow_error "cx_shl overflow"))) ∧
    (∀ r, cx_shl T1 T2 v s = .ok r → r = v * 2 ^ s.toNat) := by
  rw [cx_shl_eq T1 T2 v s hv hs] at hc ⊢
  by_cases hcnt : s < 0 ∨ ((promote T1).digits : Int) ≤ s
  · exact absurd ⟨_, by rw [if_pos hcnt]⟩ hc
  · refine ⟨fun hin => by simp [hcnt, hin], fun hin => by simp [hcnt, hin], fun r hr => ?_⟩
    by_cases hin : InRange (promote T1) (v * 2 ^ s.toNat)
    · simp [hcnt, hin] at hr
      exact hr.symm
    · simp [hcnt, hin] at hr

/-- Witnesses of C18: `cx_shl(0x7777777, 4) = 0x77777770`, `cx_shl(-1, 30)` is
`-(2 ^ 30)`, `cx_shl(0x7777777, 5)` throws `overflow_error`, and on
`unsigned int` `cx_shl(1, 31) = 2 ^ 31`. -/
theorem cx_shl_exact_or_overflow_witness :
    cx_shl IType.int IType.int 0x7777777 4 = .ok 0x77777770 ∧
    cx_shl IType.int IType.int (-1) 30 = .ok (-1073741824) ∧
    cx_shl IType.int IType.int 0x7777777 5
      = .error (.throws (.overflow_error "cx_shl overflow")) ∧
    cx_shl IType.uint IType.int 1 31 = .ok 2147483648 :=
  ⟨(cx_shl_exact_or_overflow IType.int IType.int 0x7777777 4 (by decide) (by decide)
      (fun ⟨_, h⟩ => by cases h)).1 (by decide),
   (cx_shl_exact_or_overflow IType.int IType.int (-1) 30 (by decide) (by decide)
      (fun ⟨_, h⟩ => by cases h)).1 (by decide),
   (cx_shl_exact_or_overflow IType.int IType.int 0x7777777 5 (by decide) (by decide)
      (fun ⟨_, h⟩ => by cases h)).2.1 (by decide),
   (cx_shl_exact_or_overflow IType.uint IType.int 1 31 (by decide) (by decide)
      (fun ⟨_, h⟩ => by cases h)).1 (by decide)⟩

/-- C19: for a left operand `v` and a count `s` such that `cx_shl(v, s)`
returns a value `r` (of the promoted type of `v`), `cx_shr(r, s)` also returns,
and returns `v`. -/
theorem shl_shr_roundtrip (T1 T2 : IType) (v s r : Int)
    (hv : InRange T1 v) (hs : InRange T2 s) (h : cx_shl T1 T2 v s = .ok r) :
    cx_shr (promote T1) T2 r s = .ok v := by
  rw [cx_shl_eq T1 T2 v s hv hs] at h
  by_cases hcnt : s < 0 ∨ ((promote T1).digits : Int) ≤ s
  · simp [hcnt] at h
  · by_cases hin : InRange (promote T1) (v * 2 ^ s.toNat)
    · simp only [if_neg hcnt, if_pos hin, Except.ok.injEq] at h
      subst h
      rw [cx_shr_eq (promote T1) T2 _ s hin hs, promote_promote, if_neg hcnt,
        Int.mul_ediv_cancel v (ne_of_gt (two_pow_pos _))]
    · simp [hcnt, hin] at h

/-- Witness of C19: `cx_shl(-3, 4) = -48` and `cx_shr(-48, 4) = -3` on `int`. -/
theorem shl_shr_roundtrip_witness :
    cx_shl IType.int IType.int (-3) 4 = .ok (-48) ∧
    cx_shr IType.int IType.int (-48) 4 = .ok (-3) :=
  ⟨rfl, shl_shr_roundtrip IType.int IType.int (-3) 4 (-48) (by decide) (by decide) rfl⟩

/-- C20: for a left operand `v` and a count `s` of any integer types,
`sr_shl` returns the value `cx_shl` returns whenever `cx_shl` returns, and
otherwise (count rejected, or overflow of the value) returns `max()` of the
result type if `v > 0`, `min()` if `v < 0`, and 0 if `v = 0`. -/
theorem sr_shl_cases (T1 T2 : IType) (v s : Int)
    (hv : InRange T1 v) (hs : InRange T2 s) :
    (∀ r, cx_shl T1 T2 v s = .ok r → sr_shl T1 T2 v s = .ok r) ∧
    ((¬ ∃ r, cx_shl T1 T2 v s = .ok r) →
      (0 < v → sr_shl T1 T2 v s = .ok (promote T1).max) ∧
      (v < 0 → sr_shl T1 T2 v s = .ok (promote T1).min) ∧
      (v = 0 → sr_shl T1 T2 v s = .ok 0)) := by
  rw [cx_shl_eq T1 T2 v s hv hs, sr_shl_eq T1 T2 v s hv hs]
  by_cases hcnt : s < 0 ∨ ((promote T1).digits : Int) ≤ s
  · refine ⟨fun r hr => by simp [hcnt] at hr, fun _ => ⟨fun h => ?_, fun h => ?_, fun h => ?_⟩⟩
    · have h1 : ¬ v < 0 := by omega
      have h2 : ¬ v = 0 := by omega
      simp [hcnt, h1, h2]
    · simp [hcnt, h]
    · simp [hcnt, h]
  · by_cases hin : InRange (promote T1) (v * 2 ^ s.toNat)
    · refine ⟨fun r hr => by simpa [hcnt, hin] using hr, fun hno => ?_⟩
      exact absurd ⟨_, by rw [if_neg hcnt, if_pos hin]⟩ hno
    · refine ⟨fun r hr => by simp [hcnt, hin] at hr,
        fun _ => ⟨fun h => ?_, fun h => ?_, fun h => ?_⟩⟩
      · have h1 : ¬ v < 0 := by omega
        have h2 : ¬ v = 0 := by omega
        simp [hin, h1, h2]
      · simp [hin, h]
      · simp [hin, h]

/-- Witnesses of C20 on `int`: `sr_shl(5, 2) = 20`; a rejected count gives
`INT_MAX` for 5, `INT_MIN` for -5 and 0 for 0; an overflowing `-5 << 30` gives
`INT_MIN`. -/
theorem sr_shl_cases_witness :
    sr_shl IType.int IType.int 5 2 = .ok 20 ∧
    sr_shl IType.int IType.int 5 40 = .ok 2147483647 ∧
    sr_shl IType.int IType.int (-5) 40 = .ok (-2147483648) ∧
    sr_shl IType.int IType.int 0 40 = .ok 0 ∧
    sr_shl IType.int IType.int (-5) 30 = .ok (-2147483648) :=
  ⟨(sr_shl_cases IType.int IType.int 5 2 (by decide) (by decide)).1 20 rfl,
   ((sr_shl_cases IType.int IType.int 5 40 (by decide) (by decide)).2
      (fun ⟨_, h⟩ => by cases h)).1 (by decide),
   ((sr_shl_cases IType.int IType.int (-5) 40 (by decide) (by decide)).2
      (fun ⟨_, h⟩ => by cases h)).2.1 (by decide),
   ((sr_shl_cases IType.int IType.int 0 40 (by decide) (by decide)).2
      (fun ⟨_, h⟩ => by cases h)).2.2 rfl,
   ((sr_shl_cases IType.int IType.int (-5) 30 (by decide) (by decide)).2
      (fun ⟨_, h⟩ => by cases h)).2.1 (by decide)⟩

/-! ## Right shifts -/

theorem signed_of_neg {T : IType} {v : Int} (hv : InRange T v) (h : v < 0) :
    T.signed = true := by
  cases hs : T.signed
  · have := hv.1
    rw [min_eq_of_unsigned T hs] at this
    omega
  · rfl

/-- Floor division by a power of two lies between the two multiples around
the dividend. -/
theorem ediv_pow_floor (v : Int) (n : Nat) :
    v / 2 ^ n * 2 ^ n ≤ v ∧ v < (v / 2 ^ n + 1) * 2 ^ n := by
  have hd := two_pow_pos n
  constructor
  · exact Int.ediv_mul_le v (ne_of_gt hd)
  · have := Int.lt_mul_ediv_self_add (x := v) hd
    linarith

/-- A shift by at least `digits` positions leaves only the sign. -/
theorem ediv_pow_of_digits_le {T : IType} {v : Int} (hv : InRange T v) (n : Nat)
    (hn : T.digits ≤ n) : v / 2 ^ n = if v < 0 then -1 else 0 := by
  have hd := two_pow_pos n
  have hlt := le_max_lt_pow hv hn
  have hge := neg_pow_le_of_inRange hv hn
  by_cases h : v < 0
  · rw [if_pos h]
    have h1 := Int.ediv_neg' h hd
    have h2 := Int.lt_mul_ediv_self_add (x := v) hd
    have h3 : -2 < v / 2 ^ n := by
      by_contra hc
      have : v / 2 ^ n ≤ -2 := by omega
      nlinarith
    omega
  · rw [if_neg h]
    exact Int.ediv_eq_zero_of_lt (by omega) hlt

/-- Closed form of `tr_shr`. -/
theorem tr_shr_eq (T1 T2 : IType) (v s : Int) (hv : InRange T1 v) (hs : InRange T2 s) :
    tr_shr T1 T2 v s =
      if s < 0 ∨ ((promote T1).digits : Int) ≤ s then .ok (if v < 0 then -1 else 0)
      else .ok (v / 2 ^ s.toNat) := by
  simp only [tr_shr, count_check T2 s hs _ (digits_le_64 _), c_lt_zero hv]
  by_cases hc : s < 0 ∨ ((promote T1).digits : Int) ≤ s
  · by_cases h : v < 0
    · have hn := bit_not_zero_signed (promote T1) (promote_signed T1 (signed_of_neg hv h))
      simp [hc, h, hn]
    · simp [hc, h]
  · have hbits := digits_lt_bits_or (promote T1)
    have hcnt2 : ¬ (s < 0 ∨ (((promote T1).bits : Nat) : Int) ≤ s) := by omega
    simp [hc, native_shr, wrap_of_inRange (inRange_promote hs),
      wrap_of_inRange (inRange_promote hv), hcnt2]

/-- Closed form of `cf_shr`. -/
theorem cf_shr_eq (T1 T2 : IType) (v s f : Int) (hv : InRange T1 v) (hs : InRange T2 s) :
    cf_shr T1 T2 v s f =
      if s < 0 ∨ ((promote T1).digits : Int) ≤ s then .ok (if v < 0 then -1 else 0, 1)
      else .ok (v / 2 ^ s.toNat, f) := by
  simp only [cf_shr, count_check T2 s hs _ (digits_le_64 _), c_lt_zero hv]
  by_cases hc : s < 0 ∨ ((promote T1).digits : Int) ≤ s
  · by_cases h : v < 0
    · have hn := bit_not_zero_signed (promote T1) (promote_signed T1 (signed_of_neg hv h))
      simp [hc, h, hn]
    · simp [hc, h]
  · have hbits := digits_lt_bits_or (promote T1)
    have hcnt2 : ¬ (s < 0 ∨ (((promote T1).bits : Nat) : Int) ≤ s) := by omega
    simp [hc, native_shr, wrap_of_inRange (inRange_promote hs),
      wrap_of_inRange (inRange_promote hv), hcnt2]

/-- C21: for a left operand `v` of any integer type and a count `s` that
passes the count check of `cx_shr` (no `out_of_range`), `cx_shr` returns the
floor of `v / 2 ^ s`: the integer `r` with `r * 2 ^ s ≤ v < (r + 1) * 2 ^ s`;
a negative `v` gives a negative result (sign-propagating) and a non-negative
one, so every unsigned one, a non-negative result (zero-filling). -/
theorem cx_shr_floor (T1 T2 : IType) (v s : Int) (hv : InRange T1 v) (hs : InRange T2 s)
    (hc : ¬ ∃ m, cx_shr T1 T2 v s = .error (.throws (.out_of_range m))) :
    ∃ r, cx_shr T1 T2 v s = .ok r ∧
      r * 2 ^ s.toNat ≤ v ∧ v < (r + 1) * 2 ^ s.toNat ∧
      (v < 0 → r < 0) ∧ (0 ≤ v → 0 ≤ r) := by
  rw [cx_shr_eq T1 T2 v s hv hs] at hc ⊢
  by_cases hcnt : s < 0 ∨ ((promote T1).digits : Int) ≤ s
  · exact absurd ⟨_, by rw [if_pos hcnt]⟩ hc
  · have hd := two_pow_pos s.toNat
    refine ⟨v / 2 ^ s.toNat, by rw [if_neg hcnt], (ediv_pow_floor v _).1,
      (ediv_pow_floor v _).2, fun h => Int.ediv_neg' h hd,
      fun h => Int.ediv_nonneg h (le_of_lt hd)⟩

/-- Witnesses of C21: on `int`, `cx_shr(-5, 1) = -3` and `cx_shr(20, 2) = 5`;
on `unsigned int`, `cx_shr(UINT_MAX, 31) = 1`. -/
theorem cx_shr_floor_witness :
    cx_shr IType.int IType.int (-5) 1 = .ok (-3) ∧
    cx_shr IType.int IType.int 20 2 = .ok 5 ∧
    cx_shr IType.uint IType.int 4294967295 31 = .ok 1 := by
  refine ⟨?_, ?_, ?_⟩
  · obtain ⟨r, hr, h1, h2, -, -⟩ :=
      cx_shr_floor IType.int IType.int (-5) 1 (by decide) (by decide)
        (fun ⟨_, h⟩ => by cases h)
    have e : r = -3 := by
      simp at h1 h2
      omega
    rw [← e]
    exact hr
  · obtain ⟨r, hr, h1, h2, -, -⟩ :=
      cx_shr_floor IType.int IType.int 20 2 (by decide) (by decide)
        (fun ⟨_, h⟩ => by cases h)
    have e : r = 5 := by
      simp at h1 h2
      omega
    rw [← e]
    exact hr
  · obtain ⟨r, hr, h1, h2, -, -⟩ :=
      cx_shr_floor IType.uint IType.int 4294967295 31 (by decide) (by decide)
        (fun ⟨_, h⟩ => by cases h)
    have e : r = 1 := by
      simp at h1 h2
      omega
    rw [← e]
    exact hr

/-- C22: for a left operand `v` of any integer type and a count `s ≥ 0`,
accepted by the count check or not, `tr_shr` returns the floor of
`v / 2 ^ s`; a rejected count gives -1 for a negative `v` and 0 for a
non-negative (so for every unsigned) `v`; `cf_shr` returns the same value and
sets the flag to 1 exactly when the count is rejected, that is when `cx_shr`
throws `out_of_range`. -/
theorem tr_cf_shr_floor (T1 T2 : IType) (v s f : Int) (hv : InRange T1 v)
    (hs : InRange T2 s) (h0 : 0 ≤ s) :
    ∃ r, tr_shr T1 T2 v s = .ok r ∧
      r * 2 ^ s.toNat ≤ v ∧ v < (r + 1) * 2 ^ s.toNat ∧
      ((∃ m, cx_shr T1 T2 v s = .error (.throws (.out_of_range m))) →
        (v < 0 → r = -1) ∧ (0 ≤ v → r = 0) ∧ cf_shr T1 T2 v s f = .ok (r, 1)) ∧
      ((¬ ∃ m, cx_shr T1 T2 v s = .error (.throws (.out_of_range m))) →
        cf_shr T1 T2 v s f = .ok (r, f)) := by
  rw [tr_shr_eq T1 T2 v s hv hs, cf_shr_eq T1 T2 v s f hv hs, cx_shr_eq T1 T2 v s hv hs]
  have hfl := ediv_pow_floor v s.toNat
  by_cases hcnt : s < 0 ∨ ((promote T1).digits : Int) ≤ s
  · have hdig : (promote T1).digits ≤ s.toNat := by omega
    have hq := ediv_pow_of_digits_le (inRange_promote hv) s.toNat hdig
    rw [hq] at hfl
    refine ⟨if v < 0 then -1 else 0, by rw [if_pos hcnt], hfl.1, hfl.2, fun _ => ?_,
      fun hno => absurd ⟨_, by rw [if_pos hcnt]⟩ hno⟩
    refine ⟨fun h => by simp [h], fun h => ?_, by rw [if_pos hcnt]⟩
    have : ¬ v < 0 := by omega
    simp [this]
  · refine ⟨v / 2 ^ s.toNat, by rw [if_neg hcnt], hfl.1, hfl.2, fun hyes => ?_,
      fun _ => by rw [if_neg hcnt]⟩
    obtain ⟨m, hm⟩ := hyes
    simp [hcnt] at hm

/-- Witnesses of C22 on `int`: `tr_shr(-5, 1) = -3`, `tr_shr(-5, 31) = -1`,
`tr_shr(5, 100) = 0`, and `cf_shr(-5, 100)` returns -1 with the flag set. -/
theorem tr_cf_shr_floor_witness :
    tr_shr IType.int IType.int (-5) 1 = .ok (-3) ∧
    tr_shr IType.int IType.int (-5) 31 = .ok (-1) ∧
    tr_shr IType.int IType.int 5 100 = .ok 0 ∧
    cf_shr IType.int IType.int (-5) 100 0 = .ok (-1, 1) := by
  refine ⟨?_, ?_, ?_, ?_⟩
  · obtain ⟨r, hr, h1, h2, -, -⟩ :=
      tr_cf_shr_floor IType.int IType.int (-5) 1 0 (by decide) (by decide) (by decide)
    have e : r = -3 := by
      simp at h1 h2
      omega
    rw [← e]
    exact hr
  · obtain ⟨r, hr, -, -, h3, -⟩ :=
      tr_cf_shr_floor IType.int IType.int (-5) 31 0 (by decide) (by decide) (by decide)
    rw [← (h3 ⟨_, rfl⟩).1 (by decide)]
    exact hr
  · obtain ⟨r, hr, -, -, h3, -⟩ :=
      tr_cf_shr_floor IType.int IType.int 5 100 0 (by decide) (by decide) (by decide)
    rw [← (h3 ⟨_, rfl⟩).2.1 (by decide)]
    exact hr
  · obtain ⟨r, -, -, -, h3, -⟩ :=
      tr_cf_shr_floor IType.int IType.int (-5) 100 0 (by decide) (by decide) (by decide)
    rw [← (h3 ⟨_, rfl⟩).1 (by decide)]
    exact (h3 ⟨_, rfl⟩).2.2

/-! ## Conversions -/

/-- C23: for a source value `v` of any integer type and any target integer
type, `cx_conv` returns the target value equal to `v` exactly when
`min() ≤ v ≤ max()` of the target, and throws `range_error` otherwise. -/
theorem cx_conv_iff (Target Source : IType) (v : Int) (_hv : InRange Source v) :
    (InRange Target v → cx_conv Target Source v = .ok v) ∧
    (¬ InRange Target v →
      cx_conv Target Source v = .error (.throws (.range_error "cx_conv"))) ∧
    ((∃ r, cx_conv Target Source v = .ok r) ↔ (Target.min ≤ v ∧ v ≤ Target.max)) := by
  have h1 : InRange Target v → cx_conv Target Source v = .ok v := fun h => by
    simp [cx_conv, builtin_add_overflow, wrap_of_inRange h]
  have h2 : ¬ InRange Target v →
      cx_conv Target Source v = .error (.throws (.range_error "cx_conv")) := fun h => by
    have hne : ¬ wrap Target v = v := fun e => h ((wrap_eq_iff _ _).1 e)
    simp [cx_conv, builtin_add_overflow, hne]
  refine ⟨h1, h2, ?_⟩
  constructor
  · rintro ⟨r, hr⟩
    by_contra hn
    rw [h2 hn] at hr
    cases hr
  · intro h
    exact ⟨v, h1 h⟩

/-- Witnesses of C23: `int` 127 converts to `signed char`, `int` 128 does
not, `int` -1 does not convert to `unsigned int`, and `unsigned long`
`2 ^ 63` does not convert to `long`. -/
theorem cx_conv_iff_witness :
    cx_conv IType.schar IType.int 127 = .ok 127 ∧
    cx_conv IType.schar IType.int 128 = .error (.throws (.range_error "cx_conv")) ∧
    cx_conv IType.uint IType.int (-1) = .error (.throws (.range_error "cx_conv")) ∧
    cx_conv IType.long IType.ulong 9223372036854775808
      = .error (.throws (.range_error "cx_conv")) :=
  ⟨(cx_conv_iff IType.schar IType.int 127 (by decide)).1 (by decide),
   (cx_conv_iff IType.schar IType.int 128 (by decide)).2.1 (by decide),
   (cx_conv_iff IType.uint IType.int (-1) (by decide)).2.1 (by decide),
   (cx_conv_iff IType.long IType.ulong 9223372036854775808 (by decide)).2.1 (by decide)⟩

/-- C24: for a source value `v` of any integer type and a target integer
type of width `w`, `tr_conv` returns the unique value of the target type
congruent to `v` modulo `2 ^ w`; `cf_conv` returns the same value and sets
the flag to 1 exactly when `v` is not a value of the target type. -/
theorem tr_cf_conv_wrap (Target Source : IType) (v f : Int) (_hv : InRange Source v) :
    IsWrapOf Target v (tr_conv Target Source v) ∧
    (InRange Target v → cf_conv Target Source v f = (tr_conv Target Source v, f)) ∧
    (¬ InRange Target v → cf_conv Target Source v f = (tr_conv Target Source v, 1)) := by
  have e : tr_conv Target Source v = wrap Target v := by
    simp [tr_conv, builtin_add_overflow]
  rw [e]
  refine ⟨isWrapOf_wrap _ _, fun h => ?_, fun h => ?_⟩
  · simp [cf_conv, builtin_add_overflow, wrap_of_inRange h]
  · have hne : ¬ wrap Target v = v := fun e => h ((wrap_eq_iff _ _).1 e)
    simp [cf_conv, builtin_add_overflow, hne]

/-- Witnesses of C24: `int` 200 to `signed char` is -56 with the flag set,
`int` -1 to `unsigned int` is `UINT_MAX` with the flag set, and `int` 100 to
`signed char` is 100 with the flag 7 kept. -/
theorem tr_cf_conv_wrap_witness :
    (tr_conv IType.schar IType.int 200 = -56 ∧
      cf_conv IType.schar IType.int 200 7 = (-56, 1)) ∧
    (tr_conv IType.uint IType.int (-1) = 4294967295 ∧
      cf_conv IType.uint IType.int (-1) 7 = (4294967295, 1)) ∧
    (tr_conv IType.schar IType.int 100 = 100 ∧
      cf_conv IType.schar IType.int 100 7 = (100, 7)) := by
  refine ⟨?_, ?_, ?_⟩
  · obtain ⟨hw, -, h2⟩ := tr_cf_conv_wrap IType.schar IType.int 200 7 (by decide)
    have e : (-56 : Int) = tr_conv IType.schar IType.int 200 :=
      hw.2.2 _ (by decide) (by decide)
    exact ⟨e.symm, by rw [e]; exact h2 (by decide)⟩
  · obtain ⟨hw, -, h2⟩ := tr_cf_conv_wrap IType.uint IType.int (-1) 7 (by decide)
    have e : (4294967295 : Int) = tr_conv IType.uint IType.int (-1) :=
      hw.2.2 _ (by decide) (by decide)
    exact ⟨e.symm, by rw [e]; exact h2 (by decide)⟩
  · obtain ⟨hw, h1, -⟩ := tr_cf_conv_wrap IType.schar IType.int 100 7 (by decide)
    have e : (100 : Int) = tr_conv IType.schar IType.int 100 :=
      hw.2.2 _ (by decide) (by decide)
    exact ⟨e.symm, by rw [e]; exact h1 (by decide)⟩

/-- Closed form of `sr_conv`: the source value clamped to the target range. -/
theorem sr_conv_eq (Target Source : IType) (v : Int) (hv : InRange Source v) :
    sr_conv Target Source v =
      if v < Target.min then Target.min else if Target.max < v then Target.max else v := by
  have hmin := min_le_zero Target
  have hmax := zero_le_max Target
  simp only [sr_conv, builtin_add_overflow, c_lt_zero hv, add_zero]
  by_cases hin : InRange Target v
  · have h1 : ¬ v < Target.min := by have := hin.1; omega
    have h2 : ¬ Target.max < v := by have := hin.2; omega
    simp [wrap_of_inRange hin, h1, h2]
  · have hne : ¬ wrap Target v = v := fun e => hin ((wrap_eq_iff _ _).1 e)
    unfold InRange at hin
    by_cases h0 : v < 0
    · have h1 : v < Target.min := by omega
      simp [hne, h0, h1]
    · have h1 : ¬ v < Target.min := by omega
      have h2 : Target.max < v := by omega
      simp [hne, h0, h1, h2]

/-- C25: for a source value `v` of any integer type and any target integer
type, `sr_conv` is `v` clamped to the target range: `v` itself when it is a
target value, `min()` when `v` is negative and out of range, `max()` when `v`
is non-negative and out of range; hence `sr_conv` is monotone non-decreasing
in `v`. -/
theorem sr_conv_clamps (Target Source : IType) (v v2 : Int) (hv : InRange Source v)
    (hv2 : InRange Source v2) :
    (InRange Target v → sr_conv Target Source v = v) ∧
    (¬ InRange Target v → v < 0 →
      v < Target.min ∧ sr_conv Target Source v = Target.min) ∧
    (¬ InRange Target v → 0 ≤ v →
      Target.max < v ∧ sr_conv Target Source v = Target.max) ∧
    (v ≤ v2 → sr_conv Target Source v ≤ sr_conv Target Source v2) := by
  have hmin := min_le_zero Target
  have hmax := zero_le_max Target
  rw [sr_conv_eq Target Source v hv, sr_conv_eq Target Source v2 hv2]
  refine ⟨fun hin => ?_, fun hin h0 => ?_, fun hin h0 => ?_, fun hle => ?_⟩
  · have h1 : ¬ v < Target.min := by have := hin.1; omega
    have h2 : ¬ Target.max < v := by have := hin.2; omega
    simp [h1, h2]
  · unfold InRange at hin
    have h1 : v < Target.min := by omega
    exact ⟨h1, by simp [h1]⟩
  · unfold InRange at hin
    have h1 : ¬ v < Target.min := by omega
    have h2 : Target.max < v := by omega
    exact ⟨h2, by simp [h1, h2]⟩
  · split_ifs <;> omega

/-- Witnesses of C25: to `signed char`, `int` 200 gives 127, -200 gives -128
and 100 gives 100; to `unsigned int`, `int` -200 gives 0; and the results for
-200 and 200 are in order. -/
theorem sr_conv_clamps_witness :
    sr_conv IType.schar IType.int 200 = 127 ∧
    sr_conv IType.schar IType.int (-200) = -128 ∧
    sr_conv IType.schar IType.int 100 = 100 ∧
    sr_conv IType.uint IType.int (-200) = 0 ∧
    sr_conv IType.schar IType.int (-200) ≤ sr_conv IType.schar IType.int 200 :=
  ⟨((sr_conv_clamps IType.schar IType.int 200 200 (by decide) (by decide)).2.2.1
      (by decide) (by decide)).2,
   ((sr_conv_clamps IType.schar IType.int (-200) 200 (by decide) (by decide)).2.1
      (by decide) (by decide)).2,
   (sr_conv_clamps IType.schar IType.int 100 100 (by decide) (by decide)).1 (by decide),
   ((sr_conv_clamps IType.uint IType.int (-200) 200 (by decide) (by decide)).2.1
      (by decide) (by decide)).2,
   (sr_conv_clamps IType.schar IType.int (-200) 200 (by decide) (by decide)).2.2.2
      (by decide)⟩

/-! ## Masking to a bit count -/

theorem wrap_unsigned_eq (T : IType) (x : Int) :
    wrap T.toUnsigned x = x % 2 ^ T.bits := by
  simp [wrap, IType.toUnsigned, IType.bits]

/-- The bitwise and of a value with the mask `2 ^ n - 1` keeps its low `n`
bits: the result is the value modulo `2 ^ n`. -/
theorem bit_and_mask (T : IType) (a : Int) (n : Nat) (hn : n ≤ T.digits) :
    bit_and T a (2 ^ n - 1) = a % 2 ^ n := by
  have hb := digits_lt_bits_or T
  have hM := two_pow_pos T.bits
  have hd := two_pow_pos n
  have hle : (2 : Int) ^ n ≤ 2 ^ T.bits := two_pow_le (by omega)
  have hled : (2 : Int) ^ n ≤ 2 ^ T.digits := two_pow_le hn
  have hdvd : (2 : Int) ^ n ∣ 2 ^ T.bits := pow_dvd_pow 2 (by omega)
  have hmaskN : ((2 ^ n - 1 : Nat) : Int) = (2 : Int) ^ n - 1 := by
    rw [Nat.cast_pred (Nat.pow_pos (by decide))]
    push_cast
    rfl
  have hmask : wrap T.toUnsigned (2 ^ n - 1) = (2 : Int) ^ n - 1 := by
    rw [wrap_unsigned_eq]
    exact Int.emod_eq_of_lt (by omega) (by omega)
  have ha0 : 0 ≤ a % 2 ^ T.bits := Int.emod_nonneg _ (ne_of_gt hM)
  unfold bit_and
  rw [hmask, wrap_unsigned_eq, ← hmaskN, Int.toNat_ofNat, Nat.and_pow_two_sub_one_eq_mod,
    Int.natCast_mod, Int.toNat_of_nonneg ha0]
  push_cast
  rw [Int.emod_emod_of_dvd _ hdvd]
  apply wrap_of_inRange
  have h1 := Int.emod_nonneg a (ne_of_gt hd)
  have h2 := Int.emod_lt_of_pos a hd
  have h3 := min_le_zero T
  constructor
  · omega
  · rw [max_eq]
    omega

/-- The mask of `cf_ufit` and `tr_ufit` for a bit count below `digits`. -/
theorem ufit_mask (T : IType) (N : Nat) (hN : N < T.digits) :
    native_shl (promote T) (wrap (promote T) 1) N = .ok (2 ^ N) ∧
    native_sub (promote T) (2 ^ N) 1 = .ok (2 ^ N - 1) := by
  have hdp := digits_le_promote T
  have hsh := native_shl_one (promote T) N (by omega) (by omega)
  simp only [Int.toNat_ofNat] at hsh
  have hpow : InRange (promote T) (2 ^ N) := pow_inRange _ N (by omega)
  have hpos := two_pow_pos N
  have hmin := min_le_zero (promote T)
  have htm : InRange (promote T) (2 ^ N - 1) := by
    have := hpow.2
    constructor <;> omega
  refine ⟨hsh, ?_⟩
  simp [native_sub, htm, wrap_of_inRange htm]

theorem emod_pow_inRange (T : IType) (v : Int) (N : Nat) (hN : N ≤ T.digits) :
    InRange T (v % 2 ^ N) := by
  have hd := two_pow_pos N
  have hled : (2 : Int) ^ N ≤ 2 ^ T.digits := two_pow_le hN
  have h1 := Int.emod_nonneg v (ne_of_gt hd)
  have h2 := Int.emod_lt_of_pos v hd
  have h3 := min_le_zero T
  constructor
  · omega
  · rw [max_eq]
    omega

/-- Closed form of `tr_ufit`. -/
theorem tr_ufit_eq (T : IType) (v : Int) (N : Nat) (hv : InRange T v) :
    tr_ufit T v N = if T.digits ≤ N then .ok v else .ok (v % 2 ^ N) := by
  simp only [tr_ufit]
  by_cases hN : T.digits ≤ N
  · simp [hN]
  · obtain ⟨e1, e2⟩ := ufit_mask T N (by omega)
    have hdp := digits_le_promote T
    simp only [e1, e2, wrap_of_inRange (inRange_promote hv),
      bit_and_mask (promote T) v N (by omega),
      wrap_of_inRange (emod_pow_inRange T v N (by omega))]

/-- Closed form of `cf_ufit`. -/
theorem cf_ufit_eq (T : IType) (v : Int) (N : Nat) (f : Int) (hv : InRange T v) :
    cf_ufit T v N f =
      if T.digits ≤ N then .ok (v, if v < 0 then 1 else f)
      else .ok (v % 2 ^ N, if v % 2 ^ N = v then f else 1) := by
  simp only [cf_ufit, c_lt_zero hv]
  by_cases hN : T.digits ≤ N
  · by_cases h0 : v < 0 <;> simp [hN, h0]
  · obtain ⟨e1, e2⟩ := ufit_mask T N (by omega)
    have hdp := digits_le_promote T
    have hret := emod_pow_inRange T v N (by omega)
    have hce : c_eq (promote T) T (v % 2 ^ N) v = decide (v % 2 ^ N = v) :=
      c_eq_of_inRange (by rw [arith_promote_left]; exact inRange_promote hret)
        (by rw [arith_promote_left]; exact inRange_promote hv)
    simp only [e1, e2, wrap_of_inRange (inRange_promote hv),
      bit_and_mask (promote T) v N (by omega), wrap_of_inRange hret, hce]
    have hnn := Int.emod_nonneg v (ne_of_gt (two_pow_pos N))
    by_cases he : v % 2 ^ N = v
    · have h0 : ¬ v < 0 := by omega
      simp [hN, he, h0]
    · simp [hN, he]

theorem bits_eq_digits_succ (T : IType) (hs : T.signed = true) : T.bits = T.digits + 1 := by
  rcases T with ⟨s, w⟩
  subst hs
  cases w <;> rfl

/-- C26, as stated, fails: for the `int` value -1 and the bit count 32,
`cf_ufit` and `tr_ufit` return -1 itself, through the early return for
`nbits >= tbits`, and not a value in `[0, 2 ^ 32)`. -/
theorem ufit_negative_returned_unmasked :
    cf_ufit IType.int (-1) 32 0 = .ok (-1, 1) ∧
    tr_ufit IType.int (-1) 32 = .ok (-1) ∧
    ¬ (∃ r fl, cf_ufit IType.int (-1) 32 0 = .ok (r, fl) ∧ 0 ≤ r ∧ r < 2 ^ 32) := by
  refine ⟨rfl, rfl, ?_⟩
  rintro ⟨r, fl, h, h0, -⟩
  have e : cf_ufit IType.int (-1) 32 0 = .ok (-1, 1) := rfl
  rw [e] at h
  simp only [Except.ok.injEq, Prod.mk.injEq] at h
  omega

/-- The same early return at the bit count 31, the `digits` of `int`: -1 is
returned although its low 31 bits are the `int` value 2147483647. -/
theorem cf_ufit_int_neg_one_31 :
    cf_ufit IType.int (-1) 31 0 = .ok (-1, 1) ∧ tr_ufit IType.int (-1) 31 = .ok (-1) ∧
    (2147483647 : Int) % 2 ^ 31 = (-1) % 2 ^ 31 ∧ InRange IType.int 2147483647 :=
  ⟨rfl, rfl, by decide, by decide⟩

/-- C26, amended: for a value `v` of any integer type and a bit count `N`:
when `N` is below `digits` of the type, `cf_ufit` and `tr_ufit` return `v`
masked to its low `N` bits, the value in `[0, 2 ^ N)` congruent to `v` modulo
`2 ^ N`, for a negative `v` too; when `N` is at or above `digits` and `v` is
non-negative they return `v`, which is below `2 ^ N`; when `N` is at or above
the full width and `v` is negative they return `v` unchanged, and no
non-negative value of the type has the low `N` bits of `v`. -/
theorem cf_tr_ufit_mask (T : IType) (v : Int) (N : Nat) (f : Int) (hv : InRange T v) :
    (N < T.digits →
      ∃ r fl, cf_ufit T v N f = .ok (r, fl) ∧ tr_ufit T v N = .ok r ∧
        0 ≤ r ∧ r < 2 ^ N ∧ r % 2 ^ N = v % 2 ^ N) ∧
    (T.digits ≤ N → 0 ≤ v →
      cf_ufit T v N f = .ok (v, f) ∧ tr_ufit T v N = .ok v ∧ v < 2 ^ N) ∧
    (T.bits ≤ N → v < 0 →
      (∃ fl, cf_ufit T v N f = .ok (v, fl)) ∧ tr_ufit T v N = .ok v ∧
      ¬ ∃ r, InRange T r ∧ 0 ≤ r ∧ r % 2 ^ N = v % 2 ^ N) := by
  rw [cf_ufit_eq T v N f hv, tr_ufit_eq T v N hv]
  have hd := two_pow_pos N
  refine ⟨fun hN => ?_, fun hN h0 => ?_, fun hN h0 => ?_⟩
  · have hn : ¬ T.digits ≤ N := by omega
    exact ⟨v % 2 ^ N, _, by rw [if_neg hn], by rw [if_neg hn],
      Int.emod_nonneg v (ne_of_gt hd), Int.emod_lt_of_pos v hd, Int.emod_emod_of_dvd v
        (dvd_refl _)⟩
  · have hn : ¬ v < 0 := by omega
    exact ⟨by rw [if_pos hN, if_neg hn], by rw [if_pos hN], le_max_lt_pow hv hN⟩
  · have hb := digits_lt_bits_or T
    have hN2 : T.digits ≤ N := by omega
    refine ⟨⟨_, by rw [if_pos hN2]⟩, by rw [if_pos hN2], ?_⟩
    rintro ⟨r, hr, hr0, hc⟩
    have hs := signed_of_neg hv h0
    have hbd := bits_eq_digits_succ T hs
    have h1 : (2 : Int) ^ (T.digits + 1) ≤ 2 ^ N := two_pow_le (by omega)
    rw [pow_succ] at h1
    have h2 := hr.2
    rw [max_eq] at h2
    have h3 := hv.1
    have h4 := neg_pow_le_min T
    have h5 := (Int.emod_emod_of_dvd (r - v) (dvd_refl ((2 : Int) ^ N))).symm
    have h6 : (r - v) % 2 ^ N = 0 := Int.emod_eq_emod_iff_emod_sub_eq_zero.1 hc
    have h7 : (r - v) % 2 ^ N = r - v := Int.emod_eq_of_lt (by omega) (by omega)
    omega

/-- Witnesses of amended C26: on `int`, `cf_ufit(-1, 4)` returns 15 and
`tr_ufit(-1, 4)` too; `cf_ufit(9, 3)` returns 1; `cf_ufit(9, 40)` returns 9
with the flag 7 kept; `tr_ufit(-1, 32)` returns -1. -/
theorem cf_tr_ufit_mask_witness :
    (∃ fl, cf_ufit IType.int (-1) 4 7 = .ok (15, fl)) ∧
    tr_ufit IType.int (-1) 4 = .ok 15 ∧
    tr_ufit IType.int 9 3 = .ok 1 ∧
    cf_ufit IType.int 9 40 7 = .ok (9, 7) ∧
    tr_ufit IType.int (-1) 32 = .ok (-1) := by
  refine ⟨?_, ?_, ?_,
    ((cf_tr_ufit_mask IType.int 9 40 7 (by decide)).2.1 (by decide) (by decide)).1,
    ((cf_tr_ufit_mask IType.int (-1) 32 7 (by decide)).2.2 (by decide) (by decide)).2.1⟩
  · obtain ⟨r, fl, h1, -, h3, h4, h5⟩ :=
      (cf_tr_ufit_mask IType.int (-1) 4 7 (by decide)).1 (by decide)
    have e : r = 15 := by
      simp at h4 h5
      omega
    rw [e] at h1
    exact ⟨fl, h1⟩
  · obtain ⟨r, fl, -, h2, h3, h4, h5⟩ :=
      (cf_tr_ufit_mask IType.int (-1) 4 7 (by decide)).1 (by decide)
    have e : r = 15 := by
      simp at h4 h5
      omega
    rw [e] at h2
    exact h2
  · obtain ⟨r, fl, -, h2, h3, h4, h5⟩ :=
      (cf_tr_ufit_mask IType.int 9 3 7 (by decide)).1 (by decide)
    have e : r = 1 := by
      simp at h4 h5
      omega
    rw [e] at h2
    exact h2

/-! ## Fitting is monotone in the bit count -/

/-- C27: for a value `v` of any integer type and bit counts `N ≤ M`, if
`cx_ufit(v, N)` returns then `cx_ufit(v, M)` returns `v`, and if
`cx_sfit(v, N)` returns then `cx_sfit(v, M)` returns `v`; the returned value
is `v` itself, so fitting it again to `M` leaves it unchanged. -/
theorem fit_monotone (T : IType) (v : Int) (N M : Nat) (hv : InRange T v) (hNM : N ≤ M) :
    (∀ r, cx_ufit T v N = .ok r → r = v ∧ cx_ufit T v M = .ok v ∧ cx_ufit T r M = .ok r) ∧
    (∀ r, cx_sfit T v N = .ok r → r = v ∧ cx_sfit T v M = .ok v ∧ cx_sfit T r M = .ok r) := by
  have hp : (2 : Int) ^ N ≤ 2 ^ M := two_pow_le hNM
  have hp1 : (2 : Int) ^ (N - 1) ≤ 2 ^ (M - 1) := two_pow_le (by omega)
  constructor
  · intro r hr
    have hfit : 0 ≤ v ∧ v < 2 ^ N := by
      by_contra hn
      obtain ⟨m, hm⟩ := (cx_ufit_spec T v N hv).2 hn
      rw [hm] at hr
      cases hr
    have hrv : r = v := by
      rw [(cx_ufit_spec T v N hv).1 hfit] at hr
      exact (Except.ok.inj hr).symm
    have hM := (cx_ufit_spec T v M hv).1 ⟨hfit.1, by omega⟩
    subst hrv
    exact ⟨rfl, hM, hM⟩
  · intro r hr
    have hfit : 1 ≤ N ∧ -(2 ^ (N - 1)) ≤ v ∧ v ≤ 2 ^ (N - 1) - 1 := by
      by_contra hn
      obtain ⟨m, hm⟩ := (cx_sfit_spec T v N hv).2 hn
      rw [hm] at hr
      cases hr
    have hrv : r = v := by
      rw [(cx_sfit_spec T v N hv).1 hfit] at hr
      exact (Except.ok.inj hr).symm
    have hM := (cx_sfit_spec T v M hv).1 ⟨by omega, by omega, by omega⟩
    subst hrv
    exact ⟨rfl, hM, hM⟩

/-- Witnesses of C27 on `int`: 9 fits 4 unsigned bits and so 7 and 40 bits;
-16 fits 5 signed bits and so 6 and 64 bits. -/
theorem fit_monotone_witness :
    cx_ufit IType.int 9 7 = .ok 9 ∧ cx_ufit IType.int 9 40 = .ok 9 ∧
    cx_sfit IType.int (-16) 6 = .ok (-16) ∧ cx_sfit IType.int (-16) 64 = .ok (-16) :=
  ⟨((fit_monotone IType.int 9 4 7 (by decide) (by decide)).1 9 rfl).2.1,
   ((fit_monotone IType.int 9 4 40 (by decide) (by decide)).1 9 rfl).2.1,
   ((fit_monotone IType.int (-16) 5 6 (by decide) (by decide)).2 (-16) rfl).2.1,
   ((fit_monotone IType.int (-16) 5 64 (by decide) (by decide)).2 (-16) rfl).2.1⟩

/-! ## The flag protocol -/

theorem cf_div_frame (T1 T2 : IType) (a b : Int) :
    ∃ out : Except Fault (Int × Bool), ∀ f : Int,
      cf_div T1 T2 a b f = out.map (fun p => (p.1, if p.2 then 1 else f)) := by
  unfold cf_div
  by_cases g0 : c_eq T2 IType.int b 0 = true
  · exact ⟨.ok (bit_not (arith T1 T2) 0, true), fun f => by simp [g0, Except.map]⟩
  · by_cases g1 : (T2.signed && (c_eq T2 IType.int b (-1) &&
        c_eq T1 (arith T1 T2) a (arith T1 T2).min)) = true
    · exact ⟨.ok ((arith T1 T2).min, true), fun f => by simp [g0, g1, Except.map]⟩
    · cases h : native_div (arith T1 T2) (wrap (arith T1 T2) a) (wrap (arith T1 T2) b) with
      | error e => exact ⟨.error e, fun f => by simp [g0, g1, h, Except.map]⟩
      | ok q => exact ⟨.ok (q, false), fun f => by simp [g0, g1, h, Except.map]⟩

theorem cf_rem_frame (T1 T2 : IType) (a b : Int) :
    ∃ out : Except Fault (Int × Bool), ∀ f : Int,
      cf_rem T1 T2 a b f = out.map (fun p => (p.1, if p.2 then 1 else f)) := by
  unfold cf_rem
  by_cases g0 : c_eq T2 IType.int b 0 = true
  · exact ⟨.ok (0, true), fun f => by simp [g0, Except.map]⟩
  · by_cases g1 : (T2.signed && (c_eq T2 IType.int b (-1) &&
        c_eq T1 (arith T1 T2) a (arith T1 T2).min)) = true
    · exact ⟨.ok (0, true), fun f => by simp [g0, g1, Except.map]⟩
    · cases h : native_rem (arith T1 T2) (wrap (arith T1 T2) a) (wrap (arith T1 T2) b) with
      | error e => exact ⟨.error e, fun f => by simp [g0, g1, h, Except.map]⟩
      | ok q => exact ⟨.ok (q, false), fun f => by simp [g0, g1, h, Except.map]⟩

theorem cf_shl_frame (T1 T2 : IType) (a b : Int) :
    ∃ out : Except Fault (Int × Bool), ∀ f : Int,
      cf_shl T1 T2 a b f = out.map (fun p => (p.1, if p.2 then 1 else f)) := by
  unfold cf_shl
  by_cases g0 : (c_lt T2 IType.int b 0 || c_ge T2 IType.int b (promote T1).digits) = true
  · exact ⟨.ok (0, true), fun f => by simp [g0, Except.map]⟩
  · cases h : native_shl (promote T1).toUnsigned (wrap (promote T1).toUnsigned a)
        (wrap (promote T2) b) with
    | error e => exact ⟨.error e, fun f => by simp [g0, h, Except.map]⟩
    | ok u =>
      cases h2 : native_shr (promote T1) (ia_bit_cast (promote T1) u)
          (wrap (promote T2) b) with
      | error e => exact ⟨.error e, fun f => by simp [g0, h, h2, Except.map]⟩
      | ok cb =>
        by_cases g1 : c_eq T1 (promote T1) a cb = true
        · exact ⟨.ok (ia_bit_cast (promote T1) u, false), fun f => by
            simp [g0, h, h2, g1, Except.map]⟩
        · exact ⟨.ok (ia_bit_cast (promote T1) u, true), fun f => by
            simp [g0, h, h2, g1, Except.map]⟩

theorem cf_shr_frame (T1 T2 : IType) (a b : Int) :
    ∃ out : Except Fault (Int × Bool), ∀ f : Int,
      cf_shr T1 T2 a b f = out.map (fun p => (p.1, if p.2 then 1 else f)) := by
  unfold cf_shr
  by_cases g0 : (c_lt T2 IType.int b 0 || c_ge T2 IType.int b (promote T1).digits) = true
  · by_cases g1 : c_lt T1 IType.int a 0 = true
    · exact ⟨.ok (bit_not (promote T1) 0, true), fun f => by
        simp [g0, g1, Except.map]⟩
    · exact ⟨.ok (0, true), fun f => by simp [g0, g1, Except.map]⟩
  · cases h : native_shr (promote T1) (wrap (promote T1) a) (wrap (promote T2) b) with
    | error e => exact ⟨.error e, fun f => by simp [g0, h, Except.map]⟩
    | ok r => exact ⟨.ok (r, false), fun f => by simp [g0, h, Except.map]⟩

theorem cf_ufit_frame (T : IType) (a : Int) (N : Nat) :
    ∃ out : Except Fault (Int × Bool), ∀ f : Int,
      cf_ufit T a N f = out.map (fun p => (p.1, if p.2 then 1 else f)) := by
  unfold cf_ufit
  by_cases g0 : T.digits ≤ N
  · by_cases g1 : c_lt T IType.int a 0 = true
    · exact ⟨.ok (a, true), fun f => by simp [g0, g1, Except.map]⟩
    · exact ⟨.ok (a, false), fun f => by simp [g0, g1, Except.map]⟩
  · cases h : native_shl (promote T) (wrap (promote T) 1) N with
    | error e => exact ⟨.error e, fun f => by simp [g0, h, Except.map]⟩
    | ok sh =>
      cases h2 : native_sub (promote T) sh 1 with
      | error e => exact ⟨.error e, fun f => by simp [g0, h, h2, Except.map]⟩
      | ok mask =>
        by_cases g1 : c_lt T IType.int a 0 = true <;>
        by_cases g2 : c_eq (promote T) T (bit_and (promote T) (wrap (promote T) a) mask) a
            = true
        · exact ⟨.ok (wrap T (bit_and (promote T) (wrap (promote T) a) mask), true),
            fun f => by simp [g0, h, h2, g1, g2, Except.map]⟩
        · exact ⟨.ok (wrap T (bit_and (promote T) (wrap (promote T) a) mask), true),
            fun f => by simp [g0, h, h2, g1, g2, Except.map]⟩
        · exact ⟨.ok (wrap T (bit_and (promote T) (wrap (promote T) a) mask), false),
            fun f => by simp [g0, h, h2, g1, g2, Except.map]⟩
        · exact ⟨.ok (wrap T (bit_and (promote T) (wrap (promote T) a) mask), true),
            fun f => by simp [g0, h, h2, g1, g2, Except.map]⟩

/-- C28: for each of `cf_add`, `cf_sub`, `cf_mul`, `cf_div`, `cf_rem`,
`cf_shl`, `cf_shr`, `cf_conv`, `cf_ufit`, on every input, there is an outcome
that does not depend on the prior flag `f`, a returned value with a failure
mark, such that the call returns that value and leaves the flag at 1 when the
mark is set and at `f` otherwise: the flag is never cleared, never given a
value other than 1, and the returned value does not depend on `f`. -/
theorem flag_frame (T1 T2 : IType) (a b : Int) (N : Nat) :
    (∃ out : Int × Bool, ∀ f : Int,
      cf_add T1 T2 a b f = (out.1, if out.2 then 1 else f)) ∧
    (∃ out : Int × Bool, ∀ f : Int,
      cf_sub T1 T2 a b f = (out.1, if out.2 then 1 else f)) ∧
    (∃ out : Int × Bool, ∀ f : Int,
      cf_mul T1 T2 a b f = (out.1, if out.2 then 1 else f)) ∧
    (∃ out : Except Fault (Int × Bool), ∀ f : Int,
      cf_div T1 T2 a b f = out.map (fun p => (p.1, if p.2 then 1 else f))) ∧
    (∃ out : Except Fault (Int × Bool), ∀ f : Int,
      cf_rem T1 T2 a b f = out.map (fun p => (p.1, if p.2 then 1 else f))) ∧
    (∃ out : Except Fault (Int × Bool), ∀ f : Int,
      cf_shl T1 T2 a b f = out.map (fun p => (p.1, if p.2 then 1 else f))) ∧
    (∃ out : Except Fault (Int × Bool), ∀ f : Int,
      cf_shr T1 T2 a b f = out.map (fun p => (p.1, if p.2 then 1 else f))) ∧
    (∃ out : Int × Bool, ∀ f : Int,
      cf_conv T1 T2 a f = (out.1, if out.2 then 1 else f)) ∧
    (∃ out : Except Fault (Int × Bool), ∀ f : Int,
      cf_ufit T1 a N f = out.map (fun p => (p.1, if p.2 then 1 else f))) := by
  refine ⟨⟨builtin_add_overflow (arith T1 T2) a b, fun f => ?_⟩,
    ⟨builtin_sub_overflow (arith T1 T2) a b, fun f => ?_⟩,
    ⟨builtin_mul_overflow (arith T1 T2) a b, fun f => ?_⟩,
    cf_div_frame T1 T2 a b, cf_rem_frame T1 T2 a b, cf_shl_frame T1 T2 a b,
    cf_shr_frame T1 T2 a b, ⟨builtin_add_overflow T1 a 0, fun f => ?_⟩,
    cf_ufit_frame T1 a N⟩
  · unfold cf_add
    split <;> simp_all
  · unfold cf_sub
    split <;> simp_all
  · unfold cf_mul
    split <;> simp_all
  · unfold cf_conv
    split <;> simp_all

/-! ## The flag is set exactly when the checked variant throws -/

theorem div_flag_iff (T1 T2 : IType) (a b f : Int) (hf : f ≠ 1) :
    ((∃ e, cx_div T1 T2 a b = .error (.throws e)) ↔ ∃ r, cf_div T1 T2 a b f = .ok (r, 1)) ∧
    (∀ r, cx_div T1 T2 a b = .ok r → cf_div T1 T2 a b f = .ok (r, f)) := by
  unfold cx_div cf_div
  by_cases g0 : c_eq T2 IType.int b 0 = true
  · simp [g0]
  · by_cases g1 : (T2.signed && (c_eq T2 IType.int b (-1) &&
        c_eq T1 (arith T1 T2) a (arith T1 T2).min)) = true
    · simp [g0, g1]
    · cases h : native_div (arith T1 T2) (wrap (arith T1 T2) a) (wrap (arith T1 T2) b) with
      | error e =>
        have hu : e = Fault.undefined := by
          unfold native_div at h
          split at h
          · cases h; rfl
          · split at h
            · cases h
            · cases h; rfl
        subst hu
        simp [g0, g1, h]
      | ok q => simp [g0, g1, h, hf]

theorem rem_flag_iff (T1 T2 : IType) (a b f : Int) (hf : f ≠ 1) :
    ((∃ e, cx_rem T1 T2 a b = .error (.throws e)) ↔ ∃ r, cf_rem T1 T2 a b f = .ok (r, 1)) ∧
    (∀ r, cx_rem T1 T2 a b = .ok r → cf_rem T1 T2 a b f = .ok (r, f)) := by
  unfold cx_rem cf_rem
  by_cases g0 : c_eq T2 IType.int b 0 = true
  · simp [g0]
  · by_cases g1 : (T2.signed && (c_eq T2 IType.int b (-1) &&
        c_eq T1 (arith T1 T2) a (arith T1 T2).min)) = true
    · simp [g0, g1]
    · cases h : native_rem (arith T1 T2) (wrap (arith T1 T2) a) (wrap (arith T1 T2) b) with
      | error e =>
        have hu : e = Fault.undefined := by
          unfold native_rem at h
          split at h
          · cases h; rfl
          · split at h
            · cases h
            · cases h; rfl
        subst hu
        simp [g0, g1, h]
      | ok q => simp [g0, g1, h, hf]

theorem native_shl_error {T : IType} {a n : Int} {e : Fault}
    (h : native_shl T a n = .error e) : e = Fault.undefined := by
  unfold native_shl at h
  split at h
  · cases h; rfl
  · cases h

theorem native_shr_error {T : IType} {a n : Int} {e : Fault}
    (h : native_shr T a n = .error e) : e = Fault.undefined := by
  unfold native_shr at h
  split at h
  · cases h; rfl
  · cases h

theorem shl_flag_iff (T1 T2 : IType) (a b f : Int) (hf : f ≠ 1) :
    ((∃ e, cx_shl T1 T2 a b = .error (.throws e)) ↔ ∃ r, cf_shl T1 T2 a b f = .ok (r, 1)) ∧
    (∀ r, cx_shl T1 T2 a b = .ok r → cf_shl T1 T2 a b f = .ok (r, f)) := by
  unfold cx_shl cf_shl
  by_cases g0 : (c_lt T2 IType.int b 0 || c_ge T2 IType.int b (promote T1).digits) = true
  · simp [g0]
  · cases h : native_shl (promote T1).toUnsigned (wrap (promote T1).toUnsigned a)
        (wrap (promote T2) b) with
    | error e =>
      have hu := native_shl_error h
      subst hu
      simp [g0, h]
    | ok u =>
      cases h2 : native_shr (promote T1) (ia_bit_cast (promote T1) u)
          (wrap (promote T2) b) with
      | error e =>
        have hu := native_shr_error h2
        subst hu
        simp [g0, h, h2]
      | ok cb =>
        by_cases g1 : c_eq T1 (promote T1) a cb = true
        · simp [g0, h, h2, g1, hf]
        · simp [g0, h, h2, g1]

theorem shr_flag_iff (T1 T2 : IType) (a b f : Int) (hf : f ≠ 1) :
    ((∃ e, cx_shr T1 T2 a b = .error (.throws e)) ↔ ∃ r, cf_shr T1 T2 a b f = .ok (r, 1)) ∧
    (∀ r, cx_shr T1 T2 a b = .ok r → cf_shr T1 T2 a b f = .ok (r, f)) := by
  unfold cx_shr cf_shr
  by_cases g0 : (c_lt T2 IType.int b 0 || c_ge T2 IType.int b (promote T1).digits) = true
  · by_cases g1 : c_lt T1 IType.int a 0 = true <;> simp [g0, g1]
  · cases h : native_shr (promote T1) (wrap (promote T1) a) (wrap (promote T2) b) with
    | error e =>
      have hu := native_shr_error h
      subst hu
      simp [g0, h]
    | ok r => simp [g0, h, hf]

theorem ufit_flag_iff (T : IType) (v : Int) (N : Nat) (f : Int) (hf : f ≠ 1)
    (hv : InRange T v) :
    ((∃ e, cx_ufit T v N = .error (.throws e)) ↔ ∃ r, cf_ufit T v N f = .ok (r, 1)) ∧
    (∀ r, cx_ufit T v N = .ok r → cf_ufit T v N f = .ok (r, f)) := by
  have hsp := cx_ufit_spec T v N hv
  have hd := two_pow_pos N
  have hfit : (0 ≤ v ∧ v < 2 ^ N) → cf_ufit T v N f = .ok (v, f) := by
    intro h
    rw [cf_ufit_eq T v N f hv]
    have hn : ¬ v < 0 := by omega
    have hm : v % 2 ^ N = v := Int.emod_eq_of_lt h.1 h.2
    by_cases hN : T.digits ≤ N <;> simp [hN, hn, hm]
  have hnot : ¬ (0 ≤ v ∧ v < 2 ^ N) → ∃ r, cf_ufit T v N f = .ok (r, 1) := by
    intro h
    rw [cf_ufit_eq T v N f hv]
    by_cases hN : T.digits ≤ N
    · have := le_max_lt_pow hv hN
      have hn : v < 0 := by omega
      exact ⟨v, by simp [hN, hn]⟩
    · have hm : ¬ v % 2 ^ N = v := by
        intro e
        have h1 := Int.emod_nonneg v (ne_of_gt hd)
        have h2 := Int.emod_lt_of_pos v hd
        omega
      exact ⟨v % 2 ^ N, by simp [hN, hm]⟩
  by_cases h : 0 ≤ v ∧ v < 2 ^ N
  · rw [hsp.1 h, hfit h]
    simp [hf]
  · obtain ⟨m, hm⟩ := hsp.2 h
    obtain ⟨r, hr⟩ := hnot h
    rw [hm, hr]
    simp

/-- C29: for each family add, sub, mul, div, rem, shl, shr, conv, ufit and
every input, with a prior flag other than 1: the `cf_` variant leaves the
flag at 1 exactly when the `cx_` variant throws, and whenever the `cx_`
variant returns a value the `cf_` variant returns that value with the flag
untouched; no failure is silent and no success is flagged.  The operand `a`
has the type `T1`; for conv it is the source value, converted to any target
type `Tg`, so every failing conversion is covered. -/
theorem flag_iff_raises (T1 T2 Tg : IType) (a b : Int) (N : Nat) (f : Int) (hf : f ≠ 1)
    (ha : InRange T1 a) :
    (((∃ e, cx_add T1 T2 a b = .error (.throws e)) ↔ (cf_add T1 T2 a b f).2 = 1) ∧
      (∀ r, cx_add T1 T2 a b = .ok r → cf_add T1 T2 a b f = (r, f))) ∧
    (((∃ e, cx_sub T1 T2 a b = .error (.throws e)) ↔ (cf_sub T1 T2 a b f).2 = 1) ∧
      (∀ r, cx_sub T1 T2 a b = .ok r → cf_sub T1 T2 a b f = (r, f))) ∧
    (((∃ e, cx_mul T1 T2 a b = .error (.throws e)) ↔ (cf_mul T1 T2 a b f).2 = 1) ∧
      (∀ r, cx_mul T1 T2 a b = .ok r → cf_mul T1 T2 a b f = (r, f))) ∧
    (((∃ e, cx_div T1 T2 a b = .error (.throws e)) ↔
        ∃ r, cf_div T1 T2 a b f = .ok (r, 1)) ∧
      (∀ r, cx_div T1 T2 a b = .ok r → cf_div T1 T2 a b f = .ok (r, f))) ∧
    (((∃ e, cx_rem T1 T2 a b = .error (.throws e)) ↔
        ∃ r, cf_rem T1 T2 a b f = .ok (r, 1)) ∧
      (∀ r, cx_rem T1 T2 a b = .ok r → cf_rem T1 T2 a b f = .ok (r, f))) ∧
    (((∃ e, cx_shl T1 T2 a b = .error (.throws e)) ↔
        ∃ r, cf_shl T1 T2 a b f = .ok (r, 1)) ∧
      (∀ r, cx_shl T1 T2 a b = .ok r → cf_shl T1 T2 a b f = .ok (r, f))) ∧
    (((∃ e, cx_shr T1 T2 a b = .error (.throws e)) ↔
        ∃ r, cf_shr T1 T2 a b f = .ok (r, 1)) ∧
      (∀ r, cx_shr T1 T2 a b = .ok r → cf_shr T1 T2 a b f = .ok (r, f))) ∧
    (((∃ e, cx_conv Tg T1 a = .error (.throws e)) ↔ (cf_conv Tg T1 a f).2 = 1) ∧
      ((∃ e, cx_conv Tg T1 a = .error (.throws e)) ↔ ¬ InRange Tg a) ∧
      (∀ r, cx_conv Tg T1 a = .ok r → cf_conv Tg T1 a f = (r, f))) ∧
    (((∃ e, cx_ufit T1 a N = .error (.throws e)) ↔
        ∃ r, cf_ufit T1 a N f = .ok (r, 1)) ∧
      (∀ r, cx_ufit T1 a N = .ok r → cf_ufit T1 a N f = .ok (r, f))) := by
  refine ⟨?_, ?_, ?_, div_flag_iff T1 T2 a b f hf, rem_flag_iff T1 T2 a b f hf,
    shl_flag_iff T1 T2 a b f hf, shr_flag_iff T1 T2 a b f hf, ?_,
    ufit_flag_iff T1 a N f hf ha⟩
  · unfold cx_add cf_add
    by_cases h : (builtin_add_overflow (arith T1 T2) a b).2 = true <;> simp [h, hf]
  · unfold cx_sub cf_sub
    by_cases h : (builtin_sub_overflow (arith T1 T2) a b).2 = true <;> simp [h, hf]
  · unfold cx_mul cf_mul
    by_cases h : (builtin_mul_overflow (arith T1 T2) a b).2 = true <;> simp [h, hf]
  · refine ⟨?_, ?_, ?_⟩
    · unfold cx_conv cf_conv
      by_cases h : (builtin_add_overflow Tg a 0).2 = true <;> simp [h, hf]
    · by_cases hin : InRange Tg a
      · simp [cx_conv, builtin_add_overflow, wrap_of_inRange hin, hin]
      · have hne : ¬ wrap Tg a = a := fun e => hin ((wrap_eq_iff _ _).1 e)
        simp [cx_conv, builtin_add_overflow, hne, hin]
    · unfold cx_conv cf_conv
      by_cases h : (builtin_add_overflow Tg a 0).2 = true <;> simp [h, hf]

/-- Witnesses of C29 with the flag 0 before: on `int`, `cx_add(INT_MAX, 1)`
throws and `cf_add` leaves the flag at 1; `cx_div(7, 0)` throws and `cf_div`
flags; `cx_shl(5, 2) = 20` and `cf_shl` returns 20 with the flag 0;
`cx_ufit(-1, 40)` throws and `cf_ufit` flags; converting the `int` 200 to
`signed char` throws in `cx_conv` and `cf_conv` leaves the flag at 1, while
the `int` 100 converts and `cf_conv` returns 100 with the flag 0. -/
theorem flag_iff_raises_witness :
    (cf_add IType.int IType.int 2147483647 1 0).2 = 1 ∧
    (∃ r, cf_div IType.int IType.int 7 0 0 = .ok (r, 1)) ∧
    cf_shl IType.int IType.int 5 2 0 = .ok (20, 0) ∧
    (∃ r, cf_ufit IType.int (-1) 40 0 = .ok (r, 1)) ∧
    (∃ e, cx_conv IType.schar IType.int 200 = .error (.throws e)) ∧
    (cf_conv IType.schar IType.int 200 0).2 = 1 ∧
    cf_conv IType.schar IType.int 100 0 = (100, 0) :=
  ⟨(flag_iff_raises IType.int IType.int IType.schar 2147483647 1 0 0 (by decide)
      (by decide)).1.1.1 ⟨_, rfl⟩,
   (flag_iff_raises IType.int IType.int IType.schar 7 0 0 0 (by decide)
      (by decide)).2.2.2.1.1.1 ⟨_, rfl⟩,
   (flag_iff_raises IType.int IType.int IType.schar 5 2 0 0 (by decide)
      (by decide)).2.2.2.2.2.1.2 20 rfl,
   (flag_iff_raises IType.int IType.int IType.schar (-1) 0 40 0 (by decide)
      (by decide)).2.2.2.2.2.2.2.2.1.1 ⟨_, rfl⟩,
   (flag_iff_raises IType.int IType.int IType.schar 200 0 0 0 (by decide)
      (by decide)).2.2.2.2.2.2.2.1.2.1.2 (by decide),
   (flag_iff_raises IType.int IType.int IType.schar 200 0 0 0 (by decide)
      (by decide)).2.2.2.2.2.2.2.1.1.1
      ((flag_iff_raises IType.int IType.int IType.schar 200 0 0 0 (by decide)
        (by decide)).2.2.2.2.2.2.2.1.2.1.2 (by decide)),
   (flag_iff_raises IType.int IType.int IType.schar 100 0 0 0 (by decide)
      (by decide)).2.2.2.2.2.2.2.1.2.2 100 rfl⟩

/-! ## Values of the flagged and the truncating variants -/

/-- C30 fails on the code for `shl` with a left operand narrower than `int`:
`cf_shl((signed char)1, 1)` returns 2, as `cx_shl` does, but `tr_shl` has no
instantiation there, because `ia_bit_cast<UTR>(v1)` requires `v1` to be as
wide as `UTR`; so `tr_shl` returns no value to agree with. -/
theorem tr_shl_narrow_ill_formed :
    cf_shl IType.schar IType.int 1 1 0 = .ok (2, 0) ∧
    cx_shl IType.schar IType.int 1 1 = .ok 2 ∧
    tr_shl IType.schar IType.int 1 1 = .error .ill_formed ∧
    (∀ (T1 T2 : IType) (v s : Int), T1.width = Width.w8 ∨ T1.width = Width.w16 →
      tr_shl T1 T2 v s = .error .ill_formed) := by
  refine ⟨rfl, rfl, rfl, ?_⟩
  intro T1 T2 v s h
  rcases T1 with ⟨sg, w⟩
  rcases h with h | h <;> subst h <;> cases sg <;> rfl

/-- Closed form of `cf_shl`. -/
theorem cf_shl_eq (T1 T2 : IType) (v s f : Int) (hv : InRange T1 v) (hs : InRange T2 s) :
    cf_shl T1 T2 v s f =
      if s < 0 ∨ ((promote T1).digits : Int) ≤ s then .ok (0, 1)
      else .ok (wrap (promote T1) (v * 2 ^ s.toNat),
        if InRange (promote T1) (v * 2 ^ s.toNat) then f else 1) := by
  simp only [cf_shl, count_check T2 s hs _ (digits_le_64 _)]
  by_cases hc : s < 0 ∨ ((promote T1).digits : Int) ≤ s
  · simp [hc]
  · obtain ⟨e1, e2, e3, e4⟩ := shl_core T1 T2 v s hv hs (by omega) (by omega)
    simp only [e1, e3, e2, e4]
    by_cases hin : InRange (promote T1) (v * 2 ^ s.toNat)
    · simp [hc, hin]
    · simp [hc, hin]

/-- Closed form of `tr_shl` for a left operand at least as wide as `int`. -/
theorem tr_shl_eq (T1 T2 : IType) (v s : Int) (hw : T1.width = Width.w32 ∨ T1.width = Width.w64)
    (hv : InRange T1 v) (hs : InRange T2 s) :
    tr_shl T1 T2 v s =
      if s < 0 ∨ ((promote T1).digits : Int) ≤ s then .ok 0
      else .ok (wrap (promote T1) (v * 2 ^ s.toNat)) := by
  have hen : ia_bit_cast_enabled (promote T1).toUnsigned T1 = true := by
    rcases T1 with ⟨sg, w⟩
    rcases hw with h | h <;> subst h <;> cases sg <;> rfl
  simp only [tr_shl, hen, count_check T2 s hs _ (digits_le_64 _)]
  by_cases hc : s < 0 ∨ ((promote T1).digits : Int) ≤ s
  · simp [hc]
  · obtain ⟨e1, -, e3, -⟩ := shl_core T1 T2 v s hv hs (by omega) (by omega)
    simp only [ia_bit_cast] at e3 ⊢
    simp only [e1, e3]
    simp [hc]

/-- Outside `shl` on a narrow left operand the values agree: for add, sub,
mul, div, rem, shr, conv and ufit on every input, and for shl with a left
operand at least as wide as `int`, the value of the `cf_` variant is the value
of the `tr_` variant. -/
theorem cf_tr_value_agree (T1 T2 : IType) (a b : Int) (N : Nat) (f : Int)
    (ha : InRange T1 a) (hb : InRange T2 b) :
    (cf_add T1 T2 a b f).1 = tr_add T1 T2 a b ∧
    (cf_sub T1 T2 a b f).1 = tr_sub T1 T2 a b ∧
    (cf_mul T1 T2 a b f).1 = tr_mul T1 T2 a b ∧
    (cf_div T1 T2 a b f).map Prod.fst = tr_div T1 T2 a b ∧
    (cf_rem T1 T2 a b f).map Prod.fst = tr_rem T1 T2 a b ∧
    (cf_shr T1 T2 a b f).map Prod.fst = tr_shr T1 T2 a b ∧
    (cf_conv T1 T2 a f).1 = tr_conv T1 T2 a ∧
    (cf_ufit T1 a N f).map Prod.fst = tr_ufit T1 a N ∧
    (T1.width = Width.w32 ∨ T1.width = Width.w64 →
      (cf_shl T1 T2 a b f).map Prod.fst = tr_shl T1 T2 a b) := by
  refine ⟨?_, ?_, ?_, ?_, ?_, ?_, ?_, ?_, ?_⟩
  · unfold cf_add tr_add
    by_cases h : (builtin_add_overflow (arith T1 T2) a b).2 = true <;> simp [h]
  · unfold cf_sub tr_sub
    by_cases h : (builtin_sub_overflow (arith T1 T2) a b).2 = true <;> simp [h]
  · unfold cf_mul tr_mul
    by_cases h : (builtin_mul_overflow (arith T1 T2) a b).2 = true <;> simp [h]
  · unfold cf_div tr_div
    by_cases g0 : c_eq T2 IType.int b 0 = true
    · simp [g0, Except.map]
    · by_cases g1 : (T2.signed && (c_eq T2 IType.int b (-1) &&
          c_eq T1 (arith T1 T2) a (arith T1 T2).min)) = true
      · simp [g0, g1, Except.map]
      · cases h : native_div (arith T1 T2) (wrap (arith T1 T2) a)
          (wrap (arith T1 T2) b) <;> simp [g0, g1, h, Except.map]
  · unfold cf_rem tr_rem
    by_cases g0 : c_eq T2 IType.int b 0 = true
    · simp [g0, Except.map]
    · by_cases g1 : (T2.signed && (c_eq T2 IType.int b (-1) &&
          c_eq T1 (arith T1 T2) a (arith T1 T2).min)) = true
      · simp [g0, g1, Except.map]
      · cases h : native_rem (arith T1 T2) (wrap (arith T1 T2) a)
          (wrap (arith T1 T2) b) <;> simp [g0, g1, h, Except.map]
  · rw [cf_shr_eq T1 T2 a b f ha hb, tr_shr_eq T1 T2 a b ha hb]
    split <;> rfl
  · unfold cf_conv tr_conv
    by_cases h : (builtin_add_overflow T1 a 0).2 = true <;> simp [h]
  · rw [cf_ufit_eq T1 a N f ha, tr_ufit_eq T1 a N ha]
    split <;> rfl
  · intro hw
    rw [cf_shl_eq T1 T2 a b f ha hb, tr_shl_eq T1 T2 a b hw ha hb]
    split <;> rfl

/-! ## The result type -/

theorem tmod_between (x y : Int) :
    (0 ≤ x → 0 ≤ Int.tmod x y ∧ Int.tmod x y ≤ x) ∧
    (x ≤ 0 → x ≤ Int.tmod x y ∧ Int.tmod x y ≤ 0) := by
  have hdef := Int.tmod_def x y
  have hnat := Int.natAbs_tdiv x y
  constructor
  · intro hx
    have h1 := Int.tmod_nonneg y hx
    refine ⟨h1, ?_⟩
    by_cases hy : y = 0
    · subst hy
      simp
    · have h2 := abs_tmod_lt x y hy
      rw [abs_of_nonneg h1] at h2
      by_contra hgt
      have hq : Int.tdiv x y = 0 := by
        have h3 : x.natAbs < y.natAbs := by
          have : |y| = (y.natAbs : Int) := Int.abs_eq_natAbs y
          omega
        have h4 : x.natAbs / y.natAbs = 0 := Nat.div_eq_of_lt h3
        have h5 : (Int.tdiv x y).natAbs = 0 := by rw [hnat]; exact h4
        exact Int.natAbs_eq_zero.1 h5
      rw [hq] at hdef
      simp at hdef
      omega
  · intro hx
    have h1 := tmod_nonpos y hx
    refine ⟨?_, h1⟩
    by_cases hy : y = 0
    · subst hy
      simp
    · have h2 := abs_tmod_lt x y hy
      rw [abs_of_nonpos h1] at h2
      by_contra hgt
      have hq : Int.tdiv x y = 0 := by
        have h3 : x.natAbs < y.natAbs := by
          have : |y| = (y.natAbs : Int) := Int.abs_eq_natAbs y
          omega
        have h4 : x.natAbs / y.natAbs = 0 := Nat.div_eq_of_lt h3
        have h5 : (Int.tdiv x y).natAbs = 0 := by rw [hnat]; exact h4
        exact Int.natAbs_eq_zero.1 h5
      rw [hq] at hdef
      simp at hdef
      omega

theorem native_div_ok_inRange {TR : IType} {x y q : Int}
    (h : native_div TR x y = .ok q) : InRange TR q := by
  unfold native_div at h
  by_cases hy : y = 0
  · simp [hy] at h
  · by_cases hin : InRange TR (Int.tdiv x y)
    · simp [hy, hin] at h
      rw [← h]
      exact hin
    · simp [hy, hin] at h

theorem native_rem_ok_inRange {TR : IType} {x y r : Int} (hx : InRange TR x)
    (h : native_rem TR x y = .ok r) : InRange TR r := by
  unfold native_rem at h
  by_cases hy : y = 0
  · simp [hy] at h
  · by_cases hin : InRange TR (Int.tdiv x y)
    · simp [hy, hin] at h
      rw [← h]
      have hb := tmod_between x y
      have hmin := min_le_zero TR
      have hmax := zero_le_max TR
      have h1 := hx.1
      have h2 := hx.2
      rcases le_total 0 x with h0 | h0
      · have := hb.1 h0
        constructor <;> omega
      · have := hb.2 h0
        constructor <;> omega
    · simp [hy, hin] at h

/-- C31, as stated, fails: a `long` (64-bit signed) combined with an
`unsigned int` (32-bit unsigned) has the result type `long`, which is signed,
because `long` holds every `unsigned int` value; so `cx_add(-1L, 0u)` returns
-1, a value that no unsigned type has. -/
theorem long_with_uint_is_signed :
    arith IType.long IType.uint = IType.long ∧
    (promote IType.uint).signed = false ∧
    ¬ ((arith IType.long IType.uint).signed = false) ∧
    cx_add IType.long IType.uint (-1) 0 = .ok (-1) :=
  ⟨by decide, by decide, by decide, rfl⟩

/-- C31, amended: for every pair of operand types, the result type of
`cx_add`, `cx_sub`, `cx_mul`, `cx_div` and `cx_rem` has the larger of the two
operand widths after each is promoted to at least 32 bits, and it is unsigned
exactly when a promoted operand is unsigned and at least as wide as the other
promoted operand (so a 64-bit signed operand with a 32-bit unsigned one gives
the 64-bit signed type).  The three arithmetic functions return the exact
result exactly when it is a value of that type, and a quotient or remainder
that is returned is a value of that type. -/
theorem result_type_rule (T1 T2 : IType) (a b : Int) :
    (promote T1).bits = max T1.bits 32 ∧ (promote T2).bits = max T2.bits 32 ∧
    (arith T1 T2).bits = max (promote T1).bits (promote T2).bits ∧
    ((arith T1 T2).signed = false ↔
      (((promote T1).signed = false ∧ (promote T2).bits ≤ (promote T1).bits) ∨
       ((promote T2).signed = false ∧ (promote T1).bits ≤ (promote T2).bits))) ∧
    arith IType.long IType.uint = IType.long ∧
    ((∃ r, cx_add T1 T2 a b = .ok r) ↔ InRange (arith T1 T2) (a + b)) ∧
    ((∃ r, cx_sub T1 T2 a b = .ok r) ↔ InRange (arith T1 T2) (a - b)) ∧
    ((∃ r, cx_mul T1 T2 a b = .ok r) ↔ InRange (arith T1 T2) (a * b)) ∧
    (∀ q, cx_div T1 T2 a b = .ok q → InRange (arith T1 T2) q) ∧
    (∀ r, cx_rem T1 T2 a b = .ok r → InRange (arith T1 T2) r) := by
  refine ⟨?_, ?_, ?_, ?_, by decide, ?_, ?_, ?_, ?_, ?_⟩
  · rcases T1 with ⟨s, w⟩
    cases s <;> cases w <;> decide
  · rcases T2 with ⟨s, w⟩
    cases s <;> cases w <;> decide
  · rcases T1 with ⟨s1, w1⟩
    rcases T2 with ⟨s2, w2⟩
    cases s1 <;> cases w1 <;> cases s2 <;> cases w2 <;> decide
  · rcases T1 with ⟨s1, w1⟩
    rcases T2 with ⟨s2, w2⟩
    cases s1 <;> cases w1 <;> cases s2 <;> cases w2 <;> decide
  · unfold cx_add builtin_add_overflow
    by_cases h : InRange (arith T1 T2) (a + b)
    · simp [wrap_of_inRange h, h]
    · have hne : ¬ wrap (arith T1 T2) (a + b) = a + b := fun e => h ((wrap_eq_iff _ _).1 e)
      simp [hne, h]
  · unfold cx_sub builtin_sub_overflow
    by_cases h : InRange (arith T1 T2) (a - b)
    · simp [wrap_of_inRange h, h]
    · have hne : ¬ wrap (arith T1 T2) (a - b) = a - b := fun e => h ((wrap_eq_iff _ _).1 e)
      simp [hne, h]
  · unfold cx_mul builtin_mul_overflow
    by_cases h : InRange (arith T1 T2) (a * b)
    · simp [wrap_of_inRange h, h]
    · have hne : ¬ wrap (arith T1 T2) (a * b) = a * b := fun e => h ((wrap_eq_iff _ _).1 e)
      simp [hne, h]
  · intro q hq
    unfold cx_div at hq
    by_cases g0 : c_eq T2 IType.int b 0 = true
    · simp [g0] at hq
    · by_cases g1 : (T2.signed && (c_eq T2 IType.int b (-1) &&
          c_eq T1 (arith T1 T2) a (arith T1 T2).min)) = true
      · simp [g0, g1] at hq
      · simp only [g0, g1] at hq
        exact native_div_ok_inRange hq
  · intro r hr
    unfold cx_rem at hr
    by_cases g0 : c_eq T2 IType.int b 0 = true
    · simp [g0] at hr
    · by_cases g1 : (T2.signed && (c_eq T2 IType.int b (-1) &&
          c_eq T1 (arith T1 T2) a (arith T1 T2).min)) = true
      · simp [g0, g1] at hr
      · simp only [g0, g1] at hr
        exact native_rem_ok_inRange (wrap_inRange _ _) hr

/-! ## Division of an unsigned dividend by a signed divisor -/

/-- C32 fails on the code: `cx_div(5u, -1)` converts the divisor to
`unsigned int`, where it is 4294967295, and returns the quotient 0 without
throwing, while the quotient of the value 5 by the value -1 is -5. -/
theorem cx_div_uint_by_negative_int :
    arith IType.uint IType.int = IType.uint ∧
    cx_div IType.uint IType.int 5 (-1) = .ok 0 ∧
    Int.tdiv 5 (-1) = -5 ∧
    cx_div IType.uint IType.int 4294967295 (-1) = .ok 1 ∧
    cx_div IType.uint IType.int 0 (-1)
      = .error (.throws (.overflow_error "cx_div min neg")) :=
  ⟨by decide, rfl, by decide, rfl, rfl⟩

/-- With a positive `int` divisor the conversion keeps its value and
`cx_div` on an `unsigned int` dividend returns the exact quotient. -/
theorem cx_div_uint_by_positive_int (a b : Int) (ha : InRange IType.uint a)
    (hb : InRange IType.int b) (hpos : 0 < b) :
    cx_div IType.uint IType.int a b = .ok (Int.tdiv a b) := by
  have hT : arith IType.uint IType.int = IType.uint := by decide
  have hbU : InRange IType.uint b := by
    simp [InRange, IType.min, IType.max, IType.int, IType.uint, IType.digits, Width.bits]
      at *
    omega
  have ha0 : 0 ≤ a := ha.1
  have e0 : c_eq IType.int IType.int b 0 = decide (b = 0) := c_eq_zero hb
  have e1 : c_eq IType.int IType.int b (-1) = decide (b = -1) :=
    c_eq_of_inRange (by rw [arith_int]; exact inRange_promote hb)
      (by rw [arith_int]; decide)
  have hb0 : b ≠ 0 := by omega
  have hb1 : b ≠ -1 := by omega
  have hq : InRange IType.uint (Int.tdiv a b) := by
    have h1 := Int.tdiv_nonneg ha0 (le_of_lt hpos)
    have h2 : Int.tdiv a b ≤ a := by
      rw [Int.tdiv_eq_ediv ha0 (le_of_lt hpos)]
      exact Int.ediv_le_self b ha0
    have := ha.2
    exact ⟨h1, by omega⟩
  simp [cx_div, hT, e0, e1, hb0, hb1, native_div, wrap_of_inRange ha, wrap_of_inRange hbU, hq]

/-! ## The native division is reached only behind its guards -/

/-- C33: on two operands of one signed type, in `cx_div`, `cf_div`, `tr_div`,
`sr_div`, `cx_rem`, `cf_rem`, `tr_rem` (and `sr_rem`) the native division or
remainder is evaluated only when the divisor is not 0 and the pair is not
(`min()` of the result type, -1), where it is defined; on the two special
inputs, where it would be undefined, the functions answer before it.  So no
function ends in undefined behaviour, and the `tr_`, `sr_` and `cf_` variants
return a value for every input. -/
theorem guarded_division_defined (T : IType) (hs : T.signed = true) (a b f : Int)
    (ha : InRange T a) (hb : InRange T b) :
    (b ≠ 0 → ¬ (a = (arith T T).min ∧ b = -1) →
      native_div (arith T T) (wrap (arith T T) a) (wrap (arith T T) b)
        = .ok (Int.tdiv a b) ∧
      native_rem (arith T T) (wrap (arith T T) a) (wrap (arith T T) b)
        = .ok (Int.tmod a b)) ∧
    ((b = 0 ∨ (a = (arith T T).min ∧ b = -1)) →
      native_div (arith T T) (wrap (arith T T) a) (wrap (arith T T) b)
        = .error .undefined ∧
      native_rem (arith T T) (wrap (arith T T) a) (wrap (arith T T) b)
        = .error .undefined) ∧
    ((∃ q, tr_div T T a b = .ok q) ∧ (∃ q, sr_div T T a b = .ok q) ∧
      (∃ r, tr_rem T T a b = .ok r) ∧ (∃ r, sr_rem T T a b = .ok r) ∧
      (∃ p, cf_div T T a b f = .ok p) ∧ (∃ p, cf_rem T T a b f = .ok p)) ∧
    (cx_div T T a b ≠ .error .undefined ∧ cx_rem T T a b ≠ .error .undefined) := by
  obtain ⟨-, -, g2⟩ := div_guards_signed T hs a b ha hb
  have hft := flagged_truncating_div_rem T hs a b f ha hb
  have hsr := sr_div_cases T hs a b ha hb
  have hP := promote_signed T hs
  have haP := inRange_promote ha
  have hbP := inRange_promote hb
  refine ⟨g2, ?_, ?_, ?_⟩
  · intro hsp
    rw [arith_self, wrap_of_inRange haP, wrap_of_inRange hbP]
    rcases hsp with h0 | ⟨hmin, hm1⟩
    · simp [native_div, native_rem, h0]
    · rw [arith_self] at hmin
      have hnot : ¬ InRange (promote T) (Int.tdiv a b) := by
        rw [hm1, hmin, min_eq_of_signed _ hP]
        have e : Int.tdiv (-(2 ^ (promote T).digits)) (-1) = 2 ^ (promote T).digits := by
          simp [Int.tdiv_neg]
        rw [e]
        intro hin
        have := hin.2
        rw [max_eq] at this
        omega
      have hb0 : b ≠ 0 := by rw [hm1]; decide
      simp [native_div, native_rem, hb0, hnot]
  · by_cases h0 : b = 0
    · obtain ⟨c1, c2, c3, c4⟩ := hft.1 h0
      have hsd : ∃ q, sr_div T T a b = .ok q := by
        rcases lt_or_le a 0 with hn | hn
        · exact ⟨_, hsr.1 h0 hn⟩
        · exact ⟨_, hsr.2.1 h0 hn⟩
      exact ⟨⟨_, c2⟩, hsd, ⟨_, c4⟩, ⟨_, c4⟩, ⟨_, c1⟩, ⟨_, c3⟩⟩
    · by_cases hx : a = (arith T T).min ∧ b = -1
      · obtain ⟨c1, c2, c3, c4⟩ := hft.2.1 hx
        exact ⟨⟨_, c2⟩, ⟨_, hsr.2.2.1 hx⟩, ⟨_, c4⟩, ⟨_, c4⟩, ⟨_, c1⟩, ⟨_, c3⟩⟩
      · obtain ⟨c1, c2, c3, c4⟩ := hft.2.2 h0 hx
        exact ⟨⟨_, c2⟩, ⟨_, hsr.2.2.2 h0 hx⟩, ⟨_, c4⟩, ⟨_, c4⟩, ⟨_, c1⟩, ⟨_, c3⟩⟩
  · rw [cx_div_signed_eq T hs a b ha hb, cx_rem_signed_eq T hs a b ha hb]
    constructor <;> (split_ifs <;> simp)

/-- Witness of C33 on `int`: for (7, 2) the native operators are defined and
give 3 and 1; for (7, 0) and (`INT_MIN`, -1) they are undefined, and `tr_div`
and `sr_div` still return values. -/
theorem guarded_division_defined_witness :
    (native_div IType.int 7 2 = .ok 3 ∧ native_rem IType.int 7 2 = .ok 1) ∧
    native_div IType.int 7 0 = .error .undefined ∧
    native_div IType.int (-2147483648) (-1) = .error .undefined ∧
    (∃ q, tr_div IType.int IType.int (-2147483648) (-1) = .ok q) ∧
    (∃ q, sr_div IType.int IType.int 7 0 = .ok q) :=
  ⟨(guarded_division_defined IType.int rfl 7 2 0 (by decide) (by decide)).1 (by decide)
      (by decide),
   ((guarded_division_defined IType.int rfl 7 0 0 (by decide) (by decide)).2.1
      (Or.inl rfl)).1,
   ((guarded_division_defined IType.int rfl (-2147483648) (-1) 0 (by decide)
      (by decide)).2.1 (Or.inr ⟨rfl, rfl⟩)).1,
   (guarded_division_defined IType.int rfl (-2147483648) (-1) 0 (by decide)
      (by decide)).2.2.1.1,
   (guarded_division_defined IType.int rfl 7 0 0 (by decide) (by decide)).2.2.1.2.1⟩

/-! ## Saturating left shift as a clamp -/

/-- C34: for a left operand `v` of any integer type and a count `s ≥ 0` of
any integer type, accepted by the count check or not, `sr_shl` is the exact
product `v * 2 ^ s` clamped to the range of the result type. -/
theorem sr_shl_clamps (T1 T2 : IType) (v s : Int) (hv : InRange T1 v)
    (hs : InRange T2 s) (h0 : 0 ≤ s) :
    sr_shl T1 T2 v s = .ok
      (if v * 2 ^ s.toNat < (promote T1).min then (promote T1).min
       else if (promote T1).max < v * 2 ^ s.toNat then (promote T1).max
       else v * 2 ^ s.toNat) := by
  have hmin := min_le_zero (promote T1)
  have hmax := zero_le_max (promote T1)
  have hd := two_pow_pos s.toNat
  have hvP := inRange_promote hv
  rw [sr_shl_eq T1 T2 v s hv hs]
  by_cases hin : InRange (promote T1) (v * 2 ^ s.toNat)
  · have h1 : ¬ v * 2 ^ s.toNat < (promote T1).min := by have := hin.1; omega
    have h2 : ¬ (promote T1).max < v * 2 ^ s.toNat := by have := hin.2; omega
    by_cases hc : s < 0 ∨ ((promote T1).digits : Int) ≤ s
    · have hdig : (promote T1).digits ≤ s.toNat := by omega
      have hle : (2 : Int) ^ (promote T1).digits ≤ 2 ^ s.toNat := two_pow_le hdig
      have hmx := max_eq (promote T1)
      have hmn := neg_pow_le_min (promote T1)
      rcases lt_trichotomy v 0 with hneg | hz | hpos
      · have hp : v * 2 ^ s.toNat ≤ -(2 ^ s.toNat) := by nlinarith
        have heq : v * 2 ^ s.toNat = (promote T1).min := by
          have := hin.1
          omega
        rw [if_pos (Or.inl hc), if_pos hneg, if_neg h1, if_neg h2, heq]
      · subst hz
        simp [hc]
        omega
      · have hp : 2 ^ s.toNat ≤ v * 2 ^ s.toNat := by nlinarith
        have := hin.2
        omega
    · simp [hc, hin, h1, h2]
  · have hor : (s < 0 ∨ ((promote T1).digits : Int) ≤ s) ∨
        ¬ InRange (promote T1) (v * 2 ^ s.toNat) := Or.inr hin
    rw [if_pos hor]
    unfold InRange at hin
    rcases lt_trichotomy v 0 with hneg | hz | hpos
    · have hp : v * 2 ^ s.toNat < 0 := by nlinarith
      have h1 : v * 2 ^ s.toNat < (promote T1).min := by omega
      simp [hneg, h1]
    · subst hz
      simp at hin
      omega
    · have hp : 0 < v * 2 ^ s.toNat := by nlinarith
      have h1 : ¬ v * 2 ^ s.toNat < (promote T1).min := by omega
      have h2 : (promote T1).max < v * 2 ^ s.toNat := by omega
      have hn : ¬ v < 0 := by omega
      have hz : ¬ v = 0 := by omega
      simp [hn, hz, h1, h2]

/-- Witnesses of C34 on `int`: `sr_shl(5, 2) = 20`; `5 << 40` and `5 << 30`
clamp to `INT_MAX`, `-5 << 40` to `INT_MIN`; `-1 << 31` is `INT_MIN` exactly;
`0 << 40 = 0`. -/
theorem sr_shl_clamps_witness :
    sr_shl IType.int IType.int 5 2 = .ok 20 ∧
    sr_shl IType.int IType.int 5 40 = .ok 2147483647 ∧
    sr_shl IType.int IType.int 5 30 = .ok 2147483647 ∧
    sr_shl IType.int IType.int (-5) 40 = .ok (-2147483648) ∧
    sr_shl IType.int IType.int (-1) 31 = .ok (-2147483648) ∧
    sr_shl IType.int IType.int 0 40 = .ok 0 :=
  ⟨sr_shl_clamps IType.int IType.int 5 2 (by decide) (by decide) (by decide),
   sr_shl_clamps IType.int IType.int 5 40 (by decide) (by decide) (by decide),
   sr_shl_clamps IType.int IType.int 5 30 (by decide) (by decide) (by decide),
   sr_shl_clamps IType.int IType.int (-5) 40 (by decide) (by decide) (by decide),
   sr_shl_clamps IType.int IType.int (-1) 31 (by decide) (by decide) (by decide),
   sr_shl_clamps IType.int IType.int 0 40 (by decide) (by decide) (by decide)⟩

/-! ## Signed and unsigned fitting of a non-negative value -/

/-- C35: for a non-negative value `v` of any integer type and a bit count
`N ≥ 1`, `cx_sfit(v, N)` returns exactly when `cx_ufit(v, N - 1)` returns,
and both then return `v`. -/
theorem sfit_iff_ufit_pred (T : IType) (v : Int) (N : Nat) (hv : InRange T v)
    (h0 : 0 ≤ v) (hN : 1 ≤ N) :
    ((∃ r, cx_sfit T v N = .ok r) ↔ (∃ r, cx_ufit T v (N - 1) = .ok r)) ∧
    (cx_sfit T v N = .ok v ↔ cx_ufit T v (N - 1) = .ok v) := by
  have hsf := cx_sfit_spec T v N hv
  have hup := cx_ufit_spec T v (N - 1) hv
  have hpos := two_pow_pos (N - 1)
  by_cases hfit : v < 2 ^ (N - 1)
  · have e1 := hsf.1 ⟨hN, by omega, by omega⟩
    have e2 := hup.1 ⟨h0, hfit⟩
    rw [e1, e2]
    simp
  · obtain ⟨m1, e1⟩ := hsf.2 (fun h => hfit (by omega))
    obtain ⟨m2, e2⟩ := hup.2 (fun h => hfit h.2)
    rw [e1, e2]
    simp

/-- Witnesses of C35 on `int`: 9 fits 5 signed bits and 4 unsigned bits; it
fits neither 4 signed bits nor 3 unsigned bits. -/
theorem sfit_iff_ufit_pred_witness :
    ((∃ r, cx_sfit IType.int 9 5 = .ok r) ↔ (∃ r, cx_ufit IType.int 9 4 = .ok r)) ∧
    cx_ufit IType.int 9 4 = .ok 9 ∧
    ¬ (∃ r, cx_ufit IType.int 9 3 = .ok r) :=
  ⟨(sfit_iff_ufit_pred IType.int 9 5 (by decide) (by decide) (by decide)).1,
   (sfit_iff_ufit_pred IType.int 9 5 (by decide) (by decide) (by decide)).2.1 rfl,
   fun h => absurd
     ((sfit_iff_ufit_pred IType.int 9 4 (by decide) (by decide) (by decide)).1.2 h)
     (fun ⟨_, h2⟩ => by cases h2)⟩

end sia80
